import Mathlib

/-!
# gotcha: the request pipeline of `client.go`

A shallow embedding of `Client.DoRequest` and the helpers it calls
(`getTimeout`, `updateRequestCookies`, `getRequestCookies`, `CloseBody`,
`ParseBody`).  Go pointers to mutable records become explicit state passing;
the effects the claims talk about (transport dispatches, sleeps, closed
bodies) are recorded in a chronological trace.  A nil dereference is an
explicit `panic` result.
-/

namespace Gotcha

/-! ## Go standard library functions used by the client -/

/-- Token bytes of `net/textproto` (`validHeaderFieldByte`) and of `net/http`
(`isCookieNameValid`): ASCII letters, digits and the punctuation of RFC 7230. -/
def isTokenByte (c : Char) : Bool :=
  c.isAlphanum || "!#$%&*+-.^_|~".data.contains c || c.toNat = 39 || c.toNat = 96

/-- Inner loop of `textproto.canonicalMIMEHeaderKey`: upper-case the first
letter and every letter after a hyphen, lower-case the others. -/
def canonLoop : Bool → List Char → List Char
  | _, [] => []
  | upper, c :: cs =>
    let c1 := if upper then c.toUpper else c.toLower
    c1 :: canonLoop (c1 == '-') cs

/-- Go `textproto.CanonicalMIMEHeaderKey`: a key holding a byte that is not a
token byte is returned unchanged. -/
def CanonicalMIMEHeaderKey (s : String) : String :=
  if s.data.all isTokenByte then ⟨canonLoop true s.data⟩ else s

/-- Go `http.Header`, a map from canonical key to the list of values; the
association list holds the map's entries. -/
abbrev Header := List (String × List String)

/-- Go `Header.Get`: first value stored under the canonical form of `key`,
or the empty string. -/
def Header.Get (h : Header) (key : String) : String :=
  match h.lookup (CanonicalMIMEHeaderKey key) with
  | some (v :: _) => v
  | _ => ""

/-- Go `Header.Del`: delete the entry stored under the canonical form of `key`. -/
def Header.Del (h : Header) (key : String) : Header :=
  h.filter fun kv => kv.1 != CanonicalMIMEHeaderKey key

/-- Go `Header.Set`: the entry under the canonical form of `key` becomes the
single value `value`. -/
def Header.Set (h : Header) (key value : String) : Header :=
  (h.filter fun kv => kv.1 != CanonicalMIMEHeaderKey key) ++ [(CanonicalMIMEHeaderKey key, [value])]

/-- Values stored under the canonical form of `key` (Go `h.Values(key)`), the
empty list when the map has no such entry. -/
def Header.Values (h : Header) (key : String) : List String :=
  (h.lookup (CanonicalMIMEHeaderKey key)).getD []

/-- Whether the map has an entry under the canonical form of `key`. -/
def Header.Has (h : Header) (key : String) : Bool :=
  (h.lookup (CanonicalMIMEHeaderKey key)).isSome

/-- Go `unicode.IsSpace`. -/
def isSpace (c : Char) : Bool :=
  let n := c.toNat
  n = 9 || n = 10 || n = 11 || n = 12 || n = 13 || n = 32 || n = 0x85 || n = 0xA0 ||
  n = 0x1680 || (0x2000 ≤ n && n ≤ 0x200a) || n = 0x2028 || n = 0x2029 ||
  n = 0x202f || n = 0x205f || n = 0x3000

/-- Go `strings.TrimSpace`. -/
def TrimSpace (s : String) : String :=
  ⟨((s.data.dropWhile isSpace).reverse.dropWhile isSpace).reverse⟩

/-- Value of a non-empty run of decimal digits, most significant first. -/
def digitsValue : List Char → Nat → Option Nat
  | [], acc => some acc
  | c :: cs, acc => if c.isDigit then digitsValue cs (10 * acc + (c.toNat - 48)) else none

/-- Go `strconv.Atoi` on a 64-bit platform: an optional sign followed by at
least one decimal digit, the value within the `int` range. -/
def Atoi (s : String) : Option Int :=
  match s.data with
  | [] => none
  | '-' :: ds =>
    if ds = [] then none else
    match digitsValue ds 0 with
    | some n => if n ≤ 2 ^ 63 then some (-(n : Int)) else none
    | none => none
  | '+' :: ds =>
    if ds = [] then none else
    match digitsValue ds 0 with
    | some n => if n < 2 ^ 63 then some (n : Int) else none
    | none => none
  | ds =>
    match digitsValue ds 0 with
    | some n => if n < 2 ^ 63 then some (n : Int) else none
    | none => none

/-- Two's-complement wrap-around of Go `int64` arithmetic. -/
def wrapInt64 (x : Int) : Int := (x + 2 ^ 63) % 2 ^ 64 - 2 ^ 63

/-- Largest `time.Duration` (nanoseconds in an `int64`). -/
def maxDuration : Int := 2 ^ 63 - 1

/-- Smallest `time.Duration`. -/
def minDuration : Int := -(2 ^ 63)

/-- Go `time.Second`, in nanoseconds. -/
def Second : Int := 1000000000

/-- Go `Time.Sub` on instants given in nanoseconds: the difference, or the
largest (smallest) duration when the difference does not fit. -/
def timeSub (t u : Int) : Int :=
  if t - u > maxDuration then maxDuration
  else if t - u < minDuration then minDuration
  else t - u

/-- Time `time.Sleep d` pauses for: a negative or zero duration returns
immediately. -/
def sleptFor (d : Int) : Int := if d ≤ 0 then 0 else d

/-- Go `textproto.TrimString`: trim ASCII spaces and tabs at both ends. -/
def trimString (cs : List Char) : List Char :=
  let ows := fun (c : Char) => c == ' ' || c == '\t'
  ((cs.dropWhile ows).reverse.dropWhile ows).reverse

/-- Pieces of a line between occurrences of `sep`. -/
def splitOnChar (sep : Char) : List Char → List (List Char)
  | [] => [[]]
  | c :: cs =>
    if c = sep then [] :: splitOnChar sep cs
    else match splitOnChar sep cs with
      | [] => [[c]]
      | p :: ps => (c :: p) :: ps

/-- Go `strings.Cut(part, "=")`: the text before the first `=` and the text
after it (empty when there is none). -/
def cutEq : List Char → List Char × List Char
  | [] => ([], [])
  | c :: cs => if c = '=' then ([], cs) else ((c :: (cutEq cs).1), (cutEq cs).2)

/-- Go `http.validCookieValueByte`. -/
def validCookieValueByte (c : Char) : Bool :=
  0x20 ≤ c.toNat && c.toNat < 0x7f && c != '"' && c != ';' && c != '\\'

/-- Go `http.parseCookieValue` with double quotes allowed: enclosing quotes are
stripped, then every byte must be a valid cookie value byte. -/
def parseCookieValue (raw : List Char) : Option (List Char) :=
  let raw1 :=
    if 1 < raw.length && raw.head? == some '"' && raw.getLast? == some '"'
    then (raw.drop 1).dropLast else raw
  if raw1.all validCookieValueByte then some raw1 else none

/-- An `http.Cookie`, as far as the client reads it. -/
structure Cookie where
  Name : String
  Value : String
  deriving DecidableEq, Repr

/-- One `;`-separated part of a `Cookie` header line, as `http.readCookies`
reads it: no cookie for an empty part, an invalid name or an invalid value. -/
def readCookiePart (part : List Char) : Option Cookie :=
  let part := trimString part
  if part = [] then none else
  let name := trimString (cutEq part).1
  if name = [] || !name.all isTokenByte then none else
  match parseCookieValue (cutEq part).2 with
  | some val => some ⟨⟨name⟩, ⟨val⟩⟩
  | none => none

/-- Go `(*http.Request).Cookies()`: the cookies of every `Cookie` header line. -/
def readCookies (h : Header) : List Cookie :=
  (Header.Values h "Cookie").flatMap fun line =>
    (splitOnChar ';' (trimString line.data)).filterMap readCookiePart

/-! ## Data model -/

/-- A `*url.URL`, as far as the client reads it: `Hostname` and `Port` are what
the methods of these names return. -/
structure URL where
  Scheme : String
  Hostname : String
  Port : String
  Path : String
  RawQuery : String
  deriving DecidableEq, Repr

/-- Go `(*url.URL).String()`. -/
def URL.toString (u : URL) : String :=
  u.Scheme ++ "://" ++ u.Hostname ++ (if u.Port = "" then "" else ":" ++ u.Port) ++ u.Path ++
    (if u.RawQuery = "" then "" else "?" ++ u.RawQuery)

/-- Errors `DoRequest` returns: the two the client makes itself, and errors of
its collaborators (transport, URL resolution, marshaling, date parsing),
known by their message. -/
inductive GoError
  | text (msg : String)
  | maxRetriesExceeded
  | maxRedirectsExceeded (redirects : Nat)
  deriving DecidableEq, Repr

/-- Ordered key/value collection (`SearchParams`, `Form`). -/
abbrev Values := List (String × List String)

/-- The `Json` payload, a collection of members. -/
abbrev JSON := List (String × String)

/-- A request body stream (`io.ReadCloser`), known by its content. -/
structure Body where
  content : String
  deriving DecidableEq, Repr

/-- Data fields of `RetryOptions`; its `CalculateTimeout` function is a
capability of the environment. -/
structure RetryOptions where
  Limit : Int
  Methods : List String
  StatusCodes : List Int
  ErrorCodes : List String
  RetryAfter : Bool
  deriving DecidableEq, Repr

/-- Fields of `RedirectOptions` the client reads. -/
structure RedirectOptions where
  Limit : Int
  RewriteMethods : Bool
  deriving DecidableEq, Repr

/-- Fields of `Options` that `client.go` and `adapter.go` read or write.
`CookieJar` is kept only as present or absent; `retries` and `redirectUrls`
are the unexported bookkeeping fields. -/
structure Options where
  PrefixURL : String
  URI : String
  Url : Option URL
  FullUrl : Option URL
  Method : String
  SearchParams : Values
  Headers : Header
  Body : Option Body
  Form : Values
  Json : JSON
  Retry : Bool
  RetryOptions : Gotcha.RetryOptions
  FollowRedirect : Bool
  RedirectOptions : Gotcha.RedirectOptions
  Timeout : Int
  CookieJar : Option Unit
  retries : Nat
  redirectUrls : List URL
  deriving DecidableEq, Repr

/-- An `*http.Response`, as far as the client reads it.  `Body` names the body
stream (non-nil, as `net/http` guarantees for a response); `Cookies` is what
`Response.Cookies()` returns. -/
structure Response where
  StatusCode : Int
  Header : Header
  Body : Nat
  Cookies : List Cookie
  deriving DecidableEq, Repr

/-- The pair `(*http.Response, error)` an `Adapter.DoRequest` call returns;
either component may be nil.  An error is known by its `Error()` text. -/
structure AdapterResult where
  res : Option Response
  err : Option String
  deriving DecidableEq, Repr

/-- Observable effects of a request, in the order they happen. -/
inductive Event
  | dispatch (o : Options)
  | sleep (d : Int)
  | closeResponseBody (body : Nat)
  | closeRequestBody (b : Body)
  deriving DecidableEq, Repr

/-- Collaborators of the client whose code is outside `client.go`: functions
of the `Options` value (`Extend`, `MarshalJson`, `CalculateTimeout`, the
`Adapter`), of `internal/utils` (`GetFullUrl`) and of the ordered-values type
(`EncodeWithOrder`), the library's `http.ParseTime` and `time.Now`, and the
order in which `range` visits the entries of a Go map.  `Adapter n o` is
the answer to the dispatch made after `n` earlier ones; `Now n` is the clock
reading after `n` dispatches. -/
structure Env where
  Extend : Options → Options → Except GoError Options
  GetFullUrl : String → String → Except GoError URL
  EncodeWithOrder : Values → String
  MarshalJson : JSON → Except GoError String
  CalculateTimeout : Nat → RetryOptions → Int → Option GoError → Int
  ParseTime : String → Except GoError Int
  Now : Nat → Int
  Adapter : Nat → Options → AdapterResult
  mapOrder : List (String × List Cookie) → List (String × List Cookie)

/-- Modelled from the spec: `utils.StringArrayContains` of `internal/utils`,
which is not among the sources; the spec has the error signature being in the
configured set and the method in the configured method set. -/
def StringArrayContains (arr : List String) (s : String) : Bool := arr.contains s

/-- Modelled from the spec: `utils.IntArrayContains` of `internal/utils`, which
is not among the sources; the spec has the status being in the configured set. -/
def IntArrayContains (arr : List Int) (n : Int) : Bool := arr.contains n

/-- Modelled from the spec: the constant `RedirectStatusCodes`, declared
outside the sources; the spec lists the canonical redirect codes. -/
def RedirectStatusCodes : List Int := [301, 302, 303, 307, 308]

/-- State of a running request: the client's `options`, the number of
dispatches made and the effects so far. -/
structure St where
  options : Options
  calls : Nat
  trace : List Event
  deriving DecidableEq, Repr

/-- Result of a Go call that may panic or return `(value, error)`. -/
inductive Res (α : Type)
  | ok (a : α)
  | err (e : GoError)
  | panic
  deriving DecidableEq, Repr

/-- Decision a single attempt ends in: return to the caller, panic, or call
`c.DoRequest(method, url)` again. -/
inductive Next
  | done (res : Option Response) (err : Option GoError)
  | panic
  | again (method url : String)
  deriving DecidableEq, Repr

/-- What a `DoRequest` call ends in: the Go return values, a panic, or the
model running out of fuel before the call returned. -/
inductive Outcome
  | ret (res : Option Response) (err : Option GoError)
  | panic
  | outOfFuel
  deriving DecidableEq, Repr

/-! ## The client (`client.go`) -/

/-- `Client.getTimeout`; `now` is the reading of `time.Now()`.  A nil
`response` is dereferenced by `response.Header`. -/
def getTimeout (env : Env) (now : Int) (o : Options) : Option Response → Res Int
  | none => .panic
  | some response =>
    let retryAfter := TrimSpace (response.Header.Get "retry-after")
    if retryAfter = "" || o.RetryOptions.RetryAfter == false then .ok o.Timeout
    else
      match Atoi retryAfter with
      | some delay => .ok (wrapInt64 (Second * delay))
      | none =>
        match env.ParseTime retryAfter with
        | .ok dateTime => .ok (timeSub dateTime now)
        | .error err => .err err

/-- Statement `cookies[c.Name] = append(cookies[c.Name], c)` of `getRequestCookies`, on
the entries of the map: the entry of that name gets the cookie appended, a new entry is
made when there is none. -/
def addCookie : List (String × List Cookie) → Cookie → List (String × List Cookie)
  | [], c => [(c.Name, [c])]
  | (k, cs) :: rest, c =>
    if k = c.Name then (k, cs ++ [c]) :: rest else (k, cs) :: addCookie rest c

/-- `Client.getRequestCookies`: the manually set cookies grouped by name, or
nil (`none`) without a cookie jar or without a `cookie` header. -/
def getRequestCookies (o : Options) : Option (List (String × List Cookie)) :=
  if o.CookieJar.isSome && o.Headers.Get "cookie" != "" then
    some ((readCookies o.Headers).foldl addCookie [])
  else none

/-- First loop of `updateRequestCookies`: every response cookie whose name is a
key of the map deletes that key and sets `changed`. -/
def dropResponseCookies (cookies : List (String × List Cookie)) (changed : Bool) :
    List Cookie → List (String × List Cookie) × Bool
  | [] => (cookies, changed)
  | cookie :: rest =>
    if cookies.any (fun kv => kv.1 == cookie.Name)
    then dropResponseCookies (cookies.filter fun kv => kv.1 != cookie.Name) true rest
    else dropResponseCookies cookies changed rest

/-- `Client.updateRequestCookies`. -/
def updateRequestCookies (env : Env) (o : Options) (response : Response) : Options :=
  match getRequestCookies o with
  | none => o
  | some cookies =>
    if o.CookieJar.isSome then
      let r := dropResponseCookies cookies false response.Cookies
      if r.2 then
        let cks := (env.mapOrder r.1).flatMap fun kv =>
          kv.2.map fun cookie => cookie.Name ++ "=" ++ cookie.Value
        { o with Headers := (o.Headers.Del "Cookie").Set "Cookie" ("; ".intercalate cks) }
      else o
    else o

/-- `Client.CloseBody`: close the body if there is one, then clear `Body`,
`Form` and `Json`. -/
def CloseBody (s : St) : St :=
  { s with
    options := { s.options with Body := none, Form := [], Json := [] }
    trace := match s.options.Body with
      | some b => s.trace ++ [.closeRequestBody b]
      | none => s.trace }

/-- `Client.ParseBody`: the options after the call and the error it returns. -/
def ParseBody (env : Env) (o : Options) : Options × Option GoError :=
  if o.Form.length ≠ 0 then
    ({ o with Body := some ⟨env.EncodeWithOrder o.Form⟩ }, none)
  else if o.Json.length ≠ 0 then
    match env.MarshalJson o.Json with
    | .error err => (o, some err)
    | .ok bytes => ({ o with Body := some ⟨bytes⟩ }, none)
  else (o, none)

/-- The `retry` closure of `DoRequest` (lines 57-66), up to its recursive call. -/
def retry (env : Env) (method url : String) (s : St) (res : Option Response)
    (err : Option GoError) : Next × St :=
  match getTimeout env (env.Now s.calls) s.options res with
  | .panic => (.panic, s)
  | .err e => (.done none (some e), s)
  | .ok timeout =>
    let timeout := env.CalculateTimeout s.options.retries s.options.RetryOptions timeout err
    (.again method url,
      { s with
        options := { s.options with retries := s.options.retries + 1 }
        trace := s.trace ++ [.sleep timeout] })

/-- Lines 92-95 of `DoRequest`: the method becomes GET, the payload is cleared
and the two content headers are deleted. -/
def rewriteToGet (s : St) : St :=
  let s1 := CloseBody { s with options := { s.options with Method := "GET" } }
  { s1 with options := { s1.options with
      Headers := (s1.options.Headers.Del "content-length").Del "content-type" } }

/-- Lines 91-96 of `DoRequest`: the method rewrite of a redirect. -/
def rewriteMethod (s : St) (res : Response) : St :=
  if s.options.RedirectOptions.RewriteMethods ∨
      (res.StatusCode = 303 ∧ s.options.Method ≠ "GET" ∧ s.options.Method ≠ "HEAD")
  then rewriteToGet s else s

/-- Lines 104-109 of `DoRequest`: sensitive headers are removed when the redirect
leaves the current host or port. -/
def stripSensitive (o : Options) (currentUrl redirectUrl : URL) : Options :=
  if redirectUrl.Hostname ≠ currentUrl.Hostname ∨ redirectUrl.Port ≠ currentUrl.Port
  then { o with Headers := ((o.Headers.Del "host").Del "cookie").Del "authorization" }
  else o

/-- Lines 85-117 of `DoRequest`: the redirect branch, up to its recursive call. -/
def redirect (env : Env) (s0 : St) (res : Response) : Next × St :=
  let s1 : St := { s0 with trace := s0.trace ++ [.closeResponseBody res.Body] }
  if s1.options.RedirectOptions.Limit ≠ 0 ∧
      (s1.options.redirectUrls.length : Int) ≥ s1.options.RedirectOptions.Limit then
    (.done none (some (.maxRedirectsExceeded s1.options.redirectUrls.length)), s1)
  else
    let s := rewriteMethod s1 res
    match s.options.FullUrl with
    | none => (.panic, s)
    | some currentUrl =>
      match env.GetFullUrl currentUrl.toString (res.Header.Get "location") with
      | .error err => (.done none (some err), s)
      | .ok redirectUrl =>
        let o := updateRequestCookies env (stripSensitive s.options currentUrl redirectUrl) res
        let o1 := { o with PrefixURL := "", redirectUrls := o.redirectUrls ++ [redirectUrl] }
        (.again o1.Method redirectUrl.toString, { s with options := o1 })

/-- Lines 68-120 of `DoRequest`: dispatch to the adapter and decide between
returning, retrying and redirecting. -/
def attempt (env : Env) (method url : String) (s0 : St) : Next × St :=
  let r := env.Adapter s0.calls s0.options
  let s : St := { s0 with calls := s0.calls + 1, trace := s0.trace ++ [.dispatch s0.options] }
  match r.err with
  | some err =>
    if s.options.Retry ∧ (s.options.retries : Int) < s.options.RetryOptions.Limit ∧
        StringArrayContains s.options.RetryOptions.ErrorCodes err then
      retry env method url s r.res (some (.text err))
    else (.done none (some (.text err)), s)
  | none =>
    match r.res with
    | none =>
      if s.options.Retry then (.panic, s)
      else if s.options.FollowRedirect then (.panic, s)
      else (.done none none, s)
    | some res =>
      if s.options.Retry ∧ IntArrayContains s.options.RetryOptions.StatusCodes res.StatusCode ∧
          StringArrayContains s.options.RetryOptions.Methods method then
        if (s.options.retries : Int) ≥ s.options.RetryOptions.Limit then
          (.done (some res) (some .maxRetriesExceeded), s)
        else retry env method url s (some res) none
      else if s.options.FollowRedirect ∧ res.Header.Get "location" ≠ "" ∧
          IntArrayContains RedirectStatusCodes res.StatusCode then
        redirect env s res
      else (.done (some res) none, s)

/-- Loop over the per-call `options` at the head of `DoRequest`. -/
def extendAll (env : Env) (o : Options) : List Options → Except GoError Options
  | [] => .ok o
  | option :: rest =>
    match env.Extend o option with
    | .error err => .error err
    | .ok o1 => extendAll env o1 rest

/-- Lines 46-54 of `DoRequest`: store the target, re-encode the query and run
`ParseBody`, whose error `DoRequest` does not look at. -/
def prepare (env : Env) (method url : String) (u : URL) (o : Options) : Options :=
  let o1 := { o with FullUrl := some u, Method := method, URI := url }
  let o2 := if o1.SearchParams.length ≠ 0
    then { o1 with FullUrl := some { u with RawQuery := env.EncodeWithOrder o1.SearchParams } }
    else o1
  (ParseBody env o2).1

/-- `Client.DoRequest`.  The recursion of the Go function is bounded by
`fuel`; the deferred `CloseBody` runs when a call returns, after the calls it
made itself.  A failing `Extend` leaves `c.options` as `Extend` returned
it, which the state does not record. -/
def DoRequest (env : Env) : Nat → String → String → List Options → St → Outcome × St
  | 0, _, _, _, s => (.outOfFuel, s)
  | fuel + 1, method, url, options, s =>
    match extendAll env s.options options with
    | .error err => (.ret none (some err), s)
    | .ok o =>
      match env.GetFullUrl o.PrefixURL url with
      | .error err => (.ret none (some err), { s with options := o })
      | .ok u =>
        match attempt env method url { s with options := prepare env method url u o } with
        | (.done res err, s1) => (.ret res err, CloseBody s1)
        | (.panic, s1) => (.panic, CloseBody s1)
        | (.again m target, s1) =>
          let r := DoRequest env fuel m target [] s1
          (r.1, CloseBody r.2)

/-- Options handed to the adapter, dispatch after dispatch, read off a trace. -/
def dispatched : List Event → List Options
  | [] => []
  | .dispatch o :: rest => o :: dispatched rest
  | _ :: rest => dispatched rest

/-! ## The basic adapter (`adapter.go`) -/

/-- An `*http.Request`, as `RequestAdapter.DoRequest` builds it. -/
structure Request where
  Method : String
  URL : Option URL
  Header : Header
  Body : Option Body
  deriving DecidableEq, Repr

/-- `RequestAdapter`: its `Request` field, nil (`none`) when unspecified.  The
`RoundTripper` is a collaborator, given to `DoRequest` as a function. -/
structure RequestAdapter where
  Request : Option Gotcha.Request
  deriving DecidableEq, Repr

/-- `RequestAdapter.DoRequest`: the adapter after the call (its `Request` field is
assigned when it was nil), the request handed to `RoundTrip`, and the pair returned.
A request kept from an earlier call holds the method, url and body of that call; its
`Header` is the Go map taken then, recorded here with the content it had. -/
def RequestAdapter.DoRequest (roundTrip : Gotcha.Request → AdapterResult) (ra : RequestAdapter)
    (options : Options) : RequestAdapter × Gotcha.Request × AdapterResult :=
  let req : Gotcha.Request :=
    match ra.Request with
    | none =>
      { Method := options.Method, URL := options.Url, Header := options.Headers,
        Body := options.Body }
    | some r => r
  match (roundTrip req).err with
  | some err => (⟨some req⟩, req, ⟨none, some err⟩)
  | none => (⟨some req⟩, req, ⟨(roundTrip req).res, none⟩)

/-! ## Proof vocabulary -/

/-- What one attempt started in state `s` with `method` and `url` may end in, as a
relation between `s` and the result `r`: one more dispatch, limits and switches
untouched, and either the call ends with both counters as they were, or it retries with
the retry counter (below its limit) one higher, or it follows a redirect with the
visited list (below its limit) one longer and the prefix cleared. -/
def AttemptFrame (method url : String) (s : St) (r : Next × St) : Prop :=
  r.2.calls = s.calls + 1 ∧
  r.2.options.RetryOptions = s.options.RetryOptions ∧
  r.2.options.RedirectOptions = s.options.RedirectOptions ∧
  r.2.options.Retry = s.options.Retry ∧
  r.2.options.FollowRedirect = s.options.FollowRedirect ∧
  (((∀ m t, r.1 ≠ .again m t) ∧
      r.2.options.retries = s.options.retries ∧
      r.2.options.redirectUrls = s.options.redirectUrls) ∨
    (r.1 = .again method url ∧
      (s.options.retries : Int) < s.options.RetryOptions.Limit ∧
      r.2.options.retries = s.options.retries + 1 ∧
      r.2.options.redirectUrls = s.options.redirectUrls ∧
      r.2.options.PrefixURL = s.options.PrefixURL) ∨
    ((∃ m v, r.1 = .again m (URL.toString v) ∧
        r.2.options.redirectUrls = s.options.redirectUrls ++ [v]) ∧
      ¬ (s.options.RedirectOptions.Limit ≠ 0 ∧
        (s.options.redirectUrls.length : Int) ≥ s.options.RedirectOptions.Limit) ∧
      r.2.options.retries = s.options.retries ∧
      r.2.options.PrefixURL = ""))

/-! ## Concrete clients and collaborators used as test inputs -/

/-- A client configuration with retrying (limit 2) and redirect-following (limit 2)
enabled, fresh counters and a request timeout of one second. -/
def sampleOptions : Options :=
  { PrefixURL := "", URI := "", Url := none, FullUrl := none, Method := "", SearchParams := [],
    Headers := [], Body := none, Form := [], Json := [], Retry := true,
    RetryOptions := ⟨2, ["GET"], [503], ["ETIMEDOUT"], true⟩, FollowRedirect := true,
    RedirectOptions := ⟨2, false⟩, Timeout := 1000000000, CookieJar := none, retries := 0,
    redirectUrls := [] }

/-- The url `http://a.test/`. -/
def sampleUrl : URL := ⟨"http", "a.test", "", "/", ""⟩

/-- The url `http://b.test/`, on another host. -/
def otherUrl : URL := ⟨"http", "b.test", "", "/", ""⟩

/-- Collaborators around a given transport: the reference `http://b.test/` resolves to
`otherUrl` and every other one to `sampleUrl`, the backoff returns the base wait, the
only HTTP date known is the epoch (instant 0), the clock stands 1000 seconds after the
epoch and a map is visited in insertion order. -/
def sampleEnv (adapter : Nat → Options → AdapterResult) : Env :=
  { Extend := fun _ o => .ok o
    GetFullUrl := fun _ ref => .ok (if ref = "http://b.test/" then otherUrl else sampleUrl)
    EncodeWithOrder := fun _ => ""
    MarshalJson := fun _ => .ok ""
    CalculateTimeout := fun _ _ t _ => t
    ParseTime := fun s =>
      if s = "Thu, 01 Jan 1970 00:00:00 GMT" then .ok 0 else .error (.text "not a date")
    Now := fun _ => 1000 * Second
    Adapter := adapter
    mapOrder := id }

/-- A transport that fails every time with `ETIMEDOUT` and no response, as
`RequestAdapter.DoRequest` does on a round-trip error. -/
def timeoutAdapter : Nat → Options → AdapterResult :=
  fun _ _ => ⟨none, some "ETIMEDOUT"⟩

/-- A transport that fails every time with `ETIMEDOUT` and hands back a bare response
next to the error. -/
def timeoutWithResponseAdapter : Nat → Options → AdapterResult :=
  fun _ _ => ⟨some ⟨0, [], 0, []⟩, some "ETIMEDOUT"⟩

/-- A transport that always answers 302 with `Location: /next`. -/
def redirectingAdapter : Nat → Options → AdapterResult :=
  fun _ _ => ⟨some ⟨302, [("Location", ["/next"])], 7, []⟩, none⟩

/-- A 503 response carrying the given `Retry-After` value. -/
def retryAfterResponse (v : String) : Response := ⟨503, [("Retry-After", [v])], 3, []⟩

/-- A transport that always answers with the given response. -/
def answeringAdapter (r : Response) : Nat → Options → AdapterResult :=
  fun _ _ => ⟨some r, none⟩

/-- A POST configuration with a body and the two content headers, an authorization
header and a manual cookie header, with a cookie jar. -/
def postOptions : Options :=
  { sampleOptions with
    Headers := [("Content-Type", ["text/plain"]), ("Content-Length", ["2"]),
      ("Authorization", ["Bearer t"]), ("Cookie", ["a=1; b=2"])]
    Body := some ⟨"hi"⟩
    CookieJar := some () }

/-- A plain 200 response. -/
def okResponse : Response := ⟨200, [], 4, []⟩

/-- A plain 503 response, without a retry-after header. -/
def unavailableResponse : Response := ⟨503, [], 3, []⟩

/-- A transport whose first three answers are `ETIMEDOUT` failures (next to a bare
response), whose fourth is a 503 and whose later ones are 200. -/
def failThriceAdapter : Nat → Options → AdapterResult :=
  fun n _ =>
    if n < 3 then ⟨some ⟨0, [], 0, []⟩, some "ETIMEDOUT"⟩
    else if n = 3 then ⟨some unavailableResponse, none⟩
    else ⟨some okResponse, none⟩

/-- A transport that first redirects to `http://b.test/`, then answers 503, then 200. -/
def redirectThenUnavailableAdapter : Nat → Options → AdapterResult :=
  fun n _ =>
    if n = 0 then ⟨some ⟨302, [("Location", ["http://b.test/"])], 7, []⟩, none⟩
    else if n = 1 then ⟨some unavailableResponse, none⟩
    else ⟨some okResponse, none⟩

/-- A transport that first answers 503, then 200. -/
def unavailableThenOkAdapter : Nat → Options → AdapterResult :=
  fun n _ => if n = 0 then ⟨some unavailableResponse, none⟩ else ⟨some okResponse, none⟩

/-- The collaborators of `sampleEnv` with a marshal function that always fails. -/
def failingMarshalEnv (adapter : Nat → Options → AdapterResult) : Env :=
  { sampleEnv adapter with MarshalJson := fun _ => .error (.text "marshal failed") }

/-- A configuration with a `Json` payload and no `Form`. -/
def jsonOptions : Options := { sampleOptions with Json := [("k", "v")] }

/-- A round tripper that answers every request with a plain 200. -/
def okRoundTrip : Request → AdapterResult := fun _ => ⟨some okResponse, none⟩

/-- A POST configuration whose header map was filled with lower-case keys, as a Go map
literal `http.Header{"content-type": ...}` is, with a body. -/
def lowerCaseOptions : Options :=
  { sampleOptions with
    Headers := [("content-type", ["text/plain"]), ("content-length", ["2"]),
      ("authorization", ["Bearer t"]), ("cookie", ["a=1"]), ("host", ["a.test"])]
    Body := some ⟨"hi"⟩ }

/-- A transport that first answers 303 with `Location: /next`, then 200. -/
def seeOtherThenOkAdapter : Nat → Options → AdapterResult :=
  fun n _ =>
    if n = 0 then ⟨some ⟨303, [("Location", ["/next"])], 7, []⟩, none⟩
    else ⟨some okResponse, none⟩

/-- A transport that first answers 302 with `Location: http://b.test/`, then 200. -/
def otherHostThenOkAdapter : Nat → Options → AdapterResult :=
  fun n _ =>
    if n = 0 then ⟨some ⟨302, [("Location", ["http://b.test/"])], 7, []⟩, none⟩
    else ⟨some okResponse, none⟩

/-- A transport that first answers 503 with the epoch as retry-after date, then 200. -/
def pastDateThenOkAdapter : Nat → Options → AdapterResult :=
  fun n _ =>
    if n = 0 then ⟨some (retryAfterResponse "Thu, 01 Jan 1970 00:00:00 GMT"), none⟩
    else ⟨some okResponse, none⟩

/-- The collaborators of `sampleEnv` with a backoff that adds 2000 seconds to the base
wait. -/
def addingBackoffEnv (adapter : Nat → Options → AdapterResult) : Env :=
  { sampleEnv adapter with CalculateTimeout := fun _ _ t _ => t + 2000 * Second }

/-! ## Frame lemmas: what each step leaves alone -/

theorem ParseBody_shape (env : Env) (o : Options) :
    ∃ b, (ParseBody env o).1 = { o with Body := b } := by
  unfold ParseBody
  split_ifs
  · exact ⟨_, rfl⟩
  · split
    · exact ⟨o.Body, rfl⟩
    · exact ⟨_, rfl⟩
  · exact ⟨o.Body, rfl⟩

theorem prepare_shape (env : Env) (method url : String) (u : URL) (o : Options) :
    ∃ b q, prepare env method url u o =
      { o with FullUrl := some { u with RawQuery := q }, Method := method, URI := url, Body := b } := by
  unfold prepare
  dsimp only
  by_cases h : o.SearchParams.length ≠ 0
  · rw [if_pos h]
    obtain ⟨b, hb⟩ := ParseBody_shape env
      { o with FullUrl := some { u with RawQuery := env.EncodeWithOrder o.SearchParams },
               Method := method, URI := url }
    exact ⟨b, _, hb⟩
  · rw [if_neg h]
    obtain ⟨b, hb⟩ := ParseBody_shape env { o with FullUrl := some u, Method := method, URI := url }
    exact ⟨b, u.RawQuery, hb⟩

theorem updateRequestCookies_shape (env : Env) (o : Options) (res : Response) :
    ∃ h, updateRequestCookies env o res = { o with Headers := h } := by
  unfold updateRequestCookies
  split
  · exact ⟨o.Headers, rfl⟩
  · dsimp only
    split_ifs
    · exact ⟨_, rfl⟩
    · exact ⟨o.Headers, rfl⟩
    · exact ⟨o.Headers, rfl⟩

theorem CloseBody_calls (s : St) : (CloseBody s).calls = s.calls := rfl

theorem CloseBody_retries (s : St) : (CloseBody s).options.retries = s.options.retries := rfl

theorem StringArrayContains_iff (arr : List String) (x : String) :
    StringArrayContains arr x = true ↔ x ∈ arr := by
  simp [StringArrayContains]

theorem IntArrayContains_iff (arr : List Int) (x : Int) :
    IntArrayContains arr x = true ↔ x ∈ arr := by
  simp [IntArrayContains]

/-- One unfolding of `DoRequest` when the per-call options merge and the target
resolves. -/
theorem DoRequest_succ (env : Env) (fuel : Nat) (method url : String) (options : List Options)
    (s : St) (o : Options) (u : URL)
    (hext : extendAll env s.options options = .ok o)
    (hu : env.GetFullUrl o.PrefixURL url = .ok u) :
    DoRequest env (fuel + 1) method url options s =
      match attempt env method url { s with options := prepare env method url u o } with
      | (.done res err, s1) => (.ret res err, CloseBody s1)
      | (.panic, s1) => (.panic, CloseBody s1)
      | (.again m target, s1) =>
        ((DoRequest env fuel m target [] s1).1, CloseBody (DoRequest env fuel m target [] s1).2) := by
  simp only [DoRequest, hext, hu]

/-- A transport error that does not qualify for a retry (retrying disabled, or the
retry counter not below the limit, or the message outside the retryable-error set) is
returned as it is, with no response, after that single dispatch, and the retry counter
keeps its value. -/
theorem DoRequest_transport_error (env : Env) (fuel : Nat) (method url : String)
    (options : List Options) (s : St) (o : Options) (u : URL) (res : Option Response)
    (msg : String)
    (hext : extendAll env s.options options = .ok o)
    (hu : env.GetFullUrl o.PrefixURL url = .ok u)
    (hadapter : env.Adapter s.calls (prepare env method url u o) = ⟨res, some msg⟩)
    (hno : o.Retry = false ∨ ¬ ((o.retries : Int) < o.RetryOptions.Limit) ∨
      msg ∉ o.RetryOptions.ErrorCodes) :
    DoRequest env (fuel + 1) method url options s =
      (.ret none (some (.text msg)),
        CloseBody ⟨prepare env method url u o, s.calls + 1,
          s.trace ++ [.dispatch (prepare env method url u o)]⟩) ∧
    (DoRequest env (fuel + 1) method url options s).2.calls = s.calls + 1 ∧
    (DoRequest env (fuel + 1) method url options s).2.options.retries = o.retries := by
  obtain ⟨b, q, hp⟩ := prepare_shape env method url u o
  have hcond : ¬ ((prepare env method url u o).Retry = true ∧
      ((prepare env method url u o).retries : Int) < (prepare env method url u o).RetryOptions.Limit ∧
      StringArrayContains (prepare env method url u o).RetryOptions.ErrorCodes msg = true) := by
    rw [hp, StringArrayContains_iff]
    rintro ⟨h1, h2, h3⟩
    rcases hno with h | h | h
    · rw [h] at h1; exact Bool.noConfusion h1
    · exact h h2
    · exact h h3
  have hstep : DoRequest env (fuel + 1) method url options s =
      (.ret none (some (.text msg)),
        CloseBody ⟨prepare env method url u o, s.calls + 1,
          s.trace ++ [.dispatch (prepare env method url u o)]⟩) := by
    rw [DoRequest_succ env fuel method url options s o u hext hu]
    simp only [attempt, hadapter, hcond, if_false]
  refine ⟨hstep, ?_, ?_⟩
  · rw [hstep]; rfl
  · rw [hstep, hp]; rfl

/-- The state in which the adapter's answer is examined: the prepared options, one more
dispatch counted and recorded. -/
theorem attempt_dispatch (env : Env) (method url : String) (s : St) :
    attempt env method url s =
      (let r := env.Adapter s.calls s.options
       let s1 : St := ⟨s.options, s.calls + 1, s.trace ++ [.dispatch s.options]⟩
       match r.err with
       | some err =>
         if s1.options.Retry ∧ (s1.options.retries : Int) < s1.options.RetryOptions.Limit ∧
             StringArrayContains s1.options.RetryOptions.ErrorCodes err then
           retry env method url s1 r.res (some (.text err))
         else (.done none (some (.text err)), s1)
       | none =>
         match r.res with
         | none =>
           if s1.options.Retry then (.panic, s1)
           else if s1.options.FollowRedirect then (.panic, s1)
           else (.done none none, s1)
         | some res =>
           if s1.options.Retry ∧
               IntArrayContains s1.options.RetryOptions.StatusCodes res.StatusCode ∧
               StringArrayContains s1.options.RetryOptions.Methods method then
             if (s1.options.retries : Int) ≥ s1.options.RetryOptions.Limit then
               (.done (some res) (some .maxRetriesExceeded), s1)
             else retry env method url s1 (some res) none
           else if s1.options.FollowRedirect ∧ res.Header.Get "location" ≠ "" ∧
               IntArrayContains RedirectStatusCodes res.StatusCode then
             redirect env s1 res
           else (.done (some res) none, s1)) := rfl

/-- Retry loop on a transport that fails every time with a retryable error and a
response from which the wait can be computed: with `d` retries left, the call makes
`d + 1` dispatches and returns the error of the last one. -/
theorem DoRequest_retry_loop (env : Env) (msg : Nat → String) (L : Nat) :
    ∀ (d fuel : Nat) (method url : String) (options : List Options) (s : St) (o : Options)
      (u : URL),
      extendAll env s.options options = .ok o →
      env.GetFullUrl o.PrefixURL url = .ok u →
      o.Retry = true → o.RetryOptions.Limit = (L : Int) → o.retries + d = L →
      (∀ i, msg i ∈ o.RetryOptions.ErrorCodes) →
      (∀ i o1, ∃ r t, env.Adapter i o1 = ⟨some r, some (msg i)⟩ ∧
        getTimeout env (env.Now (i + 1)) o1 (some r) = .ok t) →
      d < fuel →
      (DoRequest env fuel method url options s).1 = .ret none (some (.text (msg (s.calls + d)))) ∧
      (DoRequest env fuel method url options s).2.calls = s.calls + d + 1 ∧
      (DoRequest env fuel method url options s).2.options.retries = L := by
  intro d
  induction d with
  | zero =>
    intro fuel method url options s o u hext hu hretry hlim hcount hmsg hfail hfuel
    obtain ⟨f, rfl⟩ : ∃ f, fuel = f + 1 := ⟨fuel - 1, by omega⟩
    obtain ⟨r, t, hr, -⟩ := hfail s.calls (prepare env method url u o)
    have h := DoRequest_transport_error env f method url options s o u (some r) (msg s.calls)
      hext hu hr (Or.inr (Or.inl (by rw [hlim]; omega)))
    refine ⟨by rw [h.1]; rfl, h.2.1, ?_⟩
    rw [h.2.2]; omega
  | succ d ih =>
    intro fuel method url options s o u hext hu hretry hlim hcount hmsg hfail hfuel
    obtain ⟨f, rfl⟩ : ∃ f, fuel = f + 1 := ⟨fuel - 1, by omega⟩
    obtain ⟨r, t, hr, ht⟩ := hfail s.calls (prepare env method url u o)
    obtain ⟨b, q, hp⟩ := prepare_shape env method url u o
    have hR : (prepare env method url u o).Retry = true := by rw [hp]; exact hretry
    have hRO : (prepare env method url u o).RetryOptions = o.RetryOptions := by rw [hp]
    have hn : (prepare env method url u o).retries = o.retries := by rw [hp]
    have hP : (prepare env method url u o).PrefixURL = o.PrefixURL := by rw [hp]
    have hcond : (prepare env method url u o).Retry = true ∧
        ((prepare env method url u o).retries : Int) <
          (prepare env method url u o).RetryOptions.Limit ∧
        StringArrayContains (prepare env method url u o).RetryOptions.ErrorCodes (msg s.calls) =
          true := by
      rw [hRO, hn, StringArrayContains_iff, hlim]
      exact ⟨hR, by omega, hmsg _⟩
    have hatt : attempt env method url { s with options := prepare env method url u o } =
        (.again method url,
          ⟨{ prepare env method url u o with
              retries := (prepare env method url u o).retries + 1 }, s.calls + 1,
            s.trace ++ [.dispatch (prepare env method url u o)] ++
              [.sleep (env.CalculateTimeout (prepare env method url u o).retries
                (prepare env method url u o).RetryOptions t (some (.text (msg s.calls))))]⟩) := by
      simp only [attempt_dispatch, hr, retry, ht]
      rw [if_pos hcond]
    rw [DoRequest_succ env f method url options s o u hext hu, hatt]
    have h := ih f method url []
      ⟨{ prepare env method url u o with
          retries := (prepare env method url u o).retries + 1 }, s.calls + 1,
        s.trace ++ [.dispatch (prepare env method url u o)] ++
          [.sleep (env.CalculateTimeout (prepare env method url u o).retries
            (prepare env method url u o).RetryOptions t (some (.text (msg s.calls))))]⟩
      { prepare env method url u o with
          retries := (prepare env method url u o).retries + 1 } u rfl
      (by simpa [hP] using hu) hR (by simpa [hRO] using hlim) (by simp only [hn]; omega)
      (by simpa [hRO] using hmsg) hfail (by omega)
    simp only [] at h ⊢
    refine ⟨?_, ?_, ?_⟩
    · rw [h.1]; congr 4; omega
    · rw [CloseBody_calls, h.2.1]; omega
    · rw [CloseBody_retries, h.2.2]
theorem rewriteMethod_shape (s : St) (res : Response) :
    ∃ m h b f j tr, rewriteMethod s res =
      ⟨{ s.options with Method := m, Headers := h, Body := b, Form := f, Json := j },
        s.calls, tr⟩ ∧ (m = s.options.Method ∨ m = "GET") := by
  unfold rewriteMethod
  split_ifs
  · exact ⟨"GET", _, none, [], [], _, rfl, Or.inr rfl⟩
  · exact ⟨s.options.Method, s.options.Headers, s.options.Body, s.options.Form, s.options.Json,
      s.trace, rfl, Or.inl rfl⟩

theorem stripSensitive_shape (o : Options) (cur v : URL) :
    ∃ h, stripSensitive o cur v = { o with Headers := h } := by
  unfold stripSensitive
  split_ifs
  · exact ⟨_, rfl⟩
  · exact ⟨o.Headers, rfl⟩

/-- A redirect that is below the limit and whose location resolves is followed: the
options keep everything but the method, the headers, the payload, the prefix (cleared)
and the visited list (one longer). -/
theorem redirect_follow (env : Env) (s : St) (res : Response) (cur v : URL)
    (hlimit : ¬ (s.options.RedirectOptions.Limit ≠ 0 ∧
      (s.options.redirectUrls.length : Int) ≥ s.options.RedirectOptions.Limit))
    (hcur : s.options.FullUrl = some cur)
    (hv : env.GetFullUrl cur.toString (res.Header.Get "location") = .ok v) :
    ∃ m h b f j tr, redirect env s res =
      (.again m v.toString,
        ⟨{ s.options with
            Method := m, Headers := h, Body := b, Form := f, Json := j
            PrefixURL := "", redirectUrls := s.options.redirectUrls ++ [v] }, s.calls, tr⟩) ∧
      (m = s.options.Method ∨ m = "GET") := by
  obtain ⟨m, h, b, f, j, tr, hrw, hm⟩ := rewriteMethod_shape
    { s with trace := s.trace ++ [.closeResponseBody res.Body] } res
  obtain ⟨h1, hs⟩ := stripSensitive_shape
    { s.options with Method := m, Headers := h, Body := b, Form := f, Json := j } cur v
  obtain ⟨h2, hc⟩ := updateRequestCookies_shape env
    { s.options with Method := m, Headers := h1, Body := b, Form := f, Json := j } res
  refine ⟨m, h2, b, f, j, tr, ?_, hm⟩
  dsimp only at hrw hs hc hm ⊢
  rw [hcur] at hrw hs hc
  unfold redirect
  simp only [hlimit, if_false, hrw, hcur, hv, hs, hc]
/-- A response that does not qualify for a retry and is a redirect enters the redirect
branch. -/
theorem attempt_redirect (env : Env) (method url : String) (s : St) (r : Response)
    (hr : env.Adapter s.calls s.options = ⟨some r, none⟩)
    (hnr : ¬ (s.options.Retry = true ∧
      IntArrayContains s.options.RetryOptions.StatusCodes r.StatusCode = true ∧
      StringArrayContains s.options.RetryOptions.Methods method = true))
    (hred : s.options.FollowRedirect = true ∧ r.Header.Get "location" ≠ "" ∧
      IntArrayContains RedirectStatusCodes r.StatusCode = true) :
    attempt env method url s =
      redirect env ⟨s.options, s.calls + 1, s.trace ++ [.dispatch s.options]⟩ r := by
  simp only [attempt_dispatch, hr]
  rw [if_neg hnr, if_pos hred]

/-- The redirect branch at the limit: the max-redirects error carrying the number of
visited urls, after the response body is closed. -/
theorem redirect_at_limit (env : Env) (s : St) (res : Response)
    (hlimit : s.options.RedirectOptions.Limit ≠ 0 ∧
      (s.options.redirectUrls.length : Int) ≥ s.options.RedirectOptions.Limit) :
    redirect env s res =
      (.done none (some (.maxRedirectsExceeded s.options.redirectUrls.length)),
        { s with trace := s.trace ++ [.closeResponseBody res.Body] }) := by
  unfold redirect
  dsimp only
  rw [if_pos hlimit]

/-- Redirect loop on a transport that always answers 302 with a resolvable location:
with `d` redirects left before the limit `R`, the call makes `d + 1` dispatches and
returns the max-redirects error carrying `R`. -/
theorem DoRequest_redirect_loop (env : Env) (R : Nat) (hR : R ≠ 0) (method0 : String) :
    ∀ (d fuel : Nat) (method url : String) (options : List Options) (s : St) (o : Options)
      (u : URL),
      extendAll env s.options options = .ok o →
      env.GetFullUrl o.PrefixURL url = .ok u →
      o.FollowRedirect = true → o.RedirectOptions.Limit = (R : Int) →
      o.redirectUrls.length + d = R →
      (o.Retry = false ∨ (302 : Int) ∉ o.RetryOptions.StatusCodes ∨
        (method0 ∉ o.RetryOptions.Methods ∧ "GET" ∉ o.RetryOptions.Methods)) →
      (method = method0 ∨ method = "GET") →
      (∀ i o1, ∃ r, env.Adapter i o1 = ⟨some r, none⟩ ∧ r.StatusCode = 302 ∧
        r.Header.Get "location" ≠ "" ∧
        ∀ cur : URL, ∃ v, env.GetFullUrl cur.toString (r.Header.Get "location") = .ok v) →
      (∀ v : URL, ∃ w, env.GetFullUrl "" v.toString = .ok w) →
      d < fuel →
      (DoRequest env fuel method url options s).1 =
        .ret none (some (.maxRedirectsExceeded R)) ∧
      (DoRequest env fuel method url options s).2.calls = s.calls + d + 1 ∧
      (DoRequest env fuel method url options s).2.options.redirectUrls.length = R := by
  intro d
  induction d with
  | zero =>
    intro fuel method url options s o u hext hu hfollow hlim hcount hnr hm h302 habs hfuel
    obtain ⟨f, rfl⟩ : ∃ f, fuel = f + 1 := ⟨fuel - 1, by omega⟩
    obtain ⟨r, hr, hst, hloc, -⟩ := h302 s.calls (prepare env method url u o)
    obtain ⟨b, q, hp⟩ := prepare_shape env method url u o
    have hno : ¬ ((prepare env method url u o).Retry = true ∧
        IntArrayContains (prepare env method url u o).RetryOptions.StatusCodes r.StatusCode = true ∧
        StringArrayContains (prepare env method url u o).RetryOptions.Methods method = true) := by
      rw [hp, IntArrayContains_iff, StringArrayContains_iff, hst]
      rintro ⟨h1, h2, h3⟩
      rcases hnr with h | h | h
      · rw [h] at h1; exact Bool.noConfusion h1
      · exact h h2
      · rcases hm with rfl | rfl
        · exact h.1 h3
        · exact h.2 h3
    have hred : (prepare env method url u o).FollowRedirect = true ∧
        r.Header.Get "location" ≠ "" ∧
        IntArrayContains RedirectStatusCodes r.StatusCode = true := by
      rw [hp, hst]
      exact ⟨hfollow, hloc, by decide⟩
    have hatt := attempt_redirect env method url
      ⟨prepare env method url u o, s.calls, s.trace⟩ r hr hno hred
    have hlimit : (prepare env method url u o).RedirectOptions.Limit ≠ 0 ∧
        ((prepare env method url u o).redirectUrls.length : Int) ≥
          (prepare env method url u o).RedirectOptions.Limit := by
      rw [hp]
      simp only [hlim]
      constructor
      · exact_mod_cast hR
      · omega
    rw [DoRequest_succ env f method url options s o u hext hu, hatt,
      redirect_at_limit env _ r hlimit]
    have hlen : (prepare env method url u o).redirectUrls.length = R := by
      rw [hp]; simp only []; omega
    refine ⟨?_, ?_, ?_⟩
    · simp only [hlen]
    · rfl
    · exact hlen
  | succ d ih =>
    intro fuel method url options s o u hext hu hfollow hlim hcount hnr hm h302 habs hfuel
    obtain ⟨f, rfl⟩ : ∃ f, fuel = f + 1 := ⟨fuel - 1, by omega⟩
    obtain ⟨r, hr, hst, hloc, hres⟩ := h302 s.calls (prepare env method url u o)
    obtain ⟨b, q, hp⟩ := prepare_shape env method url u o
    have hno : ¬ ((prepare env method url u o).Retry = true ∧
        IntArrayContains (prepare env method url u o).RetryOptions.StatusCodes r.StatusCode = true ∧
        StringArrayContains (prepare env method url u o).RetryOptions.Methods method = true) := by
      rw [hp, IntArrayContains_iff, StringArrayContains_iff, hst]
      rintro ⟨h1, h2, h3⟩
      rcases hnr with h | h | h
      · rw [h] at h1; exact Bool.noConfusion h1
      · exact h h2
      · rcases hm with rfl | rfl
        · exact h.1 h3
        · exact h.2 h3
    have hred : (prepare env method url u o).FollowRedirect = true ∧
        r.Header.Get "location" ≠ "" ∧
        IntArrayContains RedirectStatusCodes r.StatusCode = true := by
      rw [hp, hst]
      exact ⟨hfollow, hloc, by decide⟩
    have hatt := attempt_redirect env method url
      ⟨prepare env method url u o, s.calls, s.trace⟩ r hr hno hred
    have hlimit : ¬ ((prepare env method url u o).RedirectOptions.Limit ≠ 0 ∧
        ((prepare env method url u o).redirectUrls.length : Int) ≥
          (prepare env method url u o).RedirectOptions.Limit) := by
      rw [hp]
      simp only [hlim]
      rintro ⟨-, h⟩
      omega
    have hcur : (prepare env method url u o).FullUrl = some { u with RawQuery := q } := by
      rw [hp]
    obtain ⟨v, hv⟩ := hres { u with RawQuery := q }
    obtain ⟨w, hw⟩ := habs v
    obtain ⟨m, h, b1, f1, j1, tr, hfol, hm1⟩ := redirect_follow env
      ⟨prepare env method url u o, s.calls + 1,
        s.trace ++ [.dispatch (prepare env method url u o)]⟩ r _ v hlimit hcur hv
    rw [DoRequest_succ env f method url options s o u hext hu, hatt, hfol]
    have hm2 : m = method0 ∨ m = "GET" := by
      rcases hm1 with h1 | h1
      · rw [h1, hp]; exact hm
      · exact Or.inr h1
    have hih := ih f m v.toString []
      ⟨{ prepare env method url u o with
          Method := m, Headers := h, Body := b1, Form := f1, Json := j1
          PrefixURL := "", redirectUrls := (prepare env method url u o).redirectUrls ++ [v] },
        s.calls + 1, tr⟩
      { prepare env method url u o with
          Method := m, Headers := h, Body := b1, Form := f1, Json := j1
          PrefixURL := "", redirectUrls := (prepare env method url u o).redirectUrls ++ [v] }
      w rfl hw
      (by rw [hp]; exact hfollow) (by rw [hp]; exact hlim)
      (by rw [hp]; simp only [List.length_append, List.length_singleton]; omega)
      (by rw [hp]; exact hnr) hm2 h302 habs (by omega)
    refine ⟨hih.1, ?_, ?_⟩
    · rw [CloseBody_calls, hih.2.1]; simp only []; omega
    · exact hih.2.2
/-! ## The trace only grows -/

theorem CloseBody_trace (s : St) : ∃ rest, (CloseBody s).trace = s.trace ++ rest := by
  unfold CloseBody
  cases h : s.options.Body with
  | none => exact ⟨[], by simp only [List.append_nil]⟩
  | some b => exact ⟨[.closeRequestBody b], rfl⟩

theorem rewriteMethod_trace (s : St) (res : Response) :
    ∃ rest, (rewriteMethod s res).trace = s.trace ++ rest := by
  unfold rewriteMethod
  split_ifs
  · exact CloseBody_trace { s with options := { s.options with Method := "GET" } }
  · exact ⟨[], by simp only [List.append_nil]⟩

theorem retry_trace (env : Env) (method url : String) (s : St) (res : Option Response)
    (err : Option GoError) :
    ∃ rest, (retry env method url s res err).2.trace = s.trace ++ rest := by
  unfold retry
  split
  · exact ⟨[], by simp only [List.append_nil]⟩
  · exact ⟨[], by simp only [List.append_nil]⟩
  · exact ⟨_, rfl⟩

theorem redirect_trace (env : Env) (s : St) (res : Response) :
    ∃ rest, (redirect env s res).2.trace = s.trace ++ .closeResponseBody res.Body :: rest := by
  obtain ⟨r1, h1⟩ := rewriteMethod_trace
    { s with trace := s.trace ++ [.closeResponseBody res.Body] } res
  have h2 : (rewriteMethod { s with trace := s.trace ++ [.closeResponseBody res.Body] } res).trace =
      s.trace ++ .closeResponseBody res.Body :: r1 := by
    rw [h1]; simp only [List.append_assoc, List.singleton_append]
  unfold redirect
  dsimp only
  split_ifs
  · exact ⟨[], rfl⟩
  · split
    · exact ⟨r1, h2⟩
    · split
      · exact ⟨r1, h2⟩
      · exact ⟨r1, h2⟩

theorem attempt_trace (env : Env) (method url : String) (s : St) :
    ∃ rest, (attempt env method url s).2.trace = s.trace ++ .dispatch s.options :: rest := by
  rw [attempt_dispatch]
  dsimp only
  split
  · split_ifs
    · obtain ⟨r, hr⟩ := retry_trace env method url
        ⟨s.options, s.calls + 1, s.trace ++ [.dispatch s.options]⟩
        (env.Adapter s.calls s.options).res (some (.text ‹String›))
      exact ⟨r, by rw [hr]; simp only [List.append_assoc, List.singleton_append]⟩
    · exact ⟨[], rfl⟩
  · split
    · split_ifs <;> exact ⟨[], rfl⟩
    · rename_i res _
      split_ifs
      · exact ⟨[], rfl⟩
      · obtain ⟨r, hr⟩ := retry_trace env method url
          ⟨s.options, s.calls + 1, s.trace ++ [.dispatch s.options]⟩ (some res) none
        exact ⟨r, by rw [hr]; simp only [List.append_assoc, List.singleton_append]⟩
      · obtain ⟨r, hr⟩ := redirect_trace env
          ⟨s.options, s.calls + 1, s.trace ++ [.dispatch s.options]⟩ res
        exact ⟨.closeResponseBody res.Body :: r,
          by rw [hr]; simp only [List.append_assoc, List.singleton_append]⟩
      · exact ⟨[], rfl⟩

theorem DoRequest_trace (env : Env) :
    ∀ (fuel : Nat) (method url : String) (options : List Options) (s : St),
      ∃ rest, (DoRequest env fuel method url options s).2.trace = s.trace ++ rest := by
  intro fuel
  induction fuel with
  | zero => intro method url options s; exact ⟨[], by simp only [DoRequest, List.append_nil]⟩
  | succ f ih =>
    intro method url options s
    cases hext : extendAll env s.options options with
    | error e => exact ⟨[], by simp only [DoRequest, hext, List.append_nil]⟩
    | ok o =>
      cases hu : env.GetFullUrl o.PrefixURL url with
      | error e => exact ⟨[], by simp only [DoRequest, hext, hu, List.append_nil]⟩
      | ok u =>
        rw [DoRequest_succ env f method url options s o u hext hu]
        obtain ⟨r1, h1⟩ := attempt_trace env method url
          { s with options := prepare env method url u o }
        generalize attempt env method url { s with options := prepare env method url u o } = a
          at h1
        obtain ⟨n, s1⟩ := a
        dsimp only at h1
        cases n with
        | done res err =>
          obtain ⟨r2, h2⟩ := CloseBody_trace s1
          exact ⟨_, by dsimp only; rw [h2, h1, List.append_assoc]⟩
        | panic =>
          obtain ⟨r2, h2⟩ := CloseBody_trace s1
          exact ⟨_, by dsimp only; rw [h2, h1, List.append_assoc]⟩
        | again m target =>
          obtain ⟨r3, h3⟩ := ih m target [] s1
          obtain ⟨r2, h2⟩ := CloseBody_trace (DoRequest env f m target [] s1).2
          exact ⟨_, by dsimp only; rw [h2, h3, h1, List.append_assoc, List.append_assoc]⟩

/-- The first effect of a `DoRequest` call whose options merge and whose target resolves
is the dispatch of the prepared options. -/
theorem DoRequest_first_dispatch (env : Env) (fuel : Nat) (method url : String)
    (options : List Options) (s : St) (o : Options) (u : URL)
    (hext : extendAll env s.options options = .ok o)
    (hu : env.GetFullUrl o.PrefixURL url = .ok u) :
    ∃ rest, (DoRequest env (fuel + 1) method url options s).2.trace =
      s.trace ++ .dispatch (prepare env method url u o) :: rest := by
  rw [DoRequest_succ env fuel method url options s o u hext hu]
  obtain ⟨r1, h1⟩ := attempt_trace env method url
    { s with options := prepare env method url u o }
  generalize attempt env method url { s with options := prepare env method url u o } = a at h1
  obtain ⟨n, s1⟩ := a
  dsimp only at h1
  cases n with
  | done res err =>
    obtain ⟨r2, h2⟩ := CloseBody_trace s1
    exact ⟨r1 ++ r2, by
      dsimp only; rw [h2, h1]; simp only [List.append_assoc, List.cons_append]⟩
  | panic =>
    obtain ⟨r2, h2⟩ := CloseBody_trace s1
    exact ⟨r1 ++ r2, by
      dsimp only; rw [h2, h1]; simp only [List.append_assoc, List.cons_append]⟩
  | again m target =>
    obtain ⟨r3, h3⟩ := DoRequest_trace env fuel m target [] s1
    obtain ⟨r2, h2⟩ := CloseBody_trace (DoRequest env fuel m target [] s1).2
    exact ⟨r1 ++ (r3 ++ r2), by
      dsimp only; rw [h2, h3, h1]; simp only [List.append_assoc, List.cons_append]⟩
/-! ## Headers -/

theorem lookup_filter_ne (h : Header) (k k1 : String) :
    (h.filter fun kv => kv.1 != k).lookup k1 = if k1 = k then none else h.lookup k1 := by
  induction h with
  | nil => simp
  | cons kv rest ih =>
    obtain ⟨a, vs⟩ := kv
    by_cases ha : a = k
    · subst ha
      have : ((a, vs).1 != a) = false := by simp
      rw [List.filter_cons_of_neg (by simp), ih]
      by_cases hk : k1 = a
      · simp [hk]
      · have hne : (k1 == a) = false := by simpa using hk
        simp [hk, List.lookup_cons, hne]
    · rw [List.filter_cons_of_pos (by simpa using ha)]
      by_cases hk : k1 = k
      · subst hk
        have hne : (k1 == a) = false := by simpa using (Ne.symm ha)
        simp [List.lookup_cons, hne, ih]
      · by_cases hka : k1 = a
        · subst hka; simp [List.lookup_cons, hk]
        · have hne : (k1 == a) = false := by simpa using hka
          simp [List.lookup_cons, hne, ih, hk]

theorem lookup_Del (h : Header) (key k1 : String) :
    (Header.Del h key).lookup k1 =
      if k1 = CanonicalMIMEHeaderKey key then none else h.lookup k1 :=
  lookup_filter_ne h (CanonicalMIMEHeaderKey key) k1

theorem lookup_append_singleton (h : Header) (k k1 : String) (vs : List String) :
    (h ++ [(k, vs)]).lookup k1 =
      match h.lookup k1 with
      | some v => some v
      | none => if k1 = k then some vs else none := by
  induction h with
  | nil =>
    by_cases hk : k1 = k
    · subst hk; simp [List.lookup_cons]
    · have hne : (k1 == k) = false := by simpa using hk
      simp [List.lookup_cons, hne, hk]
  | cons kv rest ih =>
    obtain ⟨a, ws⟩ := kv
    by_cases hka : k1 = a
    · subst hka; simp [List.lookup_cons]
    · have hne : (k1 == a) = false := by simpa using hka
      simp only [List.cons_append, List.lookup_cons, hne]
      exact ih

theorem lookup_Set (h : Header) (key value k1 : String) :
    (Header.Set h key value).lookup k1 =
      if k1 = CanonicalMIMEHeaderKey key then some [value] else h.lookup k1 := by
  unfold Header.Set
  rw [lookup_append_singleton, lookup_filter_ne]
  by_cases hk : k1 = CanonicalMIMEHeaderKey key
  · simp [hk]
  · simp only [hk, if_false]
    cases h.lookup k1 <;> rfl
theorem canon_cookie : CanonicalMIMEHeaderKey "cookie" = "Cookie" := by decide

theorem canon_Cookie : CanonicalMIMEHeaderKey "Cookie" = "Cookie" := by decide

theorem getRequestCookies_none_of_lookup (o : Options)
    (h : o.Headers.lookup "Cookie" = none) : getRequestCookies o = none := by
  unfold getRequestCookies Header.Get
  rw [canon_cookie, h]
  simp

theorem updateRequestCookies_of_lookup_none (env : Env) (o : Options) (res : Response)
    (h : o.Headers.lookup "Cookie" = none) : updateRequestCookies env o res = o := by
  unfold updateRequestCookies
  rw [getRequestCookies_none_of_lookup o h]

/-- The cookie synchronizer only touches the entry stored under `Cookie`. -/
theorem updateRequestCookies_lookup (env : Env) (o : Options) (res : Response) (k1 : String)
    (hk : k1 ≠ "Cookie") :
    (updateRequestCookies env o res).Headers.lookup k1 = o.Headers.lookup k1 := by
  unfold updateRequestCookies
  split
  · rfl
  · dsimp only
    split_ifs
    · dsimp only
      rw [lookup_Set, lookup_Del, canon_Cookie]
      simp only [hk, if_false]
    · rfl
    · rfl

/-- What a followed redirect did, read off the result of the redirect branch. -/
theorem redirect_again_inv (env : Env) (s : St) (res : Response) (m target : String) (s2 : St)
    (h : redirect env s res = (.again m target, s2)) :
    ∃ cur v,
      (rewriteMethod { s with trace := s.trace ++ [.closeResponseBody res.Body] } res).options.FullUrl =
        some cur ∧
      env.GetFullUrl cur.toString (res.Header.Get "location") = .ok v ∧
      target = v.toString ∧
      s2 = { rewriteMethod { s with trace := s.trace ++ [.closeResponseBody res.Body] } res with
        options := { updateRequestCookies env
            (stripSensitive
              (rewriteMethod { s with trace := s.trace ++ [.closeResponseBody res.Body] } res).options
              cur v) res with
          PrefixURL := ""
          redirectUrls := (updateRequestCookies env
            (stripSensitive
              (rewriteMethod { s with trace := s.trace ++ [.closeResponseBody res.Body] } res).options
              cur v) res).redirectUrls ++ [v] } } ∧
      m = s2.options.Method := by
  unfold redirect at h
  dsimp only at h
  split_ifs at h
  · simp only [Prod.mk.injEq] at h
    exact absurd h.1 (by simp)
  · split at h
    · simp only [Prod.mk.injEq] at h
      exact absurd h.1 (by simp)
    · rename_i cur hcur
      split at h
      · simp only [Prod.mk.injEq] at h
        exact absurd h.1 (by simp)
      · rename_i v hv
        simp only [Prod.mk.injEq, Next.again.injEq] at h
        obtain ⟨⟨hm, ht⟩, hs⟩ := h
        refine ⟨cur, v, hcur, hv, ht.symm, hs.symm, ?_⟩
        rw [← hs, ← hm]
theorem canon_host : CanonicalMIMEHeaderKey "host" = "Host" := by decide

theorem canon_authorization : CanonicalMIMEHeaderKey "authorization" = "Authorization" := by
  decide

theorem canon_content_length : CanonicalMIMEHeaderKey "content-length" = "Content-Length" := by
  decide

theorem canon_content_type : CanonicalMIMEHeaderKey "content-type" = "Content-Type" := by
  decide

theorem stripSensitive_lookup (o : Options) (cur v : URL) (k1 : String) :
    (stripSensitive o cur v).Headers.lookup k1 =
      if (v.Hostname ≠ cur.Hostname ∨ v.Port ≠ cur.Port) ∧
          (k1 = "Host" ∨ k1 = "Cookie" ∨ k1 = "Authorization")
      then none else o.Headers.lookup k1 := by
  unfold stripSensitive
  by_cases hx : v.Hostname ≠ cur.Hostname ∨ v.Port ≠ cur.Port
  · rw [if_pos hx]
    dsimp only
    rw [lookup_Del, lookup_Del, lookup_Del, canon_host, canon_cookie, canon_authorization]
    by_cases h1 : k1 = "Authorization"
    · simp [h1, hx]
    · by_cases h2 : k1 = "Cookie"
      · simp [h2, hx]
      · by_cases h3 : k1 = "Host"
        · simp [h3, hx]
        · simp [h1, h2, h3]
  · rw [if_neg hx]
    simp [hx]

theorem rewriteToGet_lookup (s : St) (k1 : String) :
    (rewriteToGet s).options.Headers.lookup k1 =
      if k1 = "Content-Length" ∨ k1 = "Content-Type" then none
      else s.options.Headers.lookup k1 := by
  unfold rewriteToGet CloseBody
  dsimp only
  rw [lookup_Del, lookup_Del, canon_content_length, canon_content_type]
  by_cases h1 : k1 = "Content-Type"
  · simp [h1]
  · by_cases h2 : k1 = "Content-Length"
    · simp [h2]
    · simp [h1, h2]

theorem ParseBody_of_empty (env : Env) (o : Options) (hf : o.Form = []) (hj : o.Json = []) :
    (ParseBody env o).1 = o := by
  unfold ParseBody
  simp [hf, hj]

/-- `ParseBody` reads `Form`, `Json` and `Body` only. -/
theorem ParseBody_Body_congr (env : Env) (o1 o2 : Options) (hf : o1.Form = o2.Form)
    (hj : o1.Json = o2.Json) (hb : o1.Body = o2.Body) :
    (ParseBody env o1).1.Body = (ParseBody env o2).1.Body := by
  unfold ParseBody
  rw [hf, hj]
  by_cases h1 : o2.Form.length ≠ 0
  · simp only [if_pos h1]
  · simp only [if_neg h1]
    by_cases h2 : o2.Json.length ≠ 0
    · simp only [if_pos h2]
      cases hmj : env.MarshalJson o2.Json with
      | error e => exact hb
      | ok bytes => rfl
    · simp only [if_neg h2]
      exact hb

/-- Running `ParseBody` on its own result gives the same body again. -/
theorem ParseBody_Body_again (env : Env) (o1 o2 : Options) (hf : o1.Form = o2.Form)
    (hj : o1.Json = o2.Json) (hb : o1.Body = (ParseBody env o2).1.Body) :
    (ParseBody env o1).1.Body = (ParseBody env o2).1.Body := by
  unfold ParseBody at hb ⊢
  rw [hf, hj]
  by_cases h1 : o2.Form.length ≠ 0
  · simp only [if_pos h1]
  · simp only [if_neg h1] at hb ⊢
    by_cases h2 : o2.Json.length ≠ 0
    · simp only [if_pos h2] at hb ⊢
      cases hmj : env.MarshalJson o2.Json with
      | error e =>
        simp only [hmj] at hb ⊢
        exact hb
      | ok bytes => rfl
    · simp only [if_neg h2] at hb ⊢
      exact hb

theorem prepare_Body (env : Env) (method url : String) (u : URL) (o : Options) :
    (prepare env method url u o).Body = (ParseBody env o).1.Body := by
  unfold prepare
  dsimp only
  split_ifs
  · exact ParseBody_Body_congr env _ o rfl rfl rfl
  · exact ParseBody_Body_congr env _ o rfl rfl rfl

theorem prepare_Headers (env : Env) (method url : String) (u : URL) (o : Options) :
    (prepare env method url u o).Headers = o.Headers := by
  obtain ⟨b, q, hp⟩ := prepare_shape env method url u o
  rw [hp]

theorem prepare_Form (env : Env) (method url : String) (u : URL) (o : Options) :
    (prepare env method url u o).Form = o.Form := by
  obtain ⟨b, q, hp⟩ := prepare_shape env method url u o
  rw [hp]

theorem prepare_Json (env : Env) (method url : String) (u : URL) (o : Options) :
    (prepare env method url u o).Json = o.Json := by
  obtain ⟨b, q, hp⟩ := prepare_shape env method url u o
  rw [hp]

theorem prepare_Method (env : Env) (method url : String) (u : URL) (o : Options) :
    (prepare env method url u o).Method = method := by
  obtain ⟨b, q, hp⟩ := prepare_shape env method url u o
  rw [hp]

theorem prepare_RedirectOptions (env : Env) (method url : String) (u : URL) (o : Options) :
    (prepare env method url u o).RedirectOptions = o.RedirectOptions := by
  obtain ⟨b, q, hp⟩ := prepare_shape env method url u o
  rw [hp]
/-- The options a followed redirect leaves for the next hop, in terms of the method
rewrite, the header stripping and the cookie synchronizer. -/
theorem redirect_followed (env : Env) (s : St) (res : Response) (m target : String) (s2 : St)
    (h : redirect env s res = (.again m target, s2)) :
    ∃ cur v, s.options.FullUrl = some cur ∧
      env.GetFullUrl cur.toString (res.Header.Get "location") = .ok v ∧
      target = v.toString ∧
      m = (rewriteMethod { s with trace := s.trace ++ [.closeResponseBody res.Body] } res).options.Method ∧
      s2.options.Method = m ∧
      s2.options.Body =
        (rewriteMethod { s with trace := s.trace ++ [.closeResponseBody res.Body] } res).options.Body ∧
      s2.options.Form =
        (rewriteMethod { s with trace := s.trace ++ [.closeResponseBody res.Body] } res).options.Form ∧
      s2.options.Json =
        (rewriteMethod { s with trace := s.trace ++ [.closeResponseBody res.Body] } res).options.Json ∧
      s2.options.Headers = (updateRequestCookies env (stripSensitive
        (rewriteMethod { s with trace := s.trace ++ [.closeResponseBody res.Body] } res).options
          cur v) res).Headers ∧
      s2.options.PrefixURL = "" := by
  obtain ⟨cur, v, hcur, hv, ht, hs, hm⟩ := redirect_again_inv env s res m target s2 h
  obtain ⟨m1, h1, b1, f1, j1, tr1, hrw, -⟩ := rewriteMethod_shape
    { s with trace := s.trace ++ [.closeResponseBody res.Body] } res
  obtain ⟨h2, hst⟩ := stripSensitive_shape
    (rewriteMethod { s with trace := s.trace ++ [.closeResponseBody res.Body] } res).options cur v
  obtain ⟨h3, hup⟩ := updateRequestCookies_shape env (stripSensitive
    (rewriteMethod { s with trace := s.trace ++ [.closeResponseBody res.Body] } res).options
      cur v) res
  have hfull : s.options.FullUrl = some cur := by
    rw [← hcur, hrw]
  refine ⟨cur, v, hfull, hv, ht, ?_, hm.symm, ?_, ?_, ?_, ?_, ?_⟩
  · rw [hm, hs]; dsimp only; rw [hup, hst]
  · rw [hs]; dsimp only; rw [hup, hst]
  · rw [hs]; dsimp only; rw [hup, hst]
  · rw [hs]; dsimp only; rw [hup, hst]
  · rw [hs]
  · rw [hs]

theorem rewriteMethod_of_rewrite (s : St) (res : Response)
    (hc : s.options.RedirectOptions.RewriteMethods = true ∨
      (res.StatusCode = 303 ∧ s.options.Method ≠ "GET" ∧ s.options.Method ≠ "HEAD")) :
    rewriteMethod s res = rewriteToGet s := by
  unfold rewriteMethod
  rw [if_pos hc]

theorem rewriteMethod_of_keep (s : St) (res : Response)
    (hc : ¬ (s.options.RedirectOptions.RewriteMethods = true ∨
      (res.StatusCode = 303 ∧ s.options.Method ≠ "GET" ∧ s.options.Method ≠ "HEAD"))) :
    rewriteMethod s res = s := by
  unfold rewriteMethod
  rw [if_neg hc]

/-- After a redirect that rewrites the method the next hop is a GET without payload and
without the two content headers. -/
theorem redirect_followed_rewrite (env : Env) (s : St) (res : Response) (m target : String)
    (s2 : St) (h : redirect env s res = (.again m target, s2))
    (hc : s.options.RedirectOptions.RewriteMethods = true ∨
      (res.StatusCode = 303 ∧ s.options.Method ≠ "GET" ∧ s.options.Method ≠ "HEAD")) :
    m = "GET" ∧ s2.options.Body = none ∧ s2.options.Form = [] ∧ s2.options.Json = [] ∧
    s2.options.Headers.lookup "Content-Length" = none ∧
    s2.options.Headers.lookup "Content-Type" = none := by
  obtain ⟨cur, v, -, -, -, hm, -, hb, hf, hj, hh, -⟩ := redirect_followed env s res m target s2 h
  rw [rewriteMethod_of_rewrite { s with trace := s.trace ++ [.closeResponseBody res.Body] } res hc]
    at hm hb hf hj hh
  refine ⟨hm, hb, hf, hj, ?_, ?_⟩
  · rw [hh, updateRequestCookies_lookup env _ res _ (by decide), stripSensitive_lookup,
      rewriteToGet_lookup]
    simp
  · rw [hh, updateRequestCookies_lookup env _ res _ (by decide), stripSensitive_lookup,
      rewriteToGet_lookup]
    simp

/-- After a redirect that does not rewrite the method the next hop keeps the method, the
payload fields and every header other than `Host`, `Cookie` and `Authorization`. -/
theorem redirect_followed_keep (env : Env) (s : St) (res : Response) (m target : String)
    (s2 : St) (h : redirect env s res = (.again m target, s2))
    (hc : ¬ (s.options.RedirectOptions.RewriteMethods = true ∨
      (res.StatusCode = 303 ∧ s.options.Method ≠ "GET" ∧ s.options.Method ≠ "HEAD"))) :
    m = s.options.Method ∧ s2.options.Body = s.options.Body ∧
    s2.options.Form = s.options.Form ∧ s2.options.Json = s.options.Json ∧
    ∀ k1, k1 ≠ "Host" → k1 ≠ "Cookie" → k1 ≠ "Authorization" →
      s2.options.Headers.lookup k1 = s.options.Headers.lookup k1 := by
  obtain ⟨cur, v, -, -, -, hm, -, hb, hf, hj, hh, -⟩ := redirect_followed env s res m target s2 h
  rw [rewriteMethod_of_keep { s with trace := s.trace ++ [.closeResponseBody res.Body] } res hc]
    at hm hb hf hj hh
  refine ⟨hm, hb, hf, hj, ?_⟩
  intro k1 h1 h2 h3
  rw [hh, updateRequestCookies_lookup env _ res _ h2, stripSensitive_lookup]
  simp [h1, h2, h3]
/-! ## The cookie synchronizer -/

theorem addCookie_flat (m : List (String × List Cookie)) (c : Cookie) :
    ((addCookie m c).flatMap fun kv => kv.2).Perm ((m.flatMap fun kv => kv.2) ++ [c]) := by
  induction m with
  | nil => simp [addCookie]
  | cons kv rest ih =>
    obtain ⟨k, cs⟩ := kv
    unfold addCookie
    split_ifs
    · simp only [List.flatMap_cons, List.append_assoc]
      exact List.Perm.append_left cs List.perm_append_comm
    · simp only [List.flatMap_cons, List.append_assoc]
      exact List.Perm.append_left cs ih

theorem addCookie_entries (m : List (String × List Cookie)) (c : Cookie)
    (h : ∀ kv ∈ m, kv.2 ≠ [] ∧ ∀ x ∈ kv.2, x.Name = kv.1) :
    ∀ kv ∈ addCookie m c, kv.2 ≠ [] ∧ ∀ x ∈ kv.2, x.Name = kv.1 := by
  induction m with
  | nil =>
    intro kv hkv
    simp only [addCookie, List.mem_singleton] at hkv
    subst hkv
    simp
  | cons e rest ih =>
    obtain ⟨k, cs⟩ := e
    intro kv hkv
    unfold addCookie at hkv
    split_ifs at hkv with hk
    · rcases List.mem_cons.mp hkv with rfl | hr
      · refine ⟨by simp, ?_⟩
        intro x hx
        rcases List.mem_append.mp hx with hx | hx
        · exact (h (k, cs) (List.mem_cons_self _ _)).2 x hx
        · rw [List.mem_singleton.mp hx]; exact hk.symm
      · exact h kv (List.mem_cons_of_mem _ hr)
    · rcases List.mem_cons.mp hkv with rfl | hr
      · exact h (k, cs) (List.mem_cons_self _ _)
      · exact ih (fun kv1 h1 => h kv1 (List.mem_cons_of_mem _ h1)) kv hr

theorem foldl_addCookie_flat (l : List Cookie) :
    ∀ m : List (String × List Cookie),
      ((l.foldl addCookie m).flatMap fun kv => kv.2).Perm ((m.flatMap fun kv => kv.2) ++ l) := by
  induction l with
  | nil => intro m; simp
  | cons c rest ih =>
    intro m
    simp only [List.foldl_cons]
    refine (ih (addCookie m c)).trans ?_
    refine ((addCookie_flat m c).append_right rest).trans ?_
    simp

theorem foldl_addCookie_entries (l : List Cookie) :
    ∀ m : List (String × List Cookie),
      (∀ kv ∈ m, kv.2 ≠ [] ∧ ∀ x ∈ kv.2, x.Name = kv.1) →
      ∀ kv ∈ l.foldl addCookie m, kv.2 ≠ [] ∧ ∀ x ∈ kv.2, x.Name = kv.1 := by
  induction l with
  | nil => intro m h; exact h
  | cons c rest ih =>
    intro m h
    simp only [List.foldl_cons]
    exact ih (addCookie m c) (addCookie_entries m c h)

/-- A name is a key of the map exactly when a stored cookie has it. -/
theorem any_key_iff (m : List (String × List Cookie))
    (h : ∀ kv ∈ m, kv.2 ≠ [] ∧ ∀ x ∈ kv.2, x.Name = kv.1) (n : String) :
    (m.any fun kv => kv.1 == n) = true ↔ ∃ c ∈ m.flatMap (fun kv => kv.2), c.Name = n := by
  simp only [List.any_eq_true, beq_iff_eq, List.mem_flatMap]
  constructor
  · rintro ⟨kv, hkv, rfl⟩
    obtain ⟨hne, hn⟩ := h kv hkv
    obtain ⟨x, hx⟩ := List.exists_mem_of_ne_nil _ hne
    exact ⟨x, ⟨kv, hkv, hx⟩, hn x hx⟩
  · rintro ⟨c, ⟨kv, hkv, hc⟩, rfl⟩
    exact ⟨kv, hkv, ((h kv hkv).2 c hc).symm⟩

/-- Deleting keys from the map is filtering the stored cookies by name. -/
theorem flat_filter_keys (p : String → Bool) (m : List (String × List Cookie))
    (h : ∀ kv ∈ m, kv.2 ≠ [] ∧ ∀ x ∈ kv.2, x.Name = kv.1) :
    ((m.filter fun kv => p kv.1).flatMap fun kv => kv.2) =
      (m.flatMap fun kv => kv.2).filter fun c => p c.Name := by
  induction m with
  | nil => rfl
  | cons kv rest ih =>
    have hrest := ih (fun kv1 h1 => h kv1 (List.mem_cons_of_mem _ h1))
    have hkv := (h kv (List.mem_cons_self _ _)).2
    simp only [List.flatMap_cons, List.filter_append]
    by_cases hp : p kv.1 = true
    · simp only [List.filter_cons, hp, if_true, List.flatMap_cons]
      rw [hrest]
      congr 1
      symm
      rw [List.filter_eq_self]
      intro x hx
      rw [hkv x hx]; exact hp
    · simp only [List.filter_cons, hp, Bool.false_eq_true, if_false]
      rw [hrest]
      have : kv.2.filter (fun c => p c.Name) = [] := by
        rw [List.filter_eq_nil_iff]
        intro x hx
        rw [hkv x hx]; exact hp
      rw [this, List.nil_append]

/-- The first loop of `updateRequestCookies` in closed form. -/
theorem dropResponseCookies_eq (rcs : List Cookie) :
    ∀ (cookies : List (String × List Cookie)) (changed : Bool),
      dropResponseCookies cookies changed rcs =
        (cookies.filter (fun kv => !rcs.any fun rc => rc.Name == kv.1),
          changed || rcs.any fun rc => cookies.any fun kv => kv.1 == rc.Name) := by
  induction rcs with
  | nil => intro cookies changed; simp [dropResponseCookies]
  | cons c rest ih =>
    intro cookies changed
    unfold dropResponseCookies
    by_cases hc : (cookies.any fun kv => kv.1 == c.Name) = true
    · rw [if_pos hc, ih, List.filter_filter]
      refine Prod.ext ?_ ?_
      · dsimp only
        apply List.filter_congr
        intro kv _
        simp only [List.any_cons, Bool.not_or, bne, Bool.and_comm]
        congr 2
        rw [Bool.eq_iff_iff]
        simp only [beq_iff_eq]
        exact eq_comm
      · simp [hc]
    · rw [if_neg hc, ih]
      refine Prod.ext ?_ ?_
      · dsimp only
        apply List.filter_congr
        intro kv hkv
        simp only [List.any_cons]
        have : (c.Name == kv.1) = false := by
          simp only [beq_eq_false_iff_ne, ne_eq]
          intro heq
          apply hc
          simp only [List.any_eq_true, beq_iff_eq]
          exact ⟨kv, hkv, heq.symm⟩
        rw [this, Bool.false_or]
      · simp only [Bool.not_eq_true] at hc
        simp [hc]
theorem getRequestCookies_some (o : Options) (hjar : o.CookieJar.isSome = true)
    (hcookie : o.Headers.Get "cookie" ≠ "") :
    getRequestCookies o = some ((readCookies o.Headers).foldl addCookie []) := by
  unfold getRequestCookies
  simp [hjar, hcookie]

/-- Whether the first loop of `updateRequestCookies` sets `changed`, in terms of the
manual cookies and the response cookies. -/
theorem changed_iff (manual rcs : List Cookie) :
    (rcs.any fun rc => (manual.foldl addCookie []).any fun kv => kv.1 == rc.Name) = true ↔
      ∃ rc ∈ rcs, ∃ mc ∈ manual, mc.Name = rc.Name := by
  have hent := foldl_addCookie_entries manual [] (by simp)
  have hflat := foldl_addCookie_flat manual []
  simp only [List.flatMap_nil, List.nil_append] at hflat
  rw [List.any_eq_true]
  constructor
  · rintro ⟨rc, hrc, h⟩
    obtain ⟨c, hc, hn⟩ := (any_key_iff _ hent rc.Name).mp h
    exact ⟨rc, hrc, c, hflat.mem_iff.mp hc, hn⟩
  · rintro ⟨rc, hrc, mc, hmc, hn⟩
    exact ⟨rc, hrc, (any_key_iff _ hent rc.Name).mpr ⟨mc, hflat.mem_iff.mpr hmc, hn⟩⟩

/-- The rewrite of the cookie synchronizer: with a cookie jar, a manual cookie header
and a response cookie of a manual name, the `Cookie` entry becomes the manual cookies
of the other names, in the order the map is visited. -/
theorem updateRequestCookies_rewrites (env : Env) (hperm : ∀ m, (env.mapOrder m).Perm m)
    (o : Options) (res : Response)
    (hjar : o.CookieJar.isSome = true) (hcookie : o.Headers.Get "cookie" ≠ "")
    (hmatch : ∃ rc ∈ res.Cookies, ∃ mc ∈ readCookies o.Headers, mc.Name = rc.Name) :
    ∃ remaining : List Cookie,
      remaining.Perm ((readCookies o.Headers).filter fun mc =>
        !res.Cookies.any fun rc => rc.Name == mc.Name) ∧
      (updateRequestCookies env o res).Headers.lookup "Cookie" =
        some ["; ".intercalate (remaining.map fun c => c.Name ++ "=" ++ c.Value)] := by
  have hent := foldl_addCookie_entries (readCookies o.Headers) [] (by simp)
  have hflat := foldl_addCookie_flat (readCookies o.Headers) []
  simp only [List.flatMap_nil, List.nil_append] at hflat
  refine ⟨(env.mapOrder (((readCookies o.Headers).foldl addCookie []).filter
    fun kv => !res.Cookies.any fun rc => rc.Name == kv.1)).flatMap fun kv => kv.2, ?_, ?_⟩
  · refine ((hperm _).flatMap_right _).trans ?_
    rw [flat_filter_keys (fun n => !res.Cookies.any fun rc => rc.Name == n) _ hent]
    exact hflat.filter _
  · unfold updateRequestCookies
    rw [getRequestCookies_some o hjar hcookie]
    dsimp only
    rw [dropResponseCookies_eq]
    simp only [hjar, if_true, Bool.false_or, (changed_iff _ _).mpr hmatch]
    rw [lookup_Set, canon_Cookie, if_pos rfl, List.map_flatMap]

/-- The cookie synchronizer leaves the options alone without a cookie jar, without a
manual cookie header, or when no response cookie has the name of a manual cookie. -/
theorem updateRequestCookies_unchanged (env : Env) (o : Options) (res : Response)
    (h : ¬ (o.CookieJar.isSome = true ∧ o.Headers.Get "cookie" ≠ "" ∧
      ∃ rc ∈ res.Cookies, ∃ mc ∈ readCookies o.Headers, mc.Name = rc.Name)) :
    updateRequestCookies env o res = o := by
  by_cases hjar : o.CookieJar.isSome = true
  · by_cases hcookie : o.Headers.Get "cookie" ≠ ""
    · have hno : ¬ ∃ rc ∈ res.Cookies, ∃ mc ∈ readCookies o.Headers, mc.Name = rc.Name :=
        fun hm => h ⟨hjar, hcookie, hm⟩
      have hch : (res.Cookies.any fun rc =>
          ((readCookies o.Headers).foldl addCookie []).any fun kv => kv.1 == rc.Name) = false := by
        rw [← Bool.not_eq_true, changed_iff]
        exact hno
      unfold updateRequestCookies
      rw [getRequestCookies_some o hjar hcookie]
      dsimp only
      rw [dropResponseCookies_eq]
      simp only [hjar, if_true, Bool.false_or, hch, Bool.false_eq_true, if_false]
    · have hnone : getRequestCookies o = none := by
        unfold getRequestCookies
        simp only [ne_eq, not_not] at hcookie
        simp [hcookie]
      unfold updateRequestCookies
      rw [hnone]
  · have hnone : getRequestCookies o = none := by
      unfold getRequestCookies
      simp [hjar]
    unfold updateRequestCookies
    rw [hnone]

theorem Has_eq_false_of_lookup (h : Header) (key : String)
    (hl : h.lookup (CanonicalMIMEHeaderKey key) = none) : Header.Has h key = false := by
  unfold Header.Has
  rw [hl]; rfl

theorem Values_congr (h1 h2 : Header) (key : String)
    (hl : h1.lookup (CanonicalMIMEHeaderKey key) = h2.lookup (CanonicalMIMEHeaderKey key)) :
    Header.Values h1 key = Header.Values h2 key := by
  unfold Header.Values
  rw [hl]


theorem rewriteMethod_lookup (s : St) (res : Response) (k1 : String)
    (h1 : k1 ≠ "Content-Length") (h2 : k1 ≠ "Content-Type") :
    (rewriteMethod s res).options.Headers.lookup k1 = s.options.Headers.lookup k1 := by
  unfold rewriteMethod
  split_ifs
  · rw [rewriteToGet_lookup]
    simp [h1, h2]
  · rfl

theorem rewriteMethod_CookieJar (s : St) (res : Response) :
    (rewriteMethod s res).options.CookieJar = s.options.CookieJar := by
  obtain ⟨m, h, b, f, j, tr, hrw, -⟩ := rewriteMethod_shape s res
  rw [hrw]

theorem stripSensitive_CookieJar (o : Options) (cur v : URL) :
    (stripSensitive o cur v).CookieJar = o.CookieJar := by
  obtain ⟨h, hs⟩ := stripSensitive_shape o cur v
  rw [hs]

theorem Get_congr (h1 h2 : Header) (key : String)
    (hl : h1.lookup (CanonicalMIMEHeaderKey key) = h2.lookup (CanonicalMIMEHeaderKey key)) :
    Header.Get h1 key = Header.Get h2 key := by
  unfold Header.Get
  rw [hl]

theorem readCookies_congr (h1 h2 : Header) (hl : h1.lookup "Cookie" = h2.lookup "Cookie") :
    readCookies h1 = readCookies h2 := by
  unfold readCookies
  rw [Values_congr h1 h2 "Cookie" (by rw [canon_Cookie]; exact hl)]

/-- Header entries of the next hop after a followed redirect, for the three sensitive
names. -/
theorem redirect_followed_sensitive (env : Env) (s : St) (res : Response) (m target : String)
    (s2 : St) (cur v : URL)
    (h : redirect env s res = (.again m target, s2))
    (hcur : s.options.FullUrl = some cur)
    (hv : env.GetFullUrl cur.toString (res.Header.Get "location") = .ok v) :
    ((v.Hostname ≠ cur.Hostname ∨ v.Port ≠ cur.Port) →
      s2.options.Headers.lookup "Host" = none ∧
      s2.options.Headers.lookup "Cookie" = none ∧
      s2.options.Headers.lookup "Authorization" = none) ∧
    ((v.Hostname = cur.Hostname ∧ v.Port = cur.Port) →
      s2.options.Headers.lookup "Host" = s.options.Headers.lookup "Host" ∧
      s2.options.Headers.lookup "Authorization" = s.options.Headers.lookup "Authorization" ∧
      (¬ (s.options.CookieJar.isSome = true ∧ s.options.Headers.Get "cookie" ≠ "" ∧
          ∃ rc ∈ res.Cookies, ∃ mc ∈ readCookies s.options.Headers, mc.Name = rc.Name) →
        s2.options.Headers.lookup "Cookie" = s.options.Headers.lookup "Cookie")) := by
  obtain ⟨cur1, v1, hcur1, hv1, -, -, -, -, -, -, hh, -⟩ :=
    redirect_followed env s res m target s2 h
  have hc : cur1 = cur := by
    rw [hcur] at hcur1; exact (Option.some.inj hcur1).symm
  subst hc
  have hvv : v1 = v := by
    rw [hv] at hv1; exact (Except.ok.inj hv1).symm
  subst hvv
  constructor
  · intro hx
    have hcookie : (stripSensitive (rewriteMethod
        { s with trace := s.trace ++ [.closeResponseBody res.Body] } res).options cur1 v1).Headers.lookup
          "Cookie" = none := by
      rw [stripSensitive_lookup]; simp [hx]
    refine ⟨?_, ?_, ?_⟩
    · rw [hh, updateRequestCookies_lookup env _ res _ (by decide), stripSensitive_lookup]
      simp [hx]
    · rw [hh, updateRequestCookies_of_lookup_none env _ res hcookie]
      exact hcookie
    · rw [hh, updateRequestCookies_lookup env _ res _ (by decide), stripSensitive_lookup]
      simp [hx]
  · intro hsame
    have hnx : ¬ (v1.Hostname ≠ cur1.Hostname ∨ v1.Port ≠ cur1.Port) := by
      rintro (h1 | h1)
      · exact h1 hsame.1
      · exact h1 hsame.2
    have hkeep : ∀ k1, k1 ≠ "Content-Length" → k1 ≠ "Content-Type" →
        (stripSensitive (rewriteMethod
          { s with trace := s.trace ++ [.closeResponseBody res.Body] } res).options cur1 v1).Headers.lookup
            k1 = s.options.Headers.lookup k1 := by
      intro k1 h1 h2
      rw [stripSensitive_lookup]
      simp only [hnx, false_and, if_false]
      exact rewriteMethod_lookup _ res k1 h1 h2
    refine ⟨?_, ?_, ?_⟩
    · rw [hh, updateRequestCookies_lookup env _ res _ (by decide)]
      exact hkeep _ (by decide) (by decide)
    · rw [hh, updateRequestCookies_lookup env _ res _ (by decide)]
      exact hkeep _ (by decide) (by decide)
    · intro hno
      have hck := hkeep "Cookie" (by decide) (by decide)
      rw [hh, updateRequestCookies_unchanged env _ res]
      · exact hck
      · rw [stripSensitive_CookieJar, rewriteMethod_CookieJar,
          Get_congr _ s.options.Headers "cookie" (by rw [canon_cookie]; exact hck),
          readCookies_congr _ s.options.Headers hck]
        exact hno


/-! ## Retry-after in seconds -/

theorem wrapInt64_of_range (x : Int) (h1 : minDuration ≤ x) (h2 : x ≤ maxDuration) :
    wrapInt64 x = x := by
  unfold wrapInt64
  unfold minDuration at h1
  unfold maxDuration at h2
  omega

/-- With retry-after honoured and a trimmed header that `Atoi` reads as `n`, the base
wait is the `int64` product of `time.Second` and `n`: exactly `n` seconds when that fits
a duration. -/
theorem getTimeout_seconds (env : Env) (now : Int) (o : Options) (res : Response) (n : Int)
    (hhonour : o.RetryOptions.RetryAfter = true)
    (hnonempty : TrimSpace (res.Header.Get "retry-after") ≠ "")
    (hint : Atoi (TrimSpace (res.Header.Get "retry-after")) = some n) :
    getTimeout env now o (some res) = .ok (wrapInt64 (Second * n)) ∧
    (minDuration ≤ Second * n → Second * n ≤ maxDuration →
      getTimeout env now o (some res) = .ok (n * Second)) := by
  have hgt : getTimeout env now o (some res) = .ok (wrapInt64 (Second * n)) := by
    simp only [getTimeout, hhonour, hnonempty, hint]
    simp
  refine ⟨hgt, fun h1 h2 => ?_⟩
  rw [hgt, wrapInt64_of_range _ h1 h2, Int.mul_comm]
/-! ## What one attempt can do to the counters -/

/-- The retry closure either calls `DoRequest` again with the method and url of its own
call, after one sleep and with the retry counter one higher, or ends the call and
leaves the state alone. -/
theorem retry_cases (env : Env) (method url : String) (s : St) (res : Option Response)
    (err : Option GoError) :
    (∃ t, retry env method url s res err =
      (.again method url,
        { s with
          options := { s.options with retries := s.options.retries + 1 }
          trace := s.trace ++ [.sleep t] })) ∨
    ((retry env method url s res err).2 = s ∧
      ∀ m t, (retry env method url s res err).1 ≠ .again m t) := by
  unfold retry
  split
  · exact Or.inr ⟨rfl, fun m t h => Next.noConfusion h⟩
  · exact Or.inr ⟨rfl, fun m t h => Next.noConfusion h⟩
  · exact Or.inl ⟨_, rfl⟩

/-- The redirect branch either calls `DoRequest` again, below the limit, with one more
visited url and the prefix cleared, or ends the call with the visited list as it was. -/
theorem redirect_cases (env : Env) (s : St) (res : Response) :
    (¬ (s.options.RedirectOptions.Limit ≠ 0 ∧
        (s.options.redirectUrls.length : Int) ≥ s.options.RedirectOptions.Limit) ∧
      ∃ m v h b f j tr, redirect env s res =
        (.again m v.toString,
          ⟨{ s.options with
              Method := m, Headers := h, Body := b, Form := f, Json := j
              PrefixURL := "", redirectUrls := s.options.redirectUrls ++ [v] }, s.calls, tr⟩)) ∨
    ((∀ m t, (redirect env s res).1 ≠ .again m t) ∧
      ∃ m h b f j tr, (redirect env s res).2 =
        ⟨{ s.options with Method := m, Headers := h, Body := b, Form := f, Json := j },
          s.calls, tr⟩) := by
  by_cases hlimit : s.options.RedirectOptions.Limit ≠ 0 ∧
      (s.options.redirectUrls.length : Int) ≥ s.options.RedirectOptions.Limit
  · right
    rw [redirect_at_limit env s res hlimit]
    exact ⟨fun m t h => Next.noConfusion h,
      s.options.Method, s.options.Headers, s.options.Body, s.options.Form, s.options.Json,
      _, rfl⟩
  · obtain ⟨m, h, b, f, j, tr, hrw, -⟩ := rewriteMethod_shape
      { s with trace := s.trace ++ [.closeResponseBody res.Body] } res
    dsimp only at hrw
    cases hcur : s.options.FullUrl with
    | none =>
      right
      have hred : redirect env s res =
          (.panic, rewriteMethod { s with trace := s.trace ++ [.closeResponseBody res.Body] } res) := by
        unfold redirect
        dsimp only
        rw [if_neg hlimit]
        have : (rewriteMethod { s with trace := s.trace ++ [.closeResponseBody res.Body] }
            res).options.FullUrl = none := by rw [hrw]; exact hcur
        simp only [this]
      rw [hred]
      exact ⟨fun m t h => Next.noConfusion h, m, h, b, f, j, tr, hrw⟩
    | some cur =>
      cases hv : env.GetFullUrl cur.toString (res.Header.Get "location") with
      | error e =>
        right
        have hred : redirect env s res =
            (.done none (some e),
              rewriteMethod { s with trace := s.trace ++ [.closeResponseBody res.Body] } res) := by
          unfold redirect
          dsimp only
          rw [if_neg hlimit]
          have : (rewriteMethod { s with trace := s.trace ++ [.closeResponseBody res.Body] }
              res).options.FullUrl = some cur := by rw [hrw]; exact hcur
          simp only [this, hv]
        rw [hred]
        exact ⟨fun m t h => Next.noConfusion h, m, h, b, f, j, tr, hrw⟩
      | ok v =>
        left
        obtain ⟨m1, h1, b1, f1, j1, tr1, hfol, -⟩ := redirect_follow env s res cur v hlimit hcur hv
        exact ⟨hlimit, m1, v, h1, b1, f1, j1, tr1, hfol⟩

theorem frame_of_retry (env : Env) (method url : String) (s : St) (res : Option Response)
    (err : Option GoError) (hlt : (s.options.retries : Int) < s.options.RetryOptions.Limit) :
    AttemptFrame method url s
      (retry env method url ⟨s.options, s.calls + 1, s.trace ++ [.dispatch s.options]⟩ res err) := by
  rcases retry_cases env method url
    ⟨s.options, s.calls + 1, s.trace ++ [.dispatch s.options]⟩ res err with ⟨t, ht⟩ | ⟨h1, h2⟩
  · rw [ht]
    exact ⟨rfl, rfl, rfl, rfl, rfl, Or.inr (Or.inl ⟨rfl, hlt, rfl, rfl, rfl⟩)⟩
  · refine ⟨?_, ?_, ?_, ?_, ?_, Or.inl ⟨h2, ?_, ?_⟩⟩ <;> rw [h1]

theorem frame_of_end (method url : String) (s : St) (n : Next)
    (hn : ∀ m t, n ≠ .again m t) :
    AttemptFrame method url s
      (n, ⟨s.options, s.calls + 1, s.trace ++ [.dispatch s.options]⟩) :=
  ⟨rfl, rfl, rfl, rfl, rfl, Or.inl ⟨hn, rfl, rfl⟩⟩

theorem frame_of_redirect (env : Env) (method url : String) (s : St) (res : Response) :
    AttemptFrame method url s
      (redirect env ⟨s.options, s.calls + 1, s.trace ++ [.dispatch s.options]⟩ res) := by
  rcases redirect_cases env ⟨s.options, s.calls + 1, s.trace ++ [.dispatch s.options]⟩ res with
    ⟨hlim, m, v, h, b, f, j, tr, heq⟩ | ⟨hn, m, h, b, f, j, tr, heq⟩
  · rw [heq]
    exact ⟨rfl, rfl, rfl, rfl, rfl, Or.inr (Or.inr ⟨⟨m, v, rfl, rfl⟩, hlim, rfl, rfl⟩)⟩
  · refine ⟨?_, ?_, ?_, ?_, ?_, Or.inl ⟨hn, ?_, ?_⟩⟩ <;> rw [heq]

/-- Every attempt stands in the frame relation to the state it started in. -/
theorem attempt_frame (env : Env) (method url : String) (s : St) :
    AttemptFrame method url s (attempt env method url s) := by
  rw [attempt_dispatch]
  dsimp only
  split
  · split_ifs with hc
    · exact frame_of_retry env method url s _ _ hc.2.1
    · exact frame_of_end method url s _ (fun m t h => Next.noConfusion h)
  · split
    · split_ifs <;> exact frame_of_end method url s _ (fun m t h => Next.noConfusion h)
    · split_ifs with h1 h2 h3
      · exact frame_of_end method url s _ (fun m t h => Next.noConfusion h)
      · exact frame_of_retry env method url s _ _ (by omega)
      · exact frame_of_redirect env method url s _
      · exact frame_of_end method url s _ (fun m t h => Next.noConfusion h)
theorem prepare_frame (env : Env) (method url : String) (u : URL) (o : Options) :
    (prepare env method url u o).retries = o.retries ∧
    (prepare env method url u o).redirectUrls = o.redirectUrls ∧
    (prepare env method url u o).RetryOptions = o.RetryOptions ∧
    (prepare env method url u o).RedirectOptions = o.RedirectOptions ∧
    (prepare env method url u o).Retry = o.Retry ∧
    (prepare env method url u o).FollowRedirect = o.FollowRedirect ∧
    (prepare env method url u o).PrefixURL = o.PrefixURL ∧
    (prepare env method url u o).URI = url ∧
    ∃ cur, (prepare env method url u o).FullUrl = some cur := by
  obtain ⟨b, q, hp⟩ := prepare_shape env method url u o
  rw [hp]
  exact ⟨rfl, rfl, rfl, rfl, rfl, rfl, rfl, rfl, _, rfl⟩

theorem getTimeout_some_ne_panic (env : Env) (now : Int) (o : Options) (r : Response) :
    getTimeout env now o (some r) ≠ .panic := by
  unfold getTimeout
  dsimp only
  split_ifs
  · exact fun h => Res.noConfusion h
  · split
    · exact fun h => Res.noConfusion h
    · split
      · exact fun h => Res.noConfusion h
      · exact fun h => Res.noConfusion h

theorem retry_some_ne_panic (env : Env) (method url : String) (s : St) (r : Response)
    (err : Option GoError) : (retry env method url s (some r) err).1 ≠ .panic := by
  unfold retry
  split
  · rename_i h; exact absurd h (getTimeout_some_ne_panic env _ _ r)
  · exact fun h => Next.noConfusion h
  · exact fun h => Next.noConfusion h

theorem redirect_ne_panic (env : Env) (s : St) (res : Response) (cur : URL)
    (hcur : s.options.FullUrl = some cur) : (redirect env s res).1 ≠ .panic := by
  obtain ⟨m, h, b, f, j, tr, hrw, -⟩ := rewriteMethod_shape
    { s with trace := s.trace ++ [.closeResponseBody res.Body] } res
  have hfull : (rewriteMethod { s with trace := s.trace ++ [.closeResponseBody res.Body] }
      res).options.FullUrl = some cur := by rw [hrw]; exact hcur
  unfold redirect
  dsimp only
  split_ifs
  · exact fun h => Next.noConfusion h
  · simp only [hfull]
    split
    · exact fun h => Next.noConfusion h
    · exact fun h => Next.noConfusion h

/-- An attempt whose answer carries a response does not panic. -/
theorem attempt_ne_panic (env : Env) (method url : String) (s : St) (cur : URL)
    (hcur : s.options.FullUrl = some cur)
    (hres : (env.Adapter s.calls s.options).res ≠ none) :
    (attempt env method url s).1 ≠ .panic := by
  obtain ⟨r, hr⟩ := Option.ne_none_iff_exists'.mp hres
  rw [attempt_dispatch]
  dsimp only
  rw [hr]
  split
  · split_ifs
    · exact retry_some_ne_panic env method url _ r _
    · exact fun h => Next.noConfusion h
  · dsimp only
    split_ifs
    · exact fun h => Next.noConfusion h
    · exact retry_some_ne_panic env method url _ r _
    · exact redirect_ne_panic env _ r cur hcur
    · exact fun h => Next.noConfusion h

/-- Termination with a bound: with `n` bounding the retries and redirects still allowed,
any fuel above `n` lets the call end after at most `n + 1` dispatches, and it ends by
returning when every answer of the transport carries a response. -/
theorem DoRequest_bound (env : Env) (L R : Nat) (hR : R ≠ 0) :
    ∀ (fuel n : Nat) (method url : String) (options : List Options) (s : St) (o : Options),
      extendAll env s.options options = .ok o →
      o.RetryOptions.Limit = (L : Int) → o.RedirectOptions.Limit = (R : Int) →
      (L - o.retries) + (R - o.redirectUrls.length) ≤ n → n < fuel →
      (DoRequest env fuel method url options s).1 ≠ .outOfFuel ∧
      (DoRequest env fuel method url options s).2.calls ≤ s.calls + n + 1 ∧
      ((∀ i o1, (env.Adapter i o1).res ≠ none) →
        ∃ res err, (DoRequest env fuel method url options s).1 = .ret res err) := by
  intro fuel
  induction fuel with
  | zero => intro n method url options s o _ _ _ _ hlt; omega
  | succ f ih =>
    intro n method url options s o hext hL hRl hn hlt
    cases hu : env.GetFullUrl o.PrefixURL url with
    | error e =>
      have hd : DoRequest env (f + 1) method url options s =
          (.ret none (some e), { s with options := o }) := by
        simp only [DoRequest, hext, hu]
      rw [hd]
      exact ⟨fun h => Outcome.noConfusion h, by dsimp only; omega, fun _ => ⟨_, _, rfl⟩⟩
    | ok u =>
      rw [DoRequest_succ env f method url options s o u hext hu]
      obtain ⟨p1, p2, p3, p4, -, -, -, -, cur, pcur⟩ := prepare_frame env method url u o
      have hfr := attempt_frame env method url { s with options := prepare env method url u o }
      have hnp := attempt_ne_panic env method url
        { s with options := prepare env method url u o } cur pcur
      generalize attempt env method url { s with options := prepare env method url u o } = a
        at hfr hnp
      obtain ⟨nx, s1⟩ := a
      obtain ⟨hcalls, hro, hrd, -, -, hcase⟩ := hfr
      dsimp only at hcalls hro hrd hcase hnp
      cases nx with
      | done res err =>
        exact ⟨fun h => Outcome.noConfusion h, by rw [CloseBody_calls, hcalls]; omega,
          fun _ => ⟨_, _, rfl⟩⟩
      | panic =>
        exact ⟨fun h => Outcome.noConfusion h, by rw [CloseBody_calls, hcalls]; omega,
          fun hall => absurd rfl (hnp (hall _ _))⟩
      | again m t =>
        have hmeasure : (L - s1.options.retries) + (R - s1.options.redirectUrls.length) + 1 ≤ n := by
          rcases hcase with ⟨h1, -⟩ | ⟨-, h2, h3, h4, -⟩ | ⟨⟨m1, v, -, h5⟩, h6, h7, -⟩
          · exact absurd rfl (h1 m t)
          · rw [h3, h4, p1, p2]
            rw [p1, p3, hL] at h2
            omega
          · rw [h7, h5, p1, p2, List.length_append, List.length_singleton]
            rw [p2, p4, hRl] at h6
            have hlen : o.redirectUrls.length < R := by
              by_contra hge
              apply h6
              constructor
              · exact_mod_cast hR
              · omega
            omega
        have hih := ih (n - 1) m t [] s1 s1.options rfl
          (by rw [hro, p3]; exact hL) (by rw [hrd, p4]; exact hRl) (by omega) (by omega)
        refine ⟨hih.1, ?_, hih.2.2⟩
        rw [CloseBody_calls]
        have := hih.2.1
        omega
/-- A response that neither qualifies for a retry nor is a redirect to follow is handed
to the caller as it is. -/
theorem attempt_success (env : Env) (method url : String) (s : St) (r : Response)
    (hr : env.Adapter s.calls s.options = ⟨some r, none⟩)
    (hnr : ¬ (s.options.Retry = true ∧
      IntArrayContains s.options.RetryOptions.StatusCodes r.StatusCode = true ∧
      StringArrayContains s.options.RetryOptions.Methods method = true))
    (hred : ¬ (s.options.FollowRedirect = true ∧ r.Header.Get "location" ≠ "" ∧
      IntArrayContains RedirectStatusCodes r.StatusCode = true)) :
    attempt env method url s =
      (.done (some r) none, ⟨s.options, s.calls + 1, s.trace ++ [.dispatch s.options]⟩) := by
  simp only [attempt_dispatch, hr]
  rw [if_neg hnr, if_neg hred]

/-- The redirect branch calls `DoRequest` again exactly when the limit is not reached and
the location resolves against the current full url. -/
theorem redirect_again_iff (env : Env) (s : St) (res : Response) :
    (∃ m t s2, redirect env s res = (.again m t, s2)) ↔
      ¬ (s.options.RedirectOptions.Limit ≠ 0 ∧
        (s.options.redirectUrls.length : Int) ≥ s.options.RedirectOptions.Limit) ∧
      ∃ cur v, s.options.FullUrl = some cur ∧
        env.GetFullUrl cur.toString (res.Header.Get "location") = .ok v := by
  constructor
  · rintro ⟨m, t, s2, h⟩
    obtain ⟨cur, v, hcur, hv, -⟩ := redirect_followed env s res m t s2 h
    refine ⟨?_, cur, v, hcur, hv⟩
    rcases redirect_cases env s res with ⟨hl, -⟩ | ⟨hn, -⟩
    · exact hl
    · exact absurd (congrArg Prod.fst h) (hn m t)
  · rintro ⟨hl, cur, v, hcur, hv⟩
    obtain ⟨m, h, b, f, j, tr, hfol, -⟩ := redirect_follow env s res cur v hl hcur hv
    exact ⟨m, _, _, hfol⟩
/-- A `DoRequest` call without per-call options never lowers the retry counter and only
appends to the visited list. -/
theorem DoRequest_counters_kept (env : Env) :
    ∀ (fuel : Nat) (method url : String) (s : St),
      s.options.retries ≤ (DoRequest env fuel method url [] s).2.options.retries ∧
      s.options.redirectUrls <+: (DoRequest env fuel method url [] s).2.options.redirectUrls := by
  intro fuel
  induction fuel with
  | zero =>
    intro method url s
    simp only [DoRequest]
    exact ⟨Nat.le_refl _, List.prefix_refl _⟩
  | succ f ih =>
    intro method url s
    cases hu : env.GetFullUrl s.options.PrefixURL url with
    | error e =>
      have hd : DoRequest env (f + 1) method url [] s =
          (.ret none (some e), { s with options := s.options }) := by
        simp only [DoRequest, extendAll, hu]
      rw [hd]
      exact ⟨Nat.le_refl _, List.prefix_refl _⟩
    | ok u =>
      rw [DoRequest_succ env f method url [] s s.options u rfl hu]
      obtain ⟨p1, p2, -⟩ := prepare_frame env method url u s.options
      have hfr := attempt_frame env method url
        { s with options := prepare env method url u s.options }
      generalize attempt env method url
        { s with options := prepare env method url u s.options } = a at hfr
      obtain ⟨nx, s1⟩ := a
      obtain ⟨-, -, -, -, -, hcase⟩ := hfr
      dsimp only at hcase
      have hstep : s.options.retries ≤ s1.options.retries ∧
          s.options.redirectUrls <+: s1.options.redirectUrls := by
        rcases hcase with ⟨-, h2, h3⟩ | ⟨-, -, h3, h4, -⟩ | ⟨⟨m1, v, -, h5⟩, -, h7, -⟩
        · rw [h2, h3, p1, p2]
          exact ⟨Nat.le_refl _, List.prefix_refl _⟩
        · rw [h3, h4, p1, p2]
          exact ⟨Nat.le_succ _, List.prefix_refl _⟩
        · rw [h7, h5, p1, p2]
          exact ⟨Nat.le_refl _, List.prefix_append _ _⟩
      cases nx with
      | done res err => exact hstep
      | panic => exact hstep
      | again m t =>
        obtain ⟨i1, i2⟩ := ih m t s1
        exact ⟨Nat.le_trans hstep.1 i1, List.IsPrefix.trans hstep.2 i2⟩
/-! ## Dispatches on a trace -/

theorem dispatched_append (a b : List Event) :
    dispatched (a ++ b) = dispatched a ++ dispatched b := by
  induction a with
  | nil => rfl
  | cons e rest ih =>
    cases e <;> simp [dispatched, ih]

theorem CloseBody_trace_quiet (s : St) :
    ∃ rest, (CloseBody s).trace = s.trace ++ rest ∧ dispatched rest = [] := by
  unfold CloseBody
  cases h : s.options.Body with
  | none => exact ⟨[], by simp only [List.append_nil], rfl⟩
  | some b => exact ⟨[.closeRequestBody b], rfl, rfl⟩

theorem rewriteMethod_trace_quiet (s : St) (res : Response) :
    ∃ rest, (rewriteMethod s res).trace = s.trace ++ rest ∧ dispatched rest = [] := by
  unfold rewriteMethod
  split_ifs
  · exact CloseBody_trace_quiet { s with options := { s.options with Method := "GET" } }
  · exact ⟨[], by simp only [List.append_nil], rfl⟩

theorem retry_trace_quiet (env : Env) (method url : String) (s : St) (res : Option Response)
    (err : Option GoError) :
    ∃ rest, (retry env method url s res err).2.trace = s.trace ++ rest ∧
      dispatched rest = [] := by
  unfold retry
  split
  · exact ⟨[], by simp only [List.append_nil], rfl⟩
  · exact ⟨[], by simp only [List.append_nil], rfl⟩
  · exact ⟨_, rfl, rfl⟩

theorem redirect_trace_quiet (env : Env) (s : St) (res : Response) :
    ∃ rest, (redirect env s res).2.trace = s.trace ++ rest ∧ dispatched rest = [] := by
  obtain ⟨r1, h1, q1⟩ := rewriteMethod_trace_quiet
    { s with trace := s.trace ++ [.closeResponseBody res.Body] } res
  have h2 : (rewriteMethod { s with trace := s.trace ++ [.closeResponseBody res.Body] } res).trace =
      s.trace ++ (.closeResponseBody res.Body :: r1) := by
    rw [h1]; simp only [List.append_assoc, List.singleton_append]
  have q2 : dispatched (.closeResponseBody res.Body :: r1) = [] := by
    simp only [dispatched, q1]
  unfold redirect
  dsimp only
  split_ifs
  · exact ⟨[.closeResponseBody res.Body], rfl, rfl⟩
  · split
    · exact ⟨_, h2, q2⟩
    · split
      · exact ⟨_, h2, q2⟩
      · exact ⟨_, h2, q2⟩

/-- An attempt records its one dispatch first; what follows on the trace is no
dispatch. -/
theorem attempt_trace_quiet (env : Env) (method url : String) (s : St) :
    ∃ rest, (attempt env method url s).2.trace = s.trace ++ .dispatch s.options :: rest ∧
      dispatched rest = [] := by
  have hfrom : ∀ r : Next × St,
      (∃ rest, r.2.trace = (s.trace ++ [.dispatch s.options]) ++ rest ∧ dispatched rest = []) →
      ∃ rest, r.2.trace = s.trace ++ .dispatch s.options :: rest ∧ dispatched rest = [] := by
    rintro r ⟨rest, h, q⟩
    exact ⟨rest, by rw [h]; simp only [List.append_assoc, List.singleton_append], q⟩
  rw [attempt_dispatch]
  dsimp only
  split
  · split_ifs
    · exact hfrom _ (retry_trace_quiet env method url _ _ _)
    · exact ⟨[], rfl, rfl⟩
  · split
    · split_ifs <;> exact ⟨[], rfl, rfl⟩
    · split_ifs
      · exact ⟨[], rfl, rfl⟩
      · exact hfrom _ (retry_trace_quiet env method url _ _ _)
      · exact hfrom _ (redirect_trace_quiet env _ _)
      · exact ⟨[], rfl, rfl⟩

theorem prepare_FullUrl (env : Env) (method url : String) (u : URL) (o : Options) :
    (prepare env method url u o).FullUrl =
      some (if o.SearchParams.length ≠ 0
        then { u with RawQuery := env.EncodeWithOrder o.SearchParams } else u) := by
  unfold prepare
  dsimp only
  by_cases h : o.SearchParams.length ≠ 0
  · rw [if_pos h, if_pos h]
    obtain ⟨b, hb⟩ := ParseBody_shape env
      { o with FullUrl := some { u with RawQuery := env.EncodeWithOrder o.SearchParams },
               Method := method, URI := url }
    rw [hb]
  · rw [if_neg h, if_neg h]
    obtain ⟨b, hb⟩ := ParseBody_shape env { o with FullUrl := some u, Method := method, URI := url }
    rw [hb]

/-- Once the prefix is empty, every dispatch of the rest of the request is made with an
empty prefix. -/
theorem DoRequest_prefix_stays_empty (env : Env) :
    ∀ (fuel : Nat) (method url : String) (s : St), s.options.PrefixURL = "" →
      ∃ rest, (DoRequest env fuel method url [] s).2.trace = s.trace ++ rest ∧
        ∀ o ∈ dispatched rest, o.PrefixURL = "" := by
  intro fuel
  induction fuel with
  | zero =>
    intro method url s _
    exact ⟨[], by simp only [DoRequest, List.append_nil], by simp [dispatched]⟩
  | succ f ih =>
    intro method url s hs
    cases hu : env.GetFullUrl s.options.PrefixURL url with
    | error e =>
      exact ⟨[], by simp only [DoRequest, extendAll, hu, List.append_nil], by simp [dispatched]⟩
    | ok u =>
      rw [DoRequest_succ env f method url [] s s.options u rfl hu]
      obtain ⟨-, -, -, -, -, -, p7, -, -⟩ := prepare_frame env method url u s.options
      have hp : (prepare env method url u s.options).PrefixURL = "" := by rw [p7]; exact hs
      obtain ⟨r1, h1, q1⟩ := attempt_trace_quiet env method url
        { s with options := prepare env method url u s.options }
      have hfr := attempt_frame env method url
        { s with options := prepare env method url u s.options }
      generalize attempt env method url
        { s with options := prepare env method url u s.options } = a at h1 hfr
      obtain ⟨nx, s1⟩ := a
      obtain ⟨-, -, -, -, -, hcase⟩ := hfr
      dsimp only at h1 hcase
      have hone : ∀ o ∈ dispatched (.dispatch (prepare env method url u s.options) :: r1),
          o.PrefixURL = "" := by
        intro o ho
        simp only [dispatched, q1, List.mem_singleton] at ho
        rw [ho]; exact hp
      cases nx with
      | done res err =>
        obtain ⟨r2, h2, q2⟩ := CloseBody_trace_quiet s1
        refine ⟨.dispatch (prepare env method url u s.options) :: r1 ++ r2, ?_, ?_⟩
        · dsimp only; rw [h2, h1]; simp only [List.append_assoc, List.cons_append]
        · intro o ho
          rw [dispatched_append, q2, List.append_nil] at ho
          exact hone o ho
      | panic =>
        obtain ⟨r2, h2, q2⟩ := CloseBody_trace_quiet s1
        refine ⟨.dispatch (prepare env method url u s.options) :: r1 ++ r2, ?_, ?_⟩
        · dsimp only; rw [h2, h1]; simp only [List.append_assoc, List.cons_append]
        · intro o ho
          rw [dispatched_append, q2, List.append_nil] at ho
          exact hone o ho
      | again m t =>
        have hs1 : s1.options.PrefixURL = "" := by
          rcases hcase with ⟨h, -⟩ | ⟨-, -, -, -, h⟩ | ⟨-, -, -, h⟩
          · exact absurd rfl (h m t)
          · rw [h]; exact hp
          · exact h
        obtain ⟨r3, h3, q3⟩ := ih m t s1 hs1
        obtain ⟨r2, h2, q2⟩ := CloseBody_trace_quiet (DoRequest env f m t [] s1).2
        refine ⟨.dispatch (prepare env method url u s.options) :: r1 ++ (r3 ++ r2), ?_, ?_⟩
        · dsimp only; rw [h2, h3, h1]; simp only [List.append_assoc, List.cons_append]
        · intro o ho
          rw [dispatched_append, dispatched_append, q2, List.append_nil] at ho
          rcases List.mem_append.mp ho with ho | ho
          · exact hone o ho
          · exact q3 o ho

/-! ## The next hop of a redirect, read under canonical header keys -/

/-- Canonical-key reading of the method rewrite: a followed redirect that rewrites the method (rewriting forced, or status 303 with
a method other than GET and HEAD) has its next hop dispatched as a GET with no
content-length and no content-type entry under the canonical key and with `Body`, `Form` and `Json` empty; every
other followed redirect has its next hop dispatched with the method, those two header
entries and the payload fields of the current hop.  The options named here are the ones
the recursive `DoRequest` call dispatches first. -/
theorem redirect_next_hop_rewrite (env : Env) (method url : String) (u : URL)
    (o0 : Options) (calls : Nat) (tr : List Event) (res : Response) (m target : String)
    (s2 : St)
    (hfollowed : redirect env ⟨prepare env method url u o0, calls, tr⟩ res =
      (.again m target, s2)) :
    ((o0.RedirectOptions.RewriteMethods = true ∨
        (res.StatusCode = 303 ∧ method ≠ "GET" ∧ method ≠ "HEAD")) →
      m = "GET" ∧ ∀ u2,
        (prepare env m target u2 s2.options).Method = "GET" ∧
        Header.Has (prepare env m target u2 s2.options).Headers "content-length" = false ∧
        Header.Has (prepare env m target u2 s2.options).Headers "content-type" = false ∧
        (prepare env m target u2 s2.options).Body = none ∧
        (prepare env m target u2 s2.options).Form = [] ∧
        (prepare env m target u2 s2.options).Json = []) ∧
    (¬ (o0.RedirectOptions.RewriteMethods = true ∨
        (res.StatusCode = 303 ∧ method ≠ "GET" ∧ method ≠ "HEAD")) →
      m = method ∧ ∀ u2,
        (prepare env m target u2 s2.options).Method = method ∧
        Header.Values (prepare env m target u2 s2.options).Headers "content-length" =
          Header.Values (prepare env method url u o0).Headers "content-length" ∧
        Header.Values (prepare env m target u2 s2.options).Headers "content-type" =
          Header.Values (prepare env method url u o0).Headers "content-type" ∧
        (prepare env m target u2 s2.options).Body = (prepare env method url u o0).Body ∧
        (prepare env m target u2 s2.options).Form = (prepare env method url u o0).Form ∧
        (prepare env m target u2 s2.options).Json = (prepare env method url u o0).Json) ∧
    (∀ fuel u2, env.GetFullUrl s2.options.PrefixURL target = .ok u2 →
      ∃ rest, (DoRequest env (fuel + 1) m target [] s2).2.trace =
        s2.trace ++ .dispatch (prepare env m target u2 s2.options) :: rest) := by
  refine ⟨?_, ?_, ?_⟩
  · intro hc
    have hc1 : (prepare env method url u o0).RedirectOptions.RewriteMethods = true ∨
        (res.StatusCode = 303 ∧ (prepare env method url u o0).Method ≠ "GET" ∧
          (prepare env method url u o0).Method ≠ "HEAD") := by
      rw [prepare_RedirectOptions, prepare_Method]; exact hc
    obtain ⟨hm, hb, hf, hj, hl, ht⟩ := redirect_followed_rewrite env
      ⟨prepare env method url u o0, calls, tr⟩ res m target s2 hfollowed hc1
    refine ⟨hm, fun u2 => ⟨?_, ?_, ?_, ?_, ?_, ?_⟩⟩
    · rw [prepare_Method, hm]
    · apply Has_eq_false_of_lookup
      rw [prepare_Headers, canon_content_length]; exact hl
    · apply Has_eq_false_of_lookup
      rw [prepare_Headers, canon_content_type]; exact ht
    · rw [prepare_Body, ParseBody_of_empty env _ hf hj]; exact hb
    · rw [prepare_Form]; exact hf
    · rw [prepare_Json]; exact hj
  · intro hc
    have hc1 : ¬ ((prepare env method url u o0).RedirectOptions.RewriteMethods = true ∨
        (res.StatusCode = 303 ∧ (prepare env method url u o0).Method ≠ "GET" ∧
          (prepare env method url u o0).Method ≠ "HEAD")) := by
      rw [prepare_RedirectOptions, prepare_Method]; exact hc
    obtain ⟨hm, hb, hf, hj, hl⟩ := redirect_followed_keep env
      ⟨prepare env method url u o0, calls, tr⟩ res m target s2 hfollowed hc1
    dsimp only at hm hb hf hj hl
    rw [prepare_Method] at hm
    refine ⟨hm, fun u2 => ⟨?_, ?_, ?_, ?_, ?_, ?_⟩⟩
    · rw [prepare_Method, hm]
    · apply Values_congr
      rw [prepare_Headers, canon_content_length]
      exact hl _ (by decide) (by decide) (by decide)
    · apply Values_congr
      rw [prepare_Headers, canon_content_type]
      exact hl _ (by decide) (by decide) (by decide)
    · rw [prepare_Body, prepare_Body]
      refine ParseBody_Body_again env _ o0 ?_ ?_ ?_
      · rw [hf, prepare_Form]
      · rw [hj, prepare_Json]
      · rw [hb, prepare_Body]
    · rw [prepare_Form, hf]
    · rw [prepare_Json, hj]
  · intro fuel u2 hu2
    exact DoRequest_first_dispatch env fuel m target [] s2 s2.options u2 rfl hu2

/-- Example: a POST answered 303 is followed as a GET with nothing left of the
payload and of the two content headers. -/
theorem redirect_next_hop_rewrite_example :
    (prepare (sampleEnv redirectingAdapter) "GET" "http://a.test/" sampleUrl
      (redirect (sampleEnv redirectingAdapter)
        ⟨prepare (sampleEnv redirectingAdapter) "POST" "/" sampleUrl postOptions, 1, []⟩
        ⟨303, [("Location", ["/next"])], 7, []⟩).2.options).Method = "GET" ∧
    Header.Has (prepare (sampleEnv redirectingAdapter) "GET" "http://a.test/" sampleUrl
      (redirect (sampleEnv redirectingAdapter)
        ⟨prepare (sampleEnv redirectingAdapter) "POST" "/" sampleUrl postOptions, 1, []⟩
        ⟨303, [("Location", ["/next"])], 7, []⟩).2.options).Headers "content-length" = false ∧
    Header.Has (prepare (sampleEnv redirectingAdapter) "GET" "http://a.test/" sampleUrl
      (redirect (sampleEnv redirectingAdapter)
        ⟨prepare (sampleEnv redirectingAdapter) "POST" "/" sampleUrl postOptions, 1, []⟩
        ⟨303, [("Location", ["/next"])], 7, []⟩).2.options).Headers "content-type" = false ∧
    (prepare (sampleEnv redirectingAdapter) "GET" "http://a.test/" sampleUrl
      (redirect (sampleEnv redirectingAdapter)
        ⟨prepare (sampleEnv redirectingAdapter) "POST" "/" sampleUrl postOptions, 1, []⟩
        ⟨303, [("Location", ["/next"])], 7, []⟩).2.options).Body = none ∧
    (prepare (sampleEnv redirectingAdapter) "GET" "http://a.test/" sampleUrl
      (redirect (sampleEnv redirectingAdapter)
        ⟨prepare (sampleEnv redirectingAdapter) "POST" "/" sampleUrl postOptions, 1, []⟩
        ⟨303, [("Location", ["/next"])], 7, []⟩).2.options).Form = [] ∧
    (prepare (sampleEnv redirectingAdapter) "GET" "http://a.test/" sampleUrl
      (redirect (sampleEnv redirectingAdapter)
        ⟨prepare (sampleEnv redirectingAdapter) "POST" "/" sampleUrl postOptions, 1, []⟩
        ⟨303, [("Location", ["/next"])], 7, []⟩).2.options).Json = [] :=
  ((redirect_next_hop_rewrite (sampleEnv redirectingAdapter) "POST" "/" sampleUrl
    postOptions 1 [] ⟨303, [("Location", ["/next"])], 7, []⟩ "GET" "http://a.test/"
    (redirect (sampleEnv redirectingAdapter)
      ⟨prepare (sampleEnv redirectingAdapter) "POST" "/" sampleUrl postOptions, 1, []⟩
      ⟨303, [("Location", ["/next"])], 7, []⟩).2
    (by decide)).1 (Or.inr ⟨rfl, by decide, by decide⟩)).2 sampleUrl

/-- Canonical-key reading of the header stripping: after a followed redirect whose resolved url differs from the current full url in
hostname or port, the next hop is dispatched with no host, cookie or authorization entry under the canonical key;
when hostname and port are both equal, the host and authorization entries are those of
the current request, and so is the cookie entry unless the cookie synchronizer rewrites
it (cookie jar present, manual cookie header non-empty, a response cookie with the name
of a manual cookie).  The options named here are the ones the recursive `DoRequest` call
dispatches first. -/
theorem redirect_next_hop_sensitive (env : Env) (s : St) (res : Response)
    (m target : String) (s2 : St) (cur v : URL)
    (hfollowed : redirect env s res = (.again m target, s2))
    (hcur : s.options.FullUrl = some cur)
    (hv : env.GetFullUrl cur.toString (res.Header.Get "location") = .ok v) :
    ((v.Hostname ≠ cur.Hostname ∨ v.Port ≠ cur.Port) → ∀ u2,
      Header.Has (prepare env m target u2 s2.options).Headers "host" = false ∧
      Header.Has (prepare env m target u2 s2.options).Headers "cookie" = false ∧
      Header.Has (prepare env m target u2 s2.options).Headers "authorization" = false) ∧
    ((v.Hostname = cur.Hostname ∧ v.Port = cur.Port) → ∀ u2,
      Header.Values (prepare env m target u2 s2.options).Headers "host" =
        Header.Values s.options.Headers "host" ∧
      Header.Values (prepare env m target u2 s2.options).Headers "authorization" =
        Header.Values s.options.Headers "authorization" ∧
      (¬ (s.options.CookieJar.isSome = true ∧ s.options.Headers.Get "cookie" ≠ "" ∧
          ∃ rc ∈ res.Cookies, ∃ mc ∈ readCookies s.options.Headers, mc.Name = rc.Name) →
        Header.Values (prepare env m target u2 s2.options).Headers "cookie" =
          Header.Values s.options.Headers "cookie")) ∧
    (∀ fuel u2, env.GetFullUrl s2.options.PrefixURL target = .ok u2 →
      ∃ rest, (DoRequest env (fuel + 1) m target [] s2).2.trace =
        s2.trace ++ .dispatch (prepare env m target u2 s2.options) :: rest) := by
  obtain ⟨hcross, hsame⟩ := redirect_followed_sensitive env s res m target s2 cur v hfollowed
    hcur hv
  refine ⟨?_, ?_, ?_⟩
  · intro hx u2
    obtain ⟨h1, h2, h3⟩ := hcross hx
    refine ⟨?_, ?_, ?_⟩
    · apply Has_eq_false_of_lookup
      rw [prepare_Headers, canon_host]; exact h1
    · apply Has_eq_false_of_lookup
      rw [prepare_Headers, canon_cookie]; exact h2
    · apply Has_eq_false_of_lookup
      rw [prepare_Headers, canon_authorization]; exact h3
  · intro hs u2
    obtain ⟨h1, h2, h3⟩ := hsame hs
    refine ⟨?_, ?_, ?_⟩
    · apply Values_congr
      rw [prepare_Headers, canon_host]; exact h1
    · apply Values_congr
      rw [prepare_Headers, canon_authorization]; exact h2
    · intro hno
      apply Values_congr
      rw [prepare_Headers, canon_cookie]; exact h3 hno
  · intro fuel u2 hu2
    exact DoRequest_first_dispatch env fuel m target [] s2 s2.options u2 rfl hu2

/-- Example: a redirect from `a.test` to `http://b.test/` leaves no host, cookie or
authorization entry for the next hop. -/
theorem redirect_next_hop_sensitive_example :
    Header.Has (prepare (sampleEnv redirectingAdapter) "POST" "http://b.test/" otherUrl
      (redirect (sampleEnv redirectingAdapter)
        ⟨prepare (sampleEnv redirectingAdapter) "POST" "/" sampleUrl postOptions, 1, []⟩
        ⟨307, [("Location", ["http://b.test/"])], 7, []⟩).2.options).Headers "host" = false ∧
    Header.Has (prepare (sampleEnv redirectingAdapter) "POST" "http://b.test/" otherUrl
      (redirect (sampleEnv redirectingAdapter)
        ⟨prepare (sampleEnv redirectingAdapter) "POST" "/" sampleUrl postOptions, 1, []⟩
        ⟨307, [("Location", ["http://b.test/"])], 7, []⟩).2.options).Headers "cookie" = false ∧
    Header.Has (prepare (sampleEnv redirectingAdapter) "POST" "http://b.test/" otherUrl
      (redirect (sampleEnv redirectingAdapter)
        ⟨prepare (sampleEnv redirectingAdapter) "POST" "/" sampleUrl postOptions, 1, []⟩
        ⟨307, [("Location", ["http://b.test/"])], 7, []⟩).2.options).Headers "authorization" =
          false :=
  (redirect_next_hop_sensitive (sampleEnv redirectingAdapter)
    ⟨prepare (sampleEnv redirectingAdapter) "POST" "/" sampleUrl postOptions, 1, []⟩
    ⟨307, [("Location", ["http://b.test/"])], 7, []⟩ "POST" "http://b.test/"
    (redirect (sampleEnv redirectingAdapter)
      ⟨prepare (sampleEnv redirectingAdapter) "POST" "/" sampleUrl postOptions, 1, []⟩
      ⟨307, [("Location", ["http://b.test/"])], 7, []⟩).2
    sampleUrl otherUrl (by decide) (by decide) rfl).1 (Or.inl (by decide)) otherUrl
/-! ## The state one call leaves to the next -/

/-- A `DoRequest` call without per-call options leaves the retry and redirect limits
and the two switches as they were. -/
theorem DoRequest_limits_kept (env : Env) :
    ∀ (fuel : Nat) (method url : String) (s : St),
      (DoRequest env fuel method url [] s).2.options.RetryOptions = s.options.RetryOptions ∧
      (DoRequest env fuel method url [] s).2.options.RedirectOptions =
        s.options.RedirectOptions ∧
      (DoRequest env fuel method url [] s).2.options.Retry = s.options.Retry ∧
      (DoRequest env fuel method url [] s).2.options.FollowRedirect =
        s.options.FollowRedirect := by
  intro fuel
  induction fuel with
  | zero =>
    intro method url s
    simp [DoRequest]
  | succ f ih =>
    intro method url s
    cases hu : env.GetFullUrl s.options.PrefixURL url with
    | error e =>
      have hd : DoRequest env (f + 1) method url [] s =
          (.ret none (some e), { s with options := s.options }) := by
        simp only [DoRequest, extendAll, hu]
      rw [hd]
      exact ⟨rfl, rfl, rfl, rfl⟩
    | ok u =>
      rw [DoRequest_succ env f method url [] s s.options u rfl hu]
      obtain ⟨-, -, p3, p4, p5, p6, -⟩ := prepare_frame env method url u s.options
      have hfr := attempt_frame env method url
        { s with options := prepare env method url u s.options }
      generalize attempt env method url
        { s with options := prepare env method url u s.options } = a at hfr
      obtain ⟨nx, s1⟩ := a
      obtain ⟨-, f2, f3, f4, f5, -⟩ := hfr
      dsimp only at f2 f3 f4 f5
      have hstep : s1.options.RetryOptions = s.options.RetryOptions ∧
          s1.options.RedirectOptions = s.options.RedirectOptions ∧
          s1.options.Retry = s.options.Retry ∧
          s1.options.FollowRedirect = s.options.FollowRedirect :=
        ⟨f2.trans p3, f3.trans p4, f4.trans p5, f5.trans p6⟩
      cases nx with
      | done res err => exact hstep
      | panic => exact hstep
      | again m t =>
        obtain ⟨i1, i2, i3, i4⟩ := ih m t s1
        exact ⟨i1.trans hstep.1, i2.trans hstep.2.1, i3.trans hstep.2.2.1,
          i4.trans hstep.2.2.2⟩

/-- The decision on a response whose status and method are retryable, with retrying
enabled: at or above the limit the response comes back with the max-retries error,
below it the retry closure runs. -/
theorem attempt_retryable_status (env : Env) (method url : String) (s : St) (r : Response)
    (hr : env.Adapter s.calls s.options = ⟨some r, none⟩)
    (hretry : s.options.Retry = true)
    (hstatus : r.StatusCode ∈ s.options.RetryOptions.StatusCodes)
    (hmethod : method ∈ s.options.RetryOptions.Methods) :
    ((s.options.retries : Int) ≥ s.options.RetryOptions.Limit →
      attempt env method url s =
        (.done (some r) (some .maxRetriesExceeded),
          ⟨s.options, s.calls + 1, s.trace ++ [.dispatch s.options]⟩)) ∧
    ((s.options.retries : Int) < s.options.RetryOptions.Limit →
      attempt env method url s =
        retry env method url ⟨s.options, s.calls + 1, s.trace ++ [.dispatch s.options]⟩
          (some r) none) := by
  have hcond : s.options.Retry = true ∧
      IntArrayContains s.options.RetryOptions.StatusCodes r.StatusCode = true ∧
      StringArrayContains s.options.RetryOptions.Methods method = true := by
    rw [IntArrayContains_iff, StringArrayContains_iff]
    exact ⟨hretry, hstatus, hmethod⟩
  constructor
  · intro hlim
    simp only [attempt_dispatch, hr]
    rw [if_pos hcond, if_pos hlim]
  · intro hlim
    have hn : ¬ ((s.options.retries : Int) ≥ s.options.RetryOptions.Limit) := by omega
    simp only [attempt_dispatch, hr]
    rw [if_pos hcond, if_neg hn]

/-! ## The claims -/

/-- C1, as stated, fails: with retry limit 0 a transport failing with the retryable
`ETIMEDOUT` is dispatched once and `DoRequest` returns that transport error, not a
max-retries error; with limit 2 and a response next to each error it is dispatched three
times and again the transport error comes back. -/
theorem C1_transport_error_not_max_retries :
    (DoRequest (sampleEnv timeoutAdapter) 1 "GET" "/" []
      ⟨{ sampleOptions with RetryOptions := ⟨0, ["GET"], [503], ["ETIMEDOUT"], true⟩ }, 0, []⟩).1 =
        .ret none (some (.text "ETIMEDOUT")) ∧
    (DoRequest (sampleEnv timeoutAdapter) 1 "GET" "/" []
      ⟨{ sampleOptions with RetryOptions := ⟨0, ["GET"], [503], ["ETIMEDOUT"], true⟩ }, 0, []⟩).1 ≠
        .ret none (some .maxRetriesExceeded) ∧
    (DoRequest (sampleEnv timeoutWithResponseAdapter) 3 "GET" "/" [] ⟨sampleOptions, 0, []⟩).1 =
        .ret none (some (.text "ETIMEDOUT")) ∧
    (DoRequest (sampleEnv timeoutWithResponseAdapter) 3 "GET" "/" [] ⟨sampleOptions, 0, []⟩).2.calls =
        3 := by
  decide

/-- C1, amended: for every retry limit `L`, on a client with retrying enabled and a retry
counter of 0, if every dispatch fails with an error whose message is in the retryable
set and hands back a response from which the wait can be computed, `DoRequest` makes
exactly `L + 1` dispatches (`L` retries) and returns the transport error of the last
one with no response. -/
theorem C1_retries_then_transport_error (env : Env) (msg : Nat → String) (L fuel : Nat)
    (method url : String) (options : List Options) (s : St) (o : Options) (u : URL)
    (hext : extendAll env s.options options = .ok o)
    (hu : env.GetFullUrl o.PrefixURL url = .ok u)
    (hretry : o.Retry = true)
    (hlim : o.RetryOptions.Limit = (L : Int))
    (hzero : o.retries = 0)
    (hmsg : ∀ i, msg i ∈ o.RetryOptions.ErrorCodes)
    (hfail : ∀ i o1, ∃ r t, env.Adapter i o1 = ⟨some r, some (msg i)⟩ ∧
      getTimeout env (env.Now (i + 1)) o1 (some r) = .ok t)
    (hfuel : L < fuel) :
    (DoRequest env fuel method url options s).1 =
      .ret none (some (.text (msg (s.calls + L)))) ∧
    (DoRequest env fuel method url options s).2.calls = s.calls + L + 1 ∧
    (DoRequest env fuel method url options s).2.options.retries = L :=
  DoRequest_retry_loop env msg L L fuel method url options s o u hext hu hretry hlim
    (by omega) hmsg hfail hfuel

/-- Witness of C1 (amended): limit 2, three dispatches, the `ETIMEDOUT` error returned. -/
theorem C1_retries_then_transport_error_witness :
    (DoRequest (sampleEnv timeoutWithResponseAdapter) 3 "GET" "/" [] ⟨sampleOptions, 0, []⟩).1 =
      .ret none (some (.text "ETIMEDOUT")) ∧
    (DoRequest (sampleEnv timeoutWithResponseAdapter) 3 "GET" "/" [] ⟨sampleOptions, 0, []⟩).2.calls =
      0 + 2 + 1 ∧
    (DoRequest (sampleEnv timeoutWithResponseAdapter) 3 "GET" "/" []
      ⟨sampleOptions, 0, []⟩).2.options.retries = 2 :=
  C1_retries_then_transport_error (sampleEnv timeoutWithResponseAdapter) (fun _ => "ETIMEDOUT")
    2 3 "GET" "/" [] ⟨sampleOptions, 0, []⟩ sampleOptions sampleUrl rfl rfl rfl rfl rfl
    (fun _ => (by decide : "ETIMEDOUT" ∈ ["ETIMEDOUT"]))
    (fun _ o1 => ⟨⟨0, [], 0, []⟩, o1.Timeout, rfl, rfl⟩) (by decide)

/-- C2: for every nonzero redirect limit `R`, on a client with redirect-following enabled
and an empty visited list, if every dispatch is answered 302 with a non-empty,
resolvable location and no retry applies, `DoRequest` makes exactly `R + 1` dispatches,
follows `R` redirects and returns no response with the max-redirects error carrying
`R`. -/
theorem C2_redirects_up_to_limit (env : Env) (R fuel : Nat) (method url : String)
    (options : List Options) (s : St) (o : Options) (u : URL)
    (hR : R ≠ 0)
    (hext : extendAll env s.options options = .ok o)
    (hu : env.GetFullUrl o.PrefixURL url = .ok u)
    (hfollow : o.FollowRedirect = true)
    (hlim : o.RedirectOptions.Limit = (R : Int))
    (hempty : o.redirectUrls = [])
    (hnoretry : o.Retry = false ∨ (302 : Int) ∉ o.RetryOptions.StatusCodes ∨
      (method ∉ o.RetryOptions.Methods ∧ "GET" ∉ o.RetryOptions.Methods))
    (h302 : ∀ i o1, ∃ r, env.Adapter i o1 = ⟨some r, none⟩ ∧ r.StatusCode = 302 ∧
      r.Header.Get "location" ≠ "" ∧
      ∀ cur : URL, ∃ v, env.GetFullUrl cur.toString (r.Header.Get "location") = .ok v)
    (habs : ∀ v : URL, ∃ w, env.GetFullUrl "" v.toString = .ok w)
    (hfuel : R < fuel) :
    (DoRequest env fuel method url options s).1 =
      .ret none (some (.maxRedirectsExceeded R)) ∧
    (DoRequest env fuel method url options s).2.calls = s.calls + R + 1 ∧
    (DoRequest env fuel method url options s).2.options.redirectUrls.length = R :=
  DoRequest_redirect_loop env R hR method R fuel method url options s o u hext hu hfollow hlim
    (by rw [hempty]; simp) hnoretry (Or.inl rfl) h302 habs hfuel

/-- Witness of C2: limit 2, three dispatches, the max-redirects error carrying 2. -/
theorem C2_redirects_up_to_limit_witness :
    (DoRequest (sampleEnv redirectingAdapter) 3 "GET" "/" [] ⟨sampleOptions, 0, []⟩).1 =
      .ret none (some (.maxRedirectsExceeded 2)) ∧
    (DoRequest (sampleEnv redirectingAdapter) 3 "GET" "/" [] ⟨sampleOptions, 0, []⟩).2.calls =
      0 + 2 + 1 ∧
    (DoRequest (sampleEnv redirectingAdapter) 3 "GET" "/" []
      ⟨sampleOptions, 0, []⟩).2.options.redirectUrls.length = 2 :=
  C2_redirects_up_to_limit (sampleEnv redirectingAdapter) 2 3 "GET" "/" []
    ⟨sampleOptions, 0, []⟩ sampleOptions sampleUrl (by decide) rfl rfl rfl rfl rfl
    (Or.inr (Or.inl (by decide : (302 : Int) ∉ [503])))
    (fun _ _ => ⟨⟨302, [("Location", ["/next"])], 7, []⟩, rfl, rfl,
      (by decide : Header.Get [("Location", ["/next"])] "location" ≠ ""),
      fun _ => ⟨sampleUrl, rfl⟩⟩)
    (fun v => ⟨if v.toString = "http://b.test/" then otherUrl else sampleUrl, rfl⟩) (by decide)

/-- C3 failing: a POST with a body and with `content-type` and `content-length` stored
under lower-case keys is answered 303: the next hop is dispatched as a GET with no body,
but `Headers.Del` removes only the canonical keys, so the next hop still carries both
content headers (while `Header.Has` and `Header.Get`, which read the canonical key, see
none). -/
theorem C3_lower_case_content_headers_survive :
    (DoRequest (sampleEnv seeOtherThenOkAdapter) 2 "POST" "/" []
      ⟨lowerCaseOptions, 0, []⟩).1 = .ret (some okResponse) none ∧
    (dispatched (DoRequest (sampleEnv seeOtherThenOkAdapter) 2 "POST" "/" []
      ⟨lowerCaseOptions, 0, []⟩).2.trace).map (fun o => (o.Method, o.Body)) =
        [("POST", some ⟨"hi"⟩), ("GET", none)] ∧
    (dispatched (DoRequest (sampleEnv seeOtherThenOkAdapter) 2 "POST" "/" []
      ⟨lowerCaseOptions, 0, []⟩).2.trace).map
        (fun o => o.Headers.filter fun kv => kv.1 = "content-type" ∨ kv.1 = "content-length") =
        [[("content-type", ["text/plain"]), ("content-length", ["2"])],
          [("content-type", ["text/plain"]), ("content-length", ["2"])]] ∧
    (dispatched (DoRequest (sampleEnv seeOtherThenOkAdapter) 2 "POST" "/" []
      ⟨lowerCaseOptions, 0, []⟩).2.trace).map
        (fun o => (Header.Has o.Headers "content-type", Header.Has o.Headers "content-length")) =
        [(false, false), (false, false)] := by
  decide

/-- C4 failing: a request to `http://a.test/` with `authorization`, `cookie` and `host`
stored under lower-case keys is redirected (302) to `http://b.test/`: `Headers.Del`
removes only the canonical keys, so the next hop is dispatched to the other host with all
three entries still in its headers (while `Header.Has`, which reads the canonical key,
sees none). -/
theorem C4_lower_case_sensitive_headers_leak :
    (DoRequest (sampleEnv otherHostThenOkAdapter) 2 "GET" "/" []
      ⟨lowerCaseOptions, 0, []⟩).1 = .ret (some okResponse) none ∧
    (dispatched (DoRequest (sampleEnv otherHostThenOkAdapter) 2 "GET" "/" []
      ⟨lowerCaseOptions, 0, []⟩).2.trace).map (fun o => o.FullUrl) =
        [some sampleUrl, some otherUrl] ∧
    sampleUrl.Hostname ≠ otherUrl.Hostname ∧
    (dispatched (DoRequest (sampleEnv otherHostThenOkAdapter) 2 "GET" "/" []
      ⟨lowerCaseOptions, 0, []⟩).2.trace).map
        (fun o => o.Headers.filter fun kv =>
          kv.1 = "authorization" ∨ kv.1 = "cookie" ∨ kv.1 = "host") =
        [[("authorization", ["Bearer t"]), ("cookie", ["a=1"]), ("host", ["a.test"])],
          [("authorization", ["Bearer t"]), ("cookie", ["a=1"]), ("host", ["a.test"])]] ∧
    (dispatched (DoRequest (sampleEnv otherHostThenOkAdapter) 2 "GET" "/" []
      ⟨lowerCaseOptions, 0, []⟩).2.trace).map
        (fun o => (Header.Has o.Headers "authorization", Header.Has o.Headers "cookie",
          Header.Has o.Headers "host")) =
        [(false, false, false), (false, false, false)] := by
  decide

/-- C5: with a cookie jar, a non-empty manual cookie header and a response cookie whose
name is the name of a manual cookie, `updateRequestCookies` replaces the cookie entry by
one value: the manual cookies whose names the response does not set, as `name=value`
pairs joined by `; ` (in the order the map is visited); an empty remainder leaves the
empty value, and no other entry changes.  Without a cookie jar, without a manual cookie
header or without such a response cookie the options are left as they are. -/
theorem C5_cookie_header_rebuilt (env : Env) (hperm : ∀ m, (env.mapOrder m).Perm m)
    (o : Options) (res : Response) :
    ((o.CookieJar.isSome = true ∧ o.Headers.Get "cookie" ≠ "" ∧
        ∃ rc ∈ res.Cookies, ∃ mc ∈ readCookies o.Headers, mc.Name = rc.Name) →
      ∃ remaining : List Cookie,
        remaining.Perm ((readCookies o.Headers).filter fun mc =>
          !res.Cookies.any fun rc => rc.Name == mc.Name) ∧
        Header.Values (updateRequestCookies env o res).Headers "cookie" =
          ["; ".intercalate (remaining.map fun c => c.Name ++ "=" ++ c.Value)] ∧
        (remaining = [] → Header.Get (updateRequestCookies env o res).Headers "cookie" = "") ∧
        (∀ key, CanonicalMIMEHeaderKey key ≠ "Cookie" →
          Header.Values (updateRequestCookies env o res).Headers key =
            Header.Values o.Headers key)) ∧
    (¬ (o.CookieJar.isSome = true ∧ o.Headers.Get "cookie" ≠ "" ∧
        ∃ rc ∈ res.Cookies, ∃ mc ∈ readCookies o.Headers, mc.Name = rc.Name) →
      updateRequestCookies env o res = o) := by
  constructor
  · rintro ⟨hjar, hcookie, hmatch⟩
    obtain ⟨remaining, hrem, hl⟩ :=
      updateRequestCookies_rewrites env hperm o res hjar hcookie hmatch
    refine ⟨remaining, hrem, ?_, ?_, ?_⟩
    · unfold Header.Values
      rw [canon_cookie, hl]; rfl
    · intro hnil
      unfold Header.Get
      rw [canon_cookie, hl, hnil]; rfl
    · intro key hkey
      exact Values_congr _ _ key (updateRequestCookies_lookup env o res _ hkey)
  · exact updateRequestCookies_unchanged env o res

/-- Witness of C5: manual `a=1; b=2` and a response setting `a=9` give exactly `b=2`. -/
theorem C5_cookie_header_rebuilt_witness :
    Header.Values (updateRequestCookies (sampleEnv timeoutAdapter) postOptions
      ⟨302, [], 7, [⟨"a", "9"⟩]⟩).Headers "cookie" = ["b=2"] := by
  obtain ⟨remaining, hrem, hv, -, -⟩ :=
    (C5_cookie_header_rebuilt (sampleEnv timeoutAdapter) (fun m => List.Perm.refl m) postOptions
      ⟨302, [], 7, [⟨"a", "9"⟩]⟩).1
      ⟨by decide, by decide, ⟨"a", "9"⟩, by decide, ⟨"a", "1"⟩, by decide, rfl⟩
  have hfil : ((readCookies postOptions.Headers).filter fun mc =>
      !(([⟨"a", "9"⟩] : List Cookie).any fun rc => rc.Name == mc.Name)) = [⟨"b", "2"⟩] := by
    decide
  rw [hfil, List.perm_singleton] at hrem
  rw [hv, hrem]
  decide

/-- C6 at work and failing: `retry-after: 120` gives a base wait of exactly 120 seconds,
but `retry-after: 9223372037`, which `Atoi` accepts, gives the wrapped product
-9223372036709551616 nanoseconds, a negative wait, where the claim has 9223372037
seconds. -/
theorem C6_retry_after_seconds_overflow :
    getTimeout (sampleEnv timeoutAdapter) 0 sampleOptions (some (retryAfterResponse "120")) =
      .ok (120 * Second) ∧
    Atoi (TrimSpace ((retryAfterResponse "9223372037").Header.Get "retry-after")) =
      some 9223372037 ∧
    getTimeout (sampleEnv timeoutAdapter) 0 sampleOptions
      (some (retryAfterResponse "9223372037")) = .ok (-9223372036709551616) ∧
    (-9223372036709551616 : Int) ≠ 9223372037 * Second := by
  decide

/-- C7, as stated, fails: with a backoff function that adds 2000 seconds to the base wait,
a 503 whose retry-after header is a date 1000 seconds in the past gives a base wait of
minus 1000 seconds, and the retry closure then calls `time.Sleep` with 1000 seconds: the
wait slept before the next attempt is 1000 seconds, not zero. -/
theorem C7_backoff_sleeps_after_past_date :
    getTimeout (addingBackoffEnv pastDateThenOkAdapter)
      ((addingBackoffEnv pastDateThenOkAdapter).Now 1) sampleOptions
      (some (retryAfterResponse "Thu, 01 Jan 1970 00:00:00 GMT")) = .ok (-1000000000000) ∧
    (DoRequest (addingBackoffEnv pastDateThenOkAdapter) 2 "GET" "/" []
      ⟨sampleOptions, 0, []⟩).1 = .ret (some okResponse) none ∧
    ((DoRequest (addingBackoffEnv pastDateThenOkAdapter) 2 "GET" "/" []
      ⟨sampleOptions, 0, []⟩).2.trace.drop 1).take 1 = [.sleep 1000000000000] ∧
    sleptFor 1000000000000 = 1000000000000 ∧
    sleptFor 1000000000000 ≠ 0 := by
  decide

/-- C7, amended: with retry-after honoured and a header that is not an integer but an HTTP
date `d`, `getTimeout` returns `d` minus the current time as `Time.Sub` computes it (the
exact difference whenever it fits a duration) and no error; for `d` in the past the
value is negative, and the retry closure calls `time.Sleep` with what the backoff
function makes of it: whenever that result is not positive, and so whenever the backoff
returns the base wait unchanged (`time.Sleep` is then called with the negative value), the
time slept before the next attempt is zero. -/
theorem C7_http_date_wait (env : Env) (method url : String) (s : St) (res : Response)
    (d : Int)
    (hhonour : s.options.RetryOptions.RetryAfter = true)
    (hnonempty : TrimSpace (res.Header.Get "retry-after") ≠ "")
    (hint : Atoi (TrimSpace (res.Header.Get "retry-after")) = none)
    (hdate : env.ParseTime (TrimSpace (res.Header.Get "retry-after")) = .ok d) :
    getTimeout env (env.Now s.calls) s.options (some res) = .ok (timeSub d (env.Now s.calls)) ∧
    (minDuration ≤ d - env.Now s.calls → d - env.Now s.calls ≤ maxDuration →
      timeSub d (env.Now s.calls) = d - env.Now s.calls) ∧
    (d < env.Now s.calls →
      timeSub d (env.Now s.calls) < 0 ∧
      ∀ err, retry env method url s (some res) err =
          (.again method url,
            { s with
              options := { s.options with retries := s.options.retries + 1 }
              trace := s.trace ++ [.sleep (env.CalculateTimeout s.options.retries
                s.options.RetryOptions (timeSub d (env.Now s.calls)) err)] }) ∧
        (env.CalculateTimeout s.options.retries s.options.RetryOptions
            (timeSub d (env.Now s.calls)) err ≤ 0 →
          sleptFor (env.CalculateTimeout s.options.retries s.options.RetryOptions
            (timeSub d (env.Now s.calls)) err) = 0) ∧
        (env.CalculateTimeout s.options.retries s.options.RetryOptions
            (timeSub d (env.Now s.calls)) err = timeSub d (env.Now s.calls) →
          retry env method url s (some res) err =
            (.again method url,
              { s with
                options := { s.options with retries := s.options.retries + 1 }
                trace := s.trace ++ [.sleep (timeSub d (env.Now s.calls))] }) ∧
          sleptFor (env.CalculateTimeout s.options.retries s.options.RetryOptions
            (timeSub d (env.Now s.calls)) err) = 0)) := by
  have hgt : getTimeout env (env.Now s.calls) s.options (some res) =
      .ok (timeSub d (env.Now s.calls)) := by
    simp only [getTimeout, hhonour, hnonempty, hint, hdate]
    simp
  refine ⟨hgt, ?_, ?_⟩
  · intro h1 h2
    unfold timeSub
    rw [if_neg (by omega), if_neg (by omega)]
  · intro hpast
    have hneg : timeSub d (env.Now s.calls) < 0 := by
      unfold timeSub minDuration maxDuration
      split_ifs <;> omega
    refine ⟨hneg, fun err => ⟨?_, ?_, ?_⟩⟩
    · simp only [retry, hgt]
    · intro hle
      unfold sleptFor
      rw [if_pos hle]
    · intro hpass
      refine ⟨by simp only [retry, hgt, hpass], ?_⟩
      rw [hpass]
      unfold sleptFor
      rw [if_pos (by omega)]

/-- Witness of C7 (amended): the epoch as retry-after date, read 1000 seconds later, gives
a base wait of minus 1000 seconds and, with a backoff that returns it unchanged, a sleep
of zero. -/
theorem C7_http_date_wait_witness :
    getTimeout (sampleEnv timeoutAdapter) ((sampleEnv timeoutAdapter).Now 0) sampleOptions
      (some (retryAfterResponse "Thu, 01 Jan 1970 00:00:00 GMT")) = .ok (-1000000000000) ∧
    sleptFor ((sampleEnv timeoutAdapter).CalculateTimeout 0 sampleOptions.RetryOptions
      (-1000000000000) none) = 0 := by
  have h := C7_http_date_wait (sampleEnv timeoutAdapter) "GET" "/" ⟨sampleOptions, 0, []⟩
    (retryAfterResponse "Thu, 01 Jan 1970 00:00:00 GMT") 0 rfl (by decide) (by decide) rfl
  exact ⟨h.1, (((h.2.2 (by decide)).2 none).2.2 rfl).2⟩

/-- C8: with retry-after honoured, a response that qualifies for a retry and whose
retry-after header is non-empty after trimming but is neither an integer nor an HTTP
date makes `getTimeout` return the parse error, and `DoRequest` returns that error with
no response: the trace holds the one dispatch and no sleep, and the retry counter keeps
its value. -/
theorem C8_malformed_retry_after_is_fatal (env : Env) (fuel : Nat) (method url : String)
    (options : List Options) (s : St) (o : Options) (u : URL) (res : Response)
    (terr : Option String) (perr : GoError)
    (hext : extendAll env s.options options = .ok o)
    (hu : env.GetFullUrl o.PrefixURL url = .ok u)
    (hadapter : env.Adapter s.calls (prepare env method url u o) = ⟨some res, terr⟩)
    (hretry : o.Retry = true)
    (hbelow : (o.retries : Int) < o.RetryOptions.Limit)
    (hqual : (terr = none ∧ res.StatusCode ∈ o.RetryOptions.StatusCodes ∧
        method ∈ o.RetryOptions.Methods) ∨
      (∃ msg, terr = some msg ∧ msg ∈ o.RetryOptions.ErrorCodes))
    (hhonour : o.RetryOptions.RetryAfter = true)
    (hnonempty : TrimSpace (res.Header.Get "retry-after") ≠ "")
    (hint : Atoi (TrimSpace (res.Header.Get "retry-after")) = none)
    (hdate : env.ParseTime (TrimSpace (res.Header.Get "retry-after")) = .error perr) :
    (∀ now, getTimeout env now (prepare env method url u o) (some res) = .err perr) ∧
    DoRequest env (fuel + 1) method url options s =
      (.ret none (some perr),
        CloseBody ⟨prepare env method url u o, s.calls + 1,
          s.trace ++ [.dispatch (prepare env method url u o)]⟩) ∧
    (DoRequest env (fuel + 1) method url options s).2.calls = s.calls + 1 ∧
    (DoRequest env (fuel + 1) method url options s).2.options.retries = o.retries := by
  obtain ⟨b, q, hp⟩ := prepare_shape env method url u o
  have hR : (prepare env method url u o).Retry = true := by rw [hp]; exact hretry
  have hRO : (prepare env method url u o).RetryOptions = o.RetryOptions := by rw [hp]
  have hn : (prepare env method url u o).retries = o.retries := by rw [hp]
  have hgt : ∀ now, getTimeout env now (prepare env method url u o) (some res) = .err perr := by
    intro now
    simp only [getTimeout, hRO, hhonour, hnonempty, hint, hdate]
    simp
  have hstep : DoRequest env (fuel + 1) method url options s =
      (.ret none (some perr),
        CloseBody ⟨prepare env method url u o, s.calls + 1,
          s.trace ++ [.dispatch (prepare env method url u o)]⟩) := by
    rw [DoRequest_succ env fuel method url options s o u hext hu]
    rcases hqual with ⟨h1, h2, h3⟩ | ⟨msg, h1, h2⟩
    · subst h1
      have hcond : (prepare env method url u o).Retry = true ∧
          IntArrayContains (prepare env method url u o).RetryOptions.StatusCodes res.StatusCode = true ∧
          StringArrayContains (prepare env method url u o).RetryOptions.Methods method = true := by
        rw [hRO, IntArrayContains_iff, StringArrayContains_iff]
        exact ⟨hR, h2, h3⟩
      have hlim1 : ¬ ((prepare env method url u o).retries : Int) ≥
          (prepare env method url u o).RetryOptions.Limit := by rw [hRO, hn]; omega
      simp only [attempt_dispatch, hadapter, hcond, hlim1, if_true, if_false, and_self, retry, hgt]
    · subst h1
      have hcond : (prepare env method url u o).Retry = true ∧
          ((prepare env method url u o).retries : Int) < (prepare env method url u o).RetryOptions.Limit ∧
          StringArrayContains (prepare env method url u o).RetryOptions.ErrorCodes msg = true := by
        rw [hRO, hn, StringArrayContains_iff]
        exact ⟨hR, hbelow, h2⟩
      simp only [attempt_dispatch, hadapter, hcond, if_true, and_self, retry, hgt]
  refine ⟨hgt, hstep, ?_, ?_⟩
  · rw [hstep]; rfl
  · rw [hstep, hp]; rfl

/-- Witness of C8: a 503 answer to a GET with `Retry-After: soon` ends the request with
the date parser's error after one dispatch, the retry counter still 0. -/
theorem C8_malformed_retry_after_is_fatal_witness :
    (DoRequest (sampleEnv (answeringAdapter (retryAfterResponse "soon"))) 1 "GET" "/" []
      ⟨sampleOptions, 0, []⟩).1 = .ret none (some (.text "not a date")) ∧
    (DoRequest (sampleEnv (answeringAdapter (retryAfterResponse "soon"))) 1 "GET" "/" []
      ⟨sampleOptions, 0, []⟩).2.calls = 0 + 1 ∧
    (DoRequest (sampleEnv (answeringAdapter (retryAfterResponse "soon"))) 1 "GET" "/" []
      ⟨sampleOptions, 0, []⟩).2.options.retries = 0 := by
  have h := C8_malformed_retry_after_is_fatal
    (sampleEnv (answeringAdapter (retryAfterResponse "soon"))) 0 "GET" "/" []
    ⟨sampleOptions, 0, []⟩ sampleOptions sampleUrl (retryAfterResponse "soon") none
    (.text "not a date") rfl rfl rfl rfl (by decide)
    (Or.inl ⟨rfl, by decide, by decide⟩) rfl (by decide) (by decide) rfl
  exact ⟨congrArg Prod.fst h.2.1, h.2.2.1, h.2.2.2⟩

/-- C9: with retrying enabled and a response whose status and method are both retryable,
a retry counter that has reached the limit makes `DoRequest` return that response with
the max-retries error after this one dispatch; a counter below the limit hands the
response to the retry closure, which (once the wait is computed) sleeps, adds one to the
counter and calls `DoRequest` again with the same method and url. -/
theorem C9_retryable_status_at_and_below_limit (env : Env) (fuel : Nat) (method url : String)
    (options : List Options) (s : St) (o : Options) (u : URL) (res : Response)
    (hext : extendAll env s.options options = .ok o)
    (hu : env.GetFullUrl o.PrefixURL url = .ok u)
    (hadapter : env.Adapter s.calls (prepare env method url u o) = ⟨some res, none⟩)
    (hretry : o.Retry = true)
    (hstatus : res.StatusCode ∈ o.RetryOptions.StatusCodes)
    (hmethod : method ∈ o.RetryOptions.Methods) :
    ((o.retries : Int) ≥ o.RetryOptions.Limit →
      DoRequest env (fuel + 1) method url options s =
        (.ret (some res) (some .maxRetriesExceeded),
          CloseBody ⟨prepare env method url u o, s.calls + 1,
            s.trace ++ [.dispatch (prepare env method url u o)]⟩) ∧
      (DoRequest env (fuel + 1) method url options s).2.calls = s.calls + 1) ∧
    ((o.retries : Int) < o.RetryOptions.Limit →
      attempt env method url { s with options := prepare env method url u o } =
        retry env method url
          ⟨prepare env method url u o, s.calls + 1,
            s.trace ++ [.dispatch (prepare env method url u o)]⟩ (some res) none ∧
      ∀ t, getTimeout env (env.Now (s.calls + 1)) (prepare env method url u o) (some res) = .ok t →
        DoRequest env (fuel + 1) method url options s =
          ((DoRequest env fuel method url []
              ⟨{ prepare env method url u o with retries := o.retries + 1 }, s.calls + 1,
                s.trace ++ [.dispatch (prepare env method url u o),
                  .sleep (env.CalculateTimeout o.retries o.RetryOptions t none)]⟩).1,
            CloseBody (DoRequest env fuel method url []
              ⟨{ prepare env method url u o with retries := o.retries + 1 }, s.calls + 1,
                s.trace ++ [.dispatch (prepare env method url u o),
                  .sleep (env.CalculateTimeout o.retries o.RetryOptions t none)]⟩).2)) := by
  obtain ⟨b, q, hp⟩ := prepare_shape env method url u o
  have hR : (prepare env method url u o).Retry = true := by rw [hp]; exact hretry
  have hRO : (prepare env method url u o).RetryOptions = o.RetryOptions := by rw [hp]
  have hn : (prepare env method url u o).retries = o.retries := by rw [hp]
  have hcond : (prepare env method url u o).Retry = true ∧
      IntArrayContains (prepare env method url u o).RetryOptions.StatusCodes res.StatusCode = true ∧
      StringArrayContains (prepare env method url u o).RetryOptions.Methods method = true := by
    rw [hRO, IntArrayContains_iff, StringArrayContains_iff]
    exact ⟨hR, hstatus, hmethod⟩
  constructor
  · intro hlim
    have hlim1 : ((prepare env method url u o).retries : Int) ≥
        (prepare env method url u o).RetryOptions.Limit := by rw [hRO, hn]; exact hlim
    have hstep : DoRequest env (fuel + 1) method url options s =
        (.ret (some res) (some .maxRetriesExceeded),
          CloseBody ⟨prepare env method url u o, s.calls + 1,
            s.trace ++ [.dispatch (prepare env method url u o)]⟩) := by
      rw [DoRequest_succ env fuel method url options s o u hext hu]
      simp only [attempt_dispatch, hadapter, hcond, hlim1, if_true, and_self]
    exact ⟨hstep, by rw [hstep]; rfl⟩
  · intro hlim
    have hlim1 : ¬ ((prepare env method url u o).retries : Int) ≥
        (prepare env method url u o).RetryOptions.Limit := by rw [hRO, hn]; omega
    have hatt : attempt env method url { s with options := prepare env method url u o } =
        retry env method url
          ⟨prepare env method url u o, s.calls + 1,
            s.trace ++ [.dispatch (prepare env method url u o)]⟩ (some res) none := by
      simp only [attempt_dispatch, hadapter, hcond, hlim1, if_true, if_false, and_self]
    refine ⟨hatt, ?_⟩
    intro t ht
    rw [DoRequest_succ env fuel method url options s o u hext hu, hatt]
    simp only [retry, ht, hn, hRO, List.append_assoc, List.singleton_append]

/-- Witness of C9: with the retry counter at the limit 2, a 503 answer to a GET comes back
together with the max-retries error after one dispatch. -/
theorem C9_retryable_status_at_and_below_limit_witness :
    (DoRequest (sampleEnv (answeringAdapter (retryAfterResponse "1"))) 1 "GET" "/" []
      ⟨{ sampleOptions with retries := 2 }, 0, []⟩).1 =
        .ret (some (retryAfterResponse "1")) (some .maxRetriesExceeded) ∧
    (DoRequest (sampleEnv (answeringAdapter (retryAfterResponse "1"))) 1 "GET" "/" []
      ⟨{ sampleOptions with retries := 2 }, 0, []⟩).2.calls = 0 + 1 := by
  have h := (C9_retryable_status_at_and_below_limit
    (sampleEnv (answeringAdapter (retryAfterResponse "1"))) 0 "GET" "/" []
    ⟨{ sampleOptions with retries := 2 }, 0, []⟩ { sampleOptions with retries := 2 } sampleUrl
    (retryAfterResponse "1") rfl rfl rfl rfl (by decide) (by decide)).1 (by decide)
  exact ⟨congrArg Prod.fst h.1, h.2⟩

/-- C10: a transport error that does not qualify for a retry (retrying disabled, or the
retry counter not below the limit, or the message outside the retryable-error set) is
returned as it is, with no response, after that single dispatch, and the retry counter
keeps its value. -/
theorem C10_transport_error_is_returned (env : Env) (fuel : Nat) (method url : String)
    (options : List Options) (s : St) (o : Options) (u : URL) (res : Option Response)
    (msg : String)
    (hext : extendAll env s.options options = .ok o)
    (hu : env.GetFullUrl o.PrefixURL url = .ok u)
    (hadapter : env.Adapter s.calls (prepare env method url u o) = ⟨res, some msg⟩)
    (hno : o.Retry = false ∨ ¬ ((o.retries : Int) < o.RetryOptions.Limit) ∨
      msg ∉ o.RetryOptions.ErrorCodes) :
    DoRequest env (fuel + 1) method url options s =
      (.ret none (some (.text msg)),
        CloseBody ⟨prepare env method url u o, s.calls + 1,
          s.trace ++ [.dispatch (prepare env method url u o)]⟩) ∧
    (DoRequest env (fuel + 1) method url options s).2.calls = s.calls + 1 ∧
    (DoRequest env (fuel + 1) method url options s).2.options.retries = o.retries :=
  DoRequest_transport_error env fuel method url options s o u res msg hext hu hadapter hno

/-- Witness of C10: with retrying disabled the `ETIMEDOUT` failure is returned after one
dispatch, the retry counter still 0. -/
theorem C10_transport_error_is_returned_witness :
    (DoRequest (sampleEnv timeoutAdapter) 1 "GET" "/" []
      ⟨{ sampleOptions with Retry := false }, 0, []⟩).1 =
        .ret none (some (.text "ETIMEDOUT")) ∧
    (DoRequest (sampleEnv timeoutAdapter) 1 "GET" "/" []
      ⟨{ sampleOptions with Retry := false }, 0, []⟩).2.calls = 0 + 1 ∧
    (DoRequest (sampleEnv timeoutAdapter) 1 "GET" "/" []
      ⟨{ sampleOptions with Retry := false }, 0, []⟩).2.options.retries = 0 := by
  have h := C10_transport_error_is_returned (sampleEnv timeoutAdapter) 0 "GET" "/" []
    ⟨{ sampleOptions with Retry := false }, 0, []⟩ { sampleOptions with Retry := false }
    sampleUrl none "ETIMEDOUT" rfl rfl rfl (Or.inl rfl)
  exact ⟨congrArg Prod.fst h.1, h.2.1, h.2.2⟩

/-- C11, as stated, fails: with redirect-following enabled, a 302 answer with a non-empty
location and no retry applying, a request whose visited list has reached the redirect
limit 2 does not follow the redirect and does not return the response either: it returns
no response with the max-redirects error (the third answer of a request on a transport
that always redirects). -/
theorem C11_redirect_not_followed_at_limit :
    sampleOptions.FollowRedirect = true ∧
    Header.Get [("Location", ["/next"])] "location" ≠ "" ∧
    (302 : Int) ∈ RedirectStatusCodes ∧
    (302 : Int) ∉ sampleOptions.RetryOptions.StatusCodes ∧
    (attempt (sampleEnv redirectingAdapter) "GET" "/"
      ⟨prepare (sampleEnv redirectingAdapter) "GET" "/" sampleUrl
        { sampleOptions with redirectUrls := [sampleUrl, sampleUrl] }, 2, []⟩).1 =
      .done none (some (.maxRedirectsExceeded 2)) ∧
    (DoRequest (sampleEnv redirectingAdapter) 3 "GET" "/" [] ⟨sampleOptions, 0, []⟩).1 =
      .ret none (some (.maxRedirectsExceeded 2)) ∧
    (DoRequest (sampleEnv redirectingAdapter) 3 "GET" "/" [] ⟨sampleOptions, 0, []⟩).2.calls =
      3 := by
  decide

/-- C11, amended: when the transport returns a response and no retry applies, `DoRequest`
enters its redirect branch if redirect-following is enabled, the location header is
non-empty and the status is one of 301, 302, 303, 307, 308; in that branch it calls
itself for the next hop exactly when the redirect limit is not reached and the location
resolves against the current full url, and at the limit it returns no response with the
max-redirects error.  In every other case it returns the transport's response unchanged
with no error after exactly one dispatch. -/
theorem C11_redirect_decision (env : Env) (fuel : Nat) (method url : String)
    (options : List Options) (s : St) (o : Options) (u : URL) (res : Response)
    (hext : extendAll env s.options options = .ok o)
    (hu : env.GetFullUrl o.PrefixURL url = .ok u)
    (hadapter : env.Adapter s.calls (prepare env method url u o) = ⟨some res, none⟩)
    (hnoretry : o.Retry = false ∨ res.StatusCode ∉ o.RetryOptions.StatusCodes ∨
      method ∉ o.RetryOptions.Methods) :
    ((o.FollowRedirect = true ∧ res.Header.Get "location" ≠ "" ∧
        res.StatusCode ∈ RedirectStatusCodes) →
      attempt env method url { s with options := prepare env method url u o } =
        redirect env ⟨prepare env method url u o, s.calls + 1,
          s.trace ++ [.dispatch (prepare env method url u o)]⟩ res ∧
      ((∃ m t s2, attempt env method url { s with options := prepare env method url u o } =
          (.again m t, s2)) ↔
        ¬ (o.RedirectOptions.Limit ≠ 0 ∧
          (o.redirectUrls.length : Int) ≥ o.RedirectOptions.Limit) ∧
        ∃ cur v, (prepare env method url u o).FullUrl = some cur ∧
          env.GetFullUrl cur.toString (res.Header.Get "location") = .ok v) ∧
      ((o.RedirectOptions.Limit ≠ 0 ∧
          (o.redirectUrls.length : Int) ≥ o.RedirectOptions.Limit) →
        (DoRequest env (fuel + 1) method url options s).1 =
          .ret none (some (.maxRedirectsExceeded o.redirectUrls.length)) ∧
        (DoRequest env (fuel + 1) method url options s).2.calls = s.calls + 1)) ∧
    (¬ (o.FollowRedirect = true ∧ res.Header.Get "location" ≠ "" ∧
        res.StatusCode ∈ RedirectStatusCodes) →
      DoRequest env (fuel + 1) method url options s =
        (.ret (some res) none,
          CloseBody ⟨prepare env method url u o, s.calls + 1,
            s.trace ++ [.dispatch (prepare env method url u o)]⟩) ∧
      (DoRequest env (fuel + 1) method url options s).2.calls = s.calls + 1) := by
  obtain ⟨p1, p2, p3, p4, p5, p6, -, -, -⟩ := prepare_frame env method url u o
  have hnr : ¬ ((prepare env method url u o).Retry = true ∧
      IntArrayContains (prepare env method url u o).RetryOptions.StatusCodes res.StatusCode = true ∧
      StringArrayContains (prepare env method url u o).RetryOptions.Methods method = true) := by
    rw [p5, p3, IntArrayContains_iff, StringArrayContains_iff]
    rintro ⟨h1, h2, h3⟩
    rcases hnoretry with h | h | h
    · rw [h] at h1; exact Bool.noConfusion h1
    · exact h h2
    · exact h h3
  constructor
  · intro hc
    have hred : (prepare env method url u o).FollowRedirect = true ∧
        res.Header.Get "location" ≠ "" ∧
        IntArrayContains RedirectStatusCodes res.StatusCode = true := by
      rw [p6, IntArrayContains_iff]; exact hc
    have hatt := attempt_redirect env method url
      ⟨prepare env method url u o, s.calls, s.trace⟩ res hadapter hnr hred
    refine ⟨hatt, ?_, ?_⟩
    · rw [hatt, redirect_again_iff]
      dsimp only
      rw [p2, p4]
    · intro hlim
      have hlimit : (prepare env method url u o).RedirectOptions.Limit ≠ 0 ∧
          ((prepare env method url u o).redirectUrls.length : Int) ≥
            (prepare env method url u o).RedirectOptions.Limit := by
        rw [p2, p4]; exact hlim
      rw [DoRequest_succ env fuel method url options s o u hext hu, hatt,
        redirect_at_limit env _ res hlimit]
      dsimp only
      rw [p2]
      exact ⟨rfl, rfl⟩
  · intro hc
    have hred : ¬ ((prepare env method url u o).FollowRedirect = true ∧
        res.Header.Get "location" ≠ "" ∧
        IntArrayContains RedirectStatusCodes res.StatusCode = true) := by
      rw [p6, IntArrayContains_iff]; exact hc
    have hatt := attempt_success env method url
      ⟨prepare env method url u o, s.calls, s.trace⟩ res hadapter hnr hred
    have hstep : DoRequest env (fuel + 1) method url options s =
        (.ret (some res) none,
          CloseBody ⟨prepare env method url u o, s.calls + 1,
            s.trace ++ [.dispatch (prepare env method url u o)]⟩) := by
      rw [DoRequest_succ env fuel method url options s o u hext hu, hatt]
    exact ⟨hstep, by rw [hstep]; rfl⟩

/-- Witness of C11 (amended): a 200 answer with retrying and redirects enabled comes back
as it is after one dispatch. -/
theorem C11_redirect_decision_witness :
    (DoRequest (sampleEnv (answeringAdapter okResponse)) 1 "GET" "/" []
      ⟨sampleOptions, 0, []⟩).1 = .ret (some okResponse) none ∧
    (DoRequest (sampleEnv (answeringAdapter okResponse)) 1 "GET" "/" []
      ⟨sampleOptions, 0, []⟩).2.calls = 0 + 1 := by
  have h := (C11_redirect_decision (sampleEnv (answeringAdapter okResponse)) 0 "GET" "/" []
    ⟨sampleOptions, 0, []⟩ sampleOptions sampleUrl okResponse rfl rfl rfl
    (Or.inr (Or.inl (by decide)))).2 (by decide)
  exact ⟨congrArg Prod.fst h.1, h.2⟩

/-- C12, as stated, fails: after a first request on a failing transport has used up the
retry limit 2 (and returned the transport error), the retry counter on the client is
still 2; a second top-level call, answered 503 and then 200, makes no retry and returns
the 503 with the max-retries error after one dispatch, where the same call with a retry
counter of 0 and an empty visited list retries once and returns the 200. -/
theorem C12_counters_reused_by_next_request :
    (DoRequest (sampleEnv failThriceAdapter) 3 "GET" "/" [] ⟨sampleOptions, 0, []⟩).1 =
      .ret none (some (.text "ETIMEDOUT")) ∧
    (DoRequest (sampleEnv failThriceAdapter) 3 "GET" "/" []
      ⟨sampleOptions, 0, []⟩).2.options.retries = 2 ∧
    (DoRequest (sampleEnv failThriceAdapter) 3 "GET" "/" []
      (DoRequest (sampleEnv failThriceAdapter) 3 "GET" "/" [] ⟨sampleOptions, 0, []⟩).2).1 =
      .ret (some unavailableResponse) (some .maxRetriesExceeded) ∧
    (DoRequest (sampleEnv failThriceAdapter) 3 "GET" "/" []
      (DoRequest (sampleEnv failThriceAdapter) 3 "GET" "/" [] ⟨sampleOptions, 0, []⟩).2).2.calls =
      3 + 1 ∧
    (DoRequest (sampleEnv failThriceAdapter) 3 "GET" "/" []
      { (DoRequest (sampleEnv failThriceAdapter) 3 "GET" "/" [] ⟨sampleOptions, 0, []⟩).2 with
        options := { (DoRequest (sampleEnv failThriceAdapter) 3 "GET" "/" []
          ⟨sampleOptions, 0, []⟩).2.options with retries := 0, redirectUrls := [] } }).1 =
      .ret (some okResponse) none ∧
    (DoRequest (sampleEnv failThriceAdapter) 3 "GET" "/" []
      { (DoRequest (sampleEnv failThriceAdapter) 3 "GET" "/" [] ⟨sampleOptions, 0, []⟩).2 with
        options := { (DoRequest (sampleEnv failThriceAdapter) 3 "GET" "/" []
          ⟨sampleOptions, 0, []⟩).2.options with retries := 0, redirectUrls := [] } }).2.calls =
      3 + 2 := by
  decide

/-- C12, amended: the retry counter and the visited-redirect list stay on the client's
options from one call to the next.  For the state `s1` that a first `DoRequest` call
(without per-call options) leaves: the counter is not lower and the list not shorter
than before that call, the limits are the same, and a second top-level call on `s1`
decides from what it finds there: with the leftover counter at or above the limit a
retryable response comes back with the max-retries error and a transport error comes
back as it is, each after one dispatch and without a retry; with the counter below the
limit the retry closure runs; and with the leftover list at the redirect limit a
redirect response is not followed but answered with the max-redirects error carrying
the length of that list. -/
theorem C12_counters_carried_over (env : Env) (fuel1 fuel2 : Nat)
    (method1 url1 method2 url2 : String) (s s1 : St) (u : URL)
    (hleft : s1 = (DoRequest env fuel1 method1 url1 [] s).2)
    (hu : env.GetFullUrl s1.options.PrefixURL url2 = .ok u) :
    s.options.retries ≤ s1.options.retries ∧
    s.options.redirectUrls <+: s1.options.redirectUrls ∧
    s1.options.RetryOptions = s.options.RetryOptions ∧
    s1.options.RedirectOptions = s.options.RedirectOptions ∧
    (∀ res, env.Adapter s1.calls (prepare env method2 url2 u s1.options) = ⟨some res, none⟩ →
      s1.options.Retry = true → res.StatusCode ∈ s.options.RetryOptions.StatusCodes →
      method2 ∈ s.options.RetryOptions.Methods →
      ((s1.options.retries : Int) ≥ s.options.RetryOptions.Limit →
        (DoRequest env (fuel2 + 1) method2 url2 [] s1).1 =
          .ret (some res) (some .maxRetriesExceeded) ∧
        (DoRequest env (fuel2 + 1) method2 url2 [] s1).2.calls = s1.calls + 1) ∧
      ((s1.options.retries : Int) < s.options.RetryOptions.Limit →
        attempt env method2 url2 { s1 with options := prepare env method2 url2 u s1.options } =
          retry env method2 url2
            ⟨prepare env method2 url2 u s1.options, s1.calls + 1,
              s1.trace ++ [.dispatch (prepare env method2 url2 u s1.options)]⟩ (some res) none)) ∧
    (∀ r msg, env.Adapter s1.calls (prepare env method2 url2 u s1.options) = ⟨r, some msg⟩ →
      ¬ ((s1.options.retries : Int) < s.options.RetryOptions.Limit) →
      (DoRequest env (fuel2 + 1) method2 url2 [] s1).1 = .ret none (some (.text msg)) ∧
      (DoRequest env (fuel2 + 1) method2 url2 [] s1).2.calls = s1.calls + 1) ∧
    (∀ res, env.Adapter s1.calls (prepare env method2 url2 u s1.options) = ⟨some res, none⟩ →
      (s1.options.Retry = false ∨ res.StatusCode ∉ s.options.RetryOptions.StatusCodes ∨
        method2 ∉ s.options.RetryOptions.Methods) →
      (s1.options.FollowRedirect = true ∧ res.Header.Get "location" ≠ "" ∧
        res.StatusCode ∈ RedirectStatusCodes) →
      (s.options.RedirectOptions.Limit ≠ 0 ∧
        (s1.options.redirectUrls.length : Int) ≥ s.options.RedirectOptions.Limit) →
      (DoRequest env (fuel2 + 1) method2 url2 [] s1).1 =
        .ret none (some (.maxRedirectsExceeded s1.options.redirectUrls.length)) ∧
      (DoRequest env (fuel2 + 1) method2 url2 [] s1).2.calls = s1.calls + 1) := by
  have hk := DoRequest_counters_kept env fuel1 method1 url1 s
  have hl := DoRequest_limits_kept env fuel1 method1 url1 s
  rw [← hleft] at hk hl
  obtain ⟨hRO, hRD, -, -⟩ := hl
  obtain ⟨p1, p2, p3, p4, p5, p6, -, -, -⟩ := prepare_frame env method2 url2 u s1.options
  refine ⟨hk.1, hk.2, hRO, hRD, ?_, ?_, ?_⟩
  · intro res hadapter hretry hstatus hmethod
    obtain ⟨hat, hbelow⟩ := attempt_retryable_status env method2 url2
      ⟨prepare env method2 url2 u s1.options, s1.calls, s1.trace⟩ res hadapter
      (by dsimp only; rw [p5]; exact hretry)
      (by dsimp only; rw [p3, hRO]; exact hstatus)
      (by dsimp only; rw [p3, hRO]; exact hmethod)
    dsimp only at hat hbelow
    rw [p1, p3, hRO] at hat hbelow
    constructor
    · intro hlim
      rw [DoRequest_succ env fuel2 method2 url2 [] s1 s1.options u rfl hu, hat hlim]
      exact ⟨rfl, rfl⟩
    · intro hlim
      exact hbelow hlim
  · intro r msg hadapter hlim
    have h := DoRequest_transport_error env fuel2 method2 url2 [] s1 s1.options u r msg rfl hu
      hadapter (Or.inr (Or.inl (by rw [hRO]; exact hlim)))
    exact ⟨by rw [h.1], h.2.1⟩
  · intro res hadapter hnoretry hcond hlim
    have hnr : ¬ ((prepare env method2 url2 u s1.options).Retry = true ∧
        IntArrayContains (prepare env method2 url2 u s1.options).RetryOptions.StatusCodes
          res.StatusCode = true ∧
        StringArrayContains (prepare env method2 url2 u s1.options).RetryOptions.Methods
          method2 = true) := by
      rw [p5, p3, hRO, IntArrayContains_iff, StringArrayContains_iff]
      rintro ⟨h1, h2, h3⟩
      rcases hnoretry with h | h | h
      · rw [h] at h1; exact Bool.noConfusion h1
      · exact h h2
      · exact h h3
    have hred : (prepare env method2 url2 u s1.options).FollowRedirect = true ∧
        res.Header.Get "location" ≠ "" ∧
        IntArrayContains RedirectStatusCodes res.StatusCode = true := by
      rw [p6, IntArrayContains_iff]; exact hcond
    have hatt := attempt_redirect env method2 url2
      ⟨prepare env method2 url2 u s1.options, s1.calls, s1.trace⟩ res hadapter hnr hred
    have hlimit : (prepare env method2 url2 u s1.options).RedirectOptions.Limit ≠ 0 ∧
        ((prepare env method2 url2 u s1.options).redirectUrls.length : Int) ≥
          (prepare env method2 url2 u s1.options).RedirectOptions.Limit := by
      rw [p2, p4, hRD]; exact hlim
    rw [DoRequest_succ env fuel2 method2 url2 [] s1 s1.options u rfl hu, hatt,
      redirect_at_limit env _ res hlimit]
    dsimp only
    rw [p2]
    exact ⟨rfl, rfl⟩

/-- Witness of C12 (amended): on the state left by a request that used up the retry limit
2, the next call, answered 503, returns that response with the max-retries error after
one dispatch. -/
theorem C12_counters_carried_over_witness :
    (DoRequest (sampleEnv failThriceAdapter) 3 "GET" "/" []
      (DoRequest (sampleEnv failThriceAdapter) 3 "GET" "/" [] ⟨sampleOptions, 0, []⟩).2).1 =
      .ret (some unavailableResponse) (some .maxRetriesExceeded) ∧
    (DoRequest (sampleEnv failThriceAdapter) 3 "GET" "/" []
      (DoRequest (sampleEnv failThriceAdapter) 3 "GET" "/" [] ⟨sampleOptions, 0, []⟩).2).2.calls =
      (DoRequest (sampleEnv failThriceAdapter) 3 "GET" "/" [] ⟨sampleOptions, 0, []⟩).2.calls +
        1 :=
  ((C12_counters_carried_over (sampleEnv failThriceAdapter) 3 2 "GET" "/" "GET" "/"
    ⟨sampleOptions, 0, []⟩
    (DoRequest (sampleEnv failThriceAdapter) 3 "GET" "/" [] ⟨sampleOptions, 0, []⟩).2
    sampleUrl rfl rfl).2.2.2.2.1 unavailableResponse (by decide) (by decide) (by decide)
    (by decide)).1 (by decide)

/-- C13, as stated, fails: a GET to `/` is redirected to `http://b.test/`, the next hop is
answered 503 and a retry is scheduled: the retried dispatch goes to `http://b.test/`,
the redirect target, not to the `/` the caller passed; the request then returns the
200 of that third dispatch. -/
theorem C13_retry_after_redirect_goes_to_redirect_target :
    (DoRequest (sampleEnv redirectThenUnavailableAdapter) 3 "GET" "/" []
      ⟨sampleOptions, 0, []⟩).1 = .ret (some okResponse) none ∧
    (dispatched (DoRequest (sampleEnv redirectThenUnavailableAdapter) 3 "GET" "/" []
      ⟨sampleOptions, 0, []⟩).2.trace).map (fun o => o.URI) =
        ["/", "http://b.test/", "http://b.test/"] ∧
    (dispatched (DoRequest (sampleEnv redirectThenUnavailableAdapter) 3 "GET" "/" []
      ⟨sampleOptions, 0, []⟩).2.trace).map (fun o => o.FullUrl) =
        [some sampleUrl, some otherUrl, some otherUrl] ∧
    (DoRequest (sampleEnv redirectThenUnavailableAdapter) 3 "GET" "/" []
      ⟨sampleOptions, 0, []⟩).2.options.retries = 1 := by
  decide

/-- C13, amended: every retry re-dispatches with the method and the url of the `DoRequest`
call that scheduled it: the retry closure calls `DoRequest` with exactly these two, the
retry counter one higher and the prefix unchanged, and that call dispatches options
whose method and `URI` are these two.  On the first hop they are the caller's method and
url; on a hop entered by a followed redirect they are the method and the resolved
redirect url the redirect branch passed on. -/
theorem C13_retry_redispatches_current_hop (env : Env) (method url : String) (s : St)
    (res : Option Response) (err : Option GoError) (m t : String) (s2 : St)
    (hretry : retry env method url s res err = (.again m t, s2)) :
    m = method ∧ t = url ∧
    s2.options.retries = s.options.retries + 1 ∧
    s2.options.PrefixURL = s.options.PrefixURL ∧
    (∀ fuel u, env.GetFullUrl s2.options.PrefixURL url = .ok u →
      (∃ rest, (DoRequest env (fuel + 1) m t [] s2).2.trace =
        s2.trace ++ .dispatch (prepare env method url u s2.options) :: rest) ∧
      (prepare env method url u s2.options).Method = method ∧
      (prepare env method url u s2.options).URI = url) ∧
    (∀ s0 res0 m1 target s1, redirect env s0 res0 = (.again m1 target, s1) →
      ∃ cur v, s0.options.FullUrl = some cur ∧
        env.GetFullUrl cur.toString (res0.Header.Get "location") = .ok v ∧
        target = v.toString ∧ m1 = s1.options.Method) := by
  have hm : m = method ∧ t = url ∧ s2.options.retries = s.options.retries + 1 ∧
      s2.options.PrefixURL = s.options.PrefixURL := by
    rcases retry_cases env method url s res err with ⟨w, hw⟩ | ⟨-, hn⟩
    · rw [hw] at hretry
      simp only [Prod.mk.injEq, Next.again.injEq] at hretry
      obtain ⟨⟨h1, h2⟩, h3⟩ := hretry
      rw [← h3]
      exact ⟨h1.symm, h2.symm, rfl, rfl⟩
    · exact absurd (congrArg Prod.fst hretry) (hn m t)
  obtain ⟨h1, h2, h3, h4⟩ := hm
  refine ⟨h1, h2, h3, h4, ?_, ?_⟩
  · intro fuel u hu
    subst h1 h2
    obtain ⟨-, -, -, -, -, -, -, huri, -⟩ := prepare_frame env m t u s2.options
    exact ⟨DoRequest_first_dispatch env fuel m t [] s2 s2.options u rfl hu,
      prepare_Method env m t u s2.options, huri⟩
  · intro s0 res0 m1 target s1 hred
    obtain ⟨cur, v, hcur, hv, ht, -, hmeth, -⟩ := redirect_followed env s0 res0 m1 target s1 hred
    exact ⟨cur, v, hcur, hv, ht, hmeth.symm⟩

/-- Witness of C13 (amended): the retry closure on a 503 answer to a GET of
`http://b.test/` calls `DoRequest` with that method and that url again. -/
theorem C13_retry_redispatches_current_hop_witness :
    (retry (sampleEnv redirectThenUnavailableAdapter) "GET" "http://b.test/"
      ⟨sampleOptions, 2, []⟩ (some unavailableResponse) none).1 =
        .again "GET" "http://b.test/" ∧
    (retry (sampleEnv redirectThenUnavailableAdapter) "GET" "http://b.test/"
      ⟨sampleOptions, 2, []⟩ (some unavailableResponse) none).2.options.retries = 0 + 1 := by
  have h := C13_retry_redispatches_current_hop (sampleEnv redirectThenUnavailableAdapter)
    "GET" "http://b.test/" ⟨sampleOptions, 2, []⟩ (some unavailableResponse) none
    "GET" "http://b.test/"
    (retry (sampleEnv redirectThenUnavailableAdapter) "GET" "http://b.test/"
      ⟨sampleOptions, 2, []⟩ (some unavailableResponse) none).2 (by decide)
  exact ⟨by decide, h.2.2.1⟩

/-- C14 failing: with a `Json` payload, no `Form` and a marshal function that fails,
`ParseBody` returns the marshal error, but `DoRequest` drops it: the request is
dispatched once, with no body, and the transport's 200 response comes back with no
error. -/
theorem C14_marshal_error_is_dropped :
    (ParseBody (failingMarshalEnv (answeringAdapter okResponse)) jsonOptions).2 =
      some (.text "marshal failed") ∧
    (DoRequest (failingMarshalEnv (answeringAdapter okResponse)) 1 "POST" "/" []
      ⟨jsonOptions, 0, []⟩).1 = .ret (some okResponse) none ∧
    (DoRequest (failingMarshalEnv (answeringAdapter okResponse)) 1 "POST" "/" []
      ⟨jsonOptions, 0, []⟩).2.calls = 1 ∧
    (dispatched (DoRequest (failingMarshalEnv (answeringAdapter okResponse)) 1 "POST" "/" []
      ⟨jsonOptions, 0, []⟩).2.trace).map (fun o => o.Body) = [none] := by
  decide

/-- C15 failing: a `RequestAdapter` created without a `Request` builds the request of its
first call from `options.Url` (nil here: `DoRequest` assigns `FullUrl`, never `Url`) and
keeps it: the second call, made with the options of a GET to `http://b.test/`, hands
the round tripper the first request again, a POST with the first body. -/
theorem C15_request_adapter_keeps_first_request :
    (prepare (sampleEnv timeoutAdapter) "POST" "/" sampleUrl postOptions).FullUrl =
      some sampleUrl ∧
    (RequestAdapter.DoRequest okRoundTrip ⟨none⟩
      (prepare (sampleEnv timeoutAdapter) "POST" "/" sampleUrl postOptions)).2.1.URL = none ∧
    (prepare (sampleEnv timeoutAdapter) "GET" "http://b.test/" otherUrl sampleOptions).Method =
      "GET" ∧
    (RequestAdapter.DoRequest okRoundTrip
      (RequestAdapter.DoRequest okRoundTrip ⟨none⟩
        (prepare (sampleEnv timeoutAdapter) "POST" "/" sampleUrl postOptions)).1
      (prepare (sampleEnv timeoutAdapter) "GET" "http://b.test/" otherUrl sampleOptions)).2.1 =
      (RequestAdapter.DoRequest okRoundTrip ⟨none⟩
        (prepare (sampleEnv timeoutAdapter) "POST" "/" sampleUrl postOptions)).2.1 ∧
    (RequestAdapter.DoRequest okRoundTrip
      (RequestAdapter.DoRequest okRoundTrip ⟨none⟩
        (prepare (sampleEnv timeoutAdapter) "POST" "/" sampleUrl postOptions)).1
      (prepare (sampleEnv timeoutAdapter) "GET" "http://b.test/" otherUrl sampleOptions)).2.1.Method =
      "POST" ∧
    (RequestAdapter.DoRequest okRoundTrip
      (RequestAdapter.DoRequest okRoundTrip ⟨none⟩
        (prepare (sampleEnv timeoutAdapter) "POST" "/" sampleUrl postOptions)).1
      (prepare (sampleEnv timeoutAdapter) "GET" "http://b.test/" otherUrl sampleOptions)).2.1.Body =
      some ⟨"hi"⟩ := by
  decide

/-- C16: for every retry limit `L`, every nonzero redirect limit `R` and every transport,
a request that starts with a retry counter of 0 and an empty visited list ends with any
fuel above `L + R` (the recursion of `DoRequest` is bounded) after at most `L + R + 1`
dispatches, and it ends by returning whenever every answer of the transport carries a
response; an attempt that calls `DoRequest` again either adds one to the retry counter
and keeps the visited list, or keeps the retry counter and appends one url. -/
theorem C16_terminates_within_bound (env : Env) (L R fuel : Nat) (method url : String)
    (options : List Options) (s : St) (o : Options)
    (hR : R ≠ 0)
    (hext : extendAll env s.options options = .ok o)
    (hL : o.RetryOptions.Limit = (L : Int))
    (hRl : o.RedirectOptions.Limit = (R : Int))
    (hzero : o.retries = 0)
    (hempty : o.redirectUrls = [])
    (hfuel : L + R < fuel) :
    (DoRequest env fuel method url options s).1 ≠ .outOfFuel ∧
    (DoRequest env fuel method url options s).2.calls ≤ s.calls + (L + R) + 1 ∧
    ((∀ i o1, (env.Adapter i o1).res ≠ none) →
      ∃ res err, (DoRequest env fuel method url options s).1 = .ret res err) ∧
    (∀ m1 u1 s1 m2 t2 s2, attempt env m1 u1 s1 = (.again m2 t2, s2) →
      (s2.options.retries = s1.options.retries + 1 ∧
        s2.options.redirectUrls = s1.options.redirectUrls) ∨
      (s2.options.retries = s1.options.retries ∧
        ∃ v, s2.options.redirectUrls = s1.options.redirectUrls ++ [v])) := by
  have h := DoRequest_bound env L R hR fuel (L + R) method url options s o hext hL hRl
    (by rw [hzero, hempty]; simp) hfuel
  refine ⟨h.1, h.2.1, h.2.2, ?_⟩
  intro m1 u1 s1 m2 t2 s2 hatt
  have hfr := attempt_frame env m1 u1 s1
  rw [hatt] at hfr
  obtain ⟨-, -, -, -, -, hcase⟩ := hfr
  rcases hcase with ⟨h1, -⟩ | ⟨-, -, h3, h4, -⟩ | ⟨⟨m, v, -, h5⟩, -, h7, -⟩
  · exact absurd rfl (h1 m2 t2)
  · exact Or.inl ⟨h3, h4⟩
  · exact Or.inr ⟨h7, v, h5⟩

/-- Witness of C16: limits 2 and 2 on a transport that always redirects: the call ends
within five dispatches. -/
theorem C16_terminates_within_bound_witness :
    (DoRequest (sampleEnv redirectingAdapter) 5 "GET" "/" [] ⟨sampleOptions, 0, []⟩).1 ≠
      .outOfFuel ∧
    (DoRequest (sampleEnv redirectingAdapter) 5 "GET" "/" [] ⟨sampleOptions, 0, []⟩).2.calls ≤
      0 + (2 + 2) + 1 := by
  have h := C16_terminates_within_bound (sampleEnv redirectingAdapter) 2 2 5 "GET" "/" []
    ⟨sampleOptions, 0, []⟩ sampleOptions (by decide) rfl rfl rfl rfl rfl (by decide)
  exact ⟨h.1, h.2.1⟩

/-- C17: `ParseBody` encodes `Form` in preference to `Json`: with `Form` non-empty the
body becomes the ordered encoding of `Form` and no error is returned, whatever `Json`
holds; with `Form` empty and `Json` non-empty the body becomes the output of the marshal
function, or its error is returned and the options are left as they were; with both
empty the options are left as they were and no error is returned.  `Form` and `Json`
are never modified. -/
theorem C17_ParseBody_form_before_json (env : Env) (o : Options) :
    (o.Form ≠ [] →
      ParseBody env o = ({ o with Body := some ⟨env.EncodeWithOrder o.Form⟩ }, none)) ∧
    (o.Form = [] → o.Json ≠ [] → ∀ bytes, env.MarshalJson o.Json = .ok bytes →
      ParseBody env o = ({ o with Body := some ⟨bytes⟩ }, none)) ∧
    (o.Form = [] → o.Json ≠ [] → ∀ err, env.MarshalJson o.Json = .error err →
      ParseBody env o = (o, some err)) ∧
    (o.Form = [] → o.Json = [] → ParseBody env o = (o, none)) ∧
    (ParseBody env o).1.Form = o.Form ∧ (ParseBody env o).1.Json = o.Json := by
  refine ⟨?_, ?_, ?_, ?_, ?_, ?_⟩
  · intro hf
    have hlen : o.Form.length ≠ 0 := fun h => hf (List.length_eq_zero.mp h)
    unfold ParseBody
    rw [if_pos hlen]
  · intro hf hj bytes hm
    have hlen : o.Json.length ≠ 0 := fun h => hj (List.length_eq_zero.mp h)
    unfold ParseBody
    rw [hf, if_neg (by simp), if_pos hlen]
    simp only [hm]
  · intro hf hj err hm
    have hlen : o.Json.length ≠ 0 := fun h => hj (List.length_eq_zero.mp h)
    unfold ParseBody
    rw [hf, if_neg (by simp), if_pos hlen]
    simp only [hm]
  · intro hf hj
    unfold ParseBody
    rw [hf, hj, if_neg (by simp), if_neg (by simp)]
  · obtain ⟨b, hb⟩ := ParseBody_shape env o
    rw [hb]
  · obtain ⟨b, hb⟩ := ParseBody_shape env o
    rw [hb]

/-- Witness of C17: with a `Json` payload, no `Form` and a failing marshal function, the
error is returned and the options are left as they were. -/
theorem C17_ParseBody_form_before_json_witness :
    ParseBody (failingMarshalEnv timeoutAdapter) jsonOptions =
      (jsonOptions, some (.text "marshal failed")) :=
  (C17_ParseBody_form_before_json (failingMarshalEnv timeoutAdapter) jsonOptions).2.2.1
    rfl (by decide) (.text "marshal failed") rfl

/-- C18: after every followed redirect the `PrefixURL` option is empty; the next hop
resolves the redirect url against the empty prefix and dispatches options whose full url
is that resolution (with the query re-encoded from the search parameters when there are
any), and every later dispatch of the same request is made with an empty prefix too. -/
theorem C18_prefix_cleared_after_redirect (env : Env) (s : St) (res : Response)
    (m target : String) (s2 : St)
    (hfollowed : redirect env s res = (.again m target, s2)) :
    s2.options.PrefixURL = "" ∧
    (∀ fuel u2, env.GetFullUrl "" target = .ok u2 →
      (∃ rest, (DoRequest env (fuel + 1) m target [] s2).2.trace =
        s2.trace ++ .dispatch (prepare env m target u2 s2.options) :: rest) ∧
      (prepare env m target u2 s2.options).PrefixURL = "" ∧
      (prepare env m target u2 s2.options).FullUrl =
        some (if s2.options.SearchParams.length ≠ 0
          then { u2 with RawQuery := env.EncodeWithOrder s2.options.SearchParams } else u2)) ∧
    (∀ fuel, ∃ rest, (DoRequest env fuel m target [] s2).2.trace = s2.trace ++ rest ∧
      ∀ o ∈ dispatched rest, o.PrefixURL = "") := by
  obtain ⟨cur, v, -, -, -, -, -, -, -, -, -, hcleared⟩ :=
    redirect_followed env s res m target s2 hfollowed
  refine ⟨hcleared, ?_, ?_⟩
  · intro fuel u2 hu2
    obtain ⟨-, -, -, -, -, -, p7, -, -⟩ := prepare_frame env m target u2 s2.options
    refine ⟨?_, by rw [p7]; exact hcleared, prepare_FullUrl env m target u2 s2.options⟩
    exact DoRequest_first_dispatch env fuel m target [] s2 s2.options u2 rfl
      (by rw [hcleared]; exact hu2)
  · intro fuel
    exact DoRequest_prefix_stays_empty env fuel m target s2 hcleared

/-- Witness of C18: a client with the prefix `http://a.test/api` follows a 302 and is left
with an empty prefix. -/
theorem C18_prefix_cleared_after_redirect_witness :
    (redirect (sampleEnv redirectingAdapter)
      ⟨prepare (sampleEnv redirectingAdapter) "GET" "/" sampleUrl
        { sampleOptions with PrefixURL := "http://a.test/api" }, 1, []⟩
      ⟨302, [("Location", ["/next"])], 7, []⟩).2.options.PrefixURL = "" :=
  (C18_prefix_cleared_after_redirect (sampleEnv redirectingAdapter)
    ⟨prepare (sampleEnv redirectingAdapter) "GET" "/" sampleUrl
      { sampleOptions with PrefixURL := "http://a.test/api" }, 1, []⟩
    ⟨302, [("Location", ["/next"])], 7, []⟩ "GET" "http://a.test/"
    (redirect (sampleEnv redirectingAdapter)
      ⟨prepare (sampleEnv redirectingAdapter) "GET" "/" sampleUrl
        { sampleOptions with PrefixURL := "http://a.test/api" }, 1, []⟩
      ⟨302, [("Location", ["/next"])], 7, []⟩).2 (by decide)).1

/-- C19 failing: a transport failure that qualifies for a retry (retrying enabled, counter
0 below the limit 2, `ETIMEDOUT` in the retryable set) and comes with no response, as
`RequestAdapter.DoRequest` returns it, makes `getTimeout` dereference a nil response:
`DoRequest` panics after the first dispatch, without sleeping and without a second
dispatch. -/
theorem C19_retry_on_nil_response_panics :
    sampleOptions.Retry = true ∧
    (sampleOptions.retries : Int) < sampleOptions.RetryOptions.Limit ∧
    StringArrayContains sampleOptions.RetryOptions.ErrorCodes "ETIMEDOUT" = true ∧
    timeoutAdapter 0 sampleOptions = ⟨none, some "ETIMEDOUT"⟩ ∧
    getTimeout (sampleEnv timeoutAdapter) 0 sampleOptions none = .panic ∧
    (DoRequest (sampleEnv timeoutAdapter) 3 "GET" "/" [] ⟨sampleOptions, 0, []⟩).1 = .panic ∧
    (DoRequest (sampleEnv timeoutAdapter) 3 "GET" "/" [] ⟨sampleOptions, 0, []⟩).2.calls = 1 ∧
    (DoRequest (sampleEnv timeoutAdapter) 3 "GET" "/" []
      ⟨sampleOptions, 0, []⟩).2.options.retries = 0 := by
  decide

/-- C20 holding and failing: on the redirect path the response body (7) is closed before
the next dispatch, but when a retry is scheduled for a retryable status (503, body 3)
the trace of the request is dispatch, sleep, dispatch: the second dispatch starts with
body 3 never closed, and the response handed to the caller is the later one (body 4). -/
theorem C20_retry_leaves_response_body_open :
    (DoRequest (sampleEnv redirectingAdapter) 1 "GET" "/" [] ⟨sampleOptions, 0, []⟩).2.trace.drop 1 =
      [.closeResponseBody 7] ∧
    (DoRequest (sampleEnv unavailableThenOkAdapter) 3 "GET" "/" []
      ⟨sampleOptions, 0, []⟩).1 = .ret (some okResponse) none ∧
    (dispatched (DoRequest (sampleEnv unavailableThenOkAdapter) 3 "GET" "/" []
      ⟨sampleOptions, 0, []⟩).2.trace).length = 2 ∧
    ((DoRequest (sampleEnv unavailableThenOkAdapter) 3 "GET" "/" []
      ⟨sampleOptions, 0, []⟩).2.trace.drop 1).take 1 = [.sleep 1000000000] ∧
    Event.closeResponseBody unavailableResponse.Body ∉
      (DoRequest (sampleEnv unavailableThenOkAdapter) 3 "GET" "/" []
        ⟨sampleOptions, 0, []⟩).2.trace := by
  decide

end Gotcha
